import Mathlib

/-!
FileStream.cc (common/os/posix): file channels, lock handles and the FileLocker

A shallow embedding of `FileSource`, `FileSink`, `FileLock` and `FileLocker`.

* The kernel side is an explicit value `OS`: the descriptor table, the open file
  descriptions (offset and advisory lock), the chronological log of the system
  calls issued, and the environment `Env` that decides the outcome of every call
  that can fail.
* `std::shared_ptr<FileSink>` is an address into a heap of cells carrying the
  object and its use count; the destructor runs when the count drops to zero.
* The code is run by one thread, so `m_sinkLock` (Lock/Unlock around the reads
  and writes of `m_sink`) has no effect and is left out.  The `Event` member of
  the channels plays no part in any operation embedded here and is left out.
-/

namespace qcc

/-- The status codes that FileStream.cc returns. -/
inductive QStatus
  | ER_OK
  | ER_FAIL
  | ER_OS_ERROR
  | ER_EOF
  | ER_INIT_FAILED
  | ER_READ_ERROR
  | ER_BUS_NOT_ALLOWED
  deriving DecidableEq, Repr

/-- Ways in which a call ends without returning to its caller. -/
inductive Fault
  /-- A QCC_ASSERT fired. -/
  | assertFailed
  /-- A shared pointer was dereferenced that points to no live object. -/
  | badPointer
  /-- The iteration bound given to a loop was used up. -/
  | outOfFuel
  deriving DecidableEq, Repr

/-! ## The operating system -/

/-- Advisory lock state of an open file description. -/
inductive Held
  | unlocked
  | shared
  | exclusive
  deriving DecidableEq, Repr

/-- An open file description: what `open` creates and `dup` shares. -/
structure OpenFile where
  path : String
  offset : Nat
  held : Held
  deriving DecidableEq, Repr

/-- The lock operation of `flock`; LOCK_NB is a separate flag of the call. -/
inductive FlockOp
  | LOCK_SH
  | LOCK_EX
  | LOCK_UN
  deriving DecidableEq, Repr

/-- The flag combinations FileStream.cc passes to `open`. -/
inductive OpenFlags
  /-- Flag O_RDONLY. -/
  | rdonly
  /-- Flags O_CREAT, O_WRONLY and O_TRUNC. -/
  | creatWronlyTrunc
  /-- Flags O_CREAT and O_RDWR, with O_TRUNC when `trunc` is set. -/
  | creatRdwr (trunc : Bool)
  deriving DecidableEq, Repr

/-- One system call as issued, with its arguments and its return value. -/
inductive Syscall
  | stat (path : String) (ret : Int)
  | mkdir (path : String) (mode : Nat) (ret : Int)
  | openFile (path : String) (flags : OpenFlags) (mode : Nat) (ret : Int)
  | dup (fd : Int) (ret : Int)
  | close (fd : Int)
  | flock (fd : Int) (op : FlockOp) (nonBlocking : Bool) (ret : Int)
  | lseek (fd : Int) (offset : Nat) (ret : Int)
  | fstat (fd : Int) (ret : Int)
  | read (fd : Int) (count : Nat) (ret : Int)
  | write (fd : Int) (count : Nat) (ret : Int)
  deriving DecidableEq, Repr

/-- The environment: for each kind of call that can fail for reasons outside the
program (missing file, permissions, contention, descriptor limit), the outcomes
of the forthcoming calls of that kind, `true` for success.  A list that is used
up means success. -/
structure Env where
  statOk : List Bool := []
  mkdirOk : List Bool := []
  openOk : List Bool := []
  dupOk : List Bool := []
  flockOk : List Bool := []
  lseekOk : List Bool := []
  /-- Outcomes of `fstat`: the size reported, or `none` for a failure.  A list that
  is used up means an empty file. -/
  fstatRet : List (Option Nat) := []
  /-- Outcomes of `read`: the number of bytes that are there to be read, or `none`
  for a failure.  A list that is used up means that the whole request is served. -/
  readRet : List (Option Nat) := []
  /-- Outcomes of `write`: the number of bytes the kernel is ready to take, or
  `none` for a failure.  A list that is used up means that all bytes are taken. -/
  writeRet : List (Option Nat) := []
  deriving DecidableEq, Repr

/-- Kernel state as seen by the process. -/
structure OS where
  /-- Descriptor table: slot `fd` holds the identity of its open file description. -/
  fdtab : List (Option Nat)
  /-- Open file descriptions by identity. -/
  files : Nat → OpenFile
  /-- Number of open file descriptions created so far (the next identity). -/
  nfiles : Nat
  /-- System calls issued so far, oldest first. -/
  log : List Syscall
  env : Env

/-- The open file description in slot `n` of a descriptor table. -/
def slot : List (Option Nat) → Nat → Option Nat
  | [], _ => none
  | h :: _, 0 => h
  | _ :: t, n + 1 => slot t n

/-- The lowest unused descriptor number. -/
def firstFree : List (Option Nat) → Nat
  | [] => 0
  | none :: _ => 0
  | some _ :: t => firstFree t + 1

/-- Put an open file description into the lowest unused slot. -/
def install : List (Option Nat) → Nat → List (Option Nat)
  | [], id => [some id]
  | none :: t, id => some id :: t
  | some x :: t, id => some x :: install t id

/-- Empty slot `n`. -/
def clear : List (Option Nat) → Nat → List (Option Nat)
  | [], _ => []
  | _ :: t, 0 => none :: t
  | h :: t, n + 1 => h :: clear t n

/-- The open file description a descriptor refers to, if it is open. -/
def OS.ofd (os : OS) (fd : Int) : Option Nat :=
  if fd < 0 then none else slot os.fdtab fd.toNat

/-- Append a call to the log. -/
def OS.record (os : OS) (c : Syscall) : OS :=
  { os with log := os.log ++ [c] }

/-- Change one open file description. -/
def OS.setFile (os : OS) (id : Nat) (f : OpenFile) : OS :=
  { os with files := Function.update os.files id f }

/-- The outcome the environment gives to the next call of a kind. -/
def nextOk (l : List Bool) : Bool := l.headD true

/-- The call `stat(path, &sb)`: 0 when the path exists, -1 otherwise. -/
def sys_stat (os : OS) (path : String) : Int × OS :=
  let r : Int := if nextOk os.env.statOk then 0 else -1
  (r, { os with env := { os.env with statOk := os.env.statOk.tail } }.record (.stat path r))

/-- The call `mkdir(path, mode)`. -/
def sys_mkdir (os : OS) (path : String) (mode : Nat) : Int × OS :=
  let r : Int := if nextOk os.env.mkdirOk then 0 else -1
  (r, { os with env := { os.env with mkdirOk := os.env.mkdirOk.tail } }.record (.mkdir path mode r))

/-- The call `open(path, flags, mode)`: on success a new open file description, unlocked and
at offset 0, in the lowest unused descriptor. -/
def sys_open (os : OS) (path : String) (flags : OpenFlags) (mode : Nat) : Int × OS :=
  let env := { os.env with openOk := os.env.openOk.tail }
  if nextOk os.env.openOk then
    let fd : Int := firstFree os.fdtab
    (fd, { fdtab := install os.fdtab os.nfiles,
           files := Function.update os.files os.nfiles ⟨path, 0, .unlocked⟩,
           nfiles := os.nfiles + 1,
           log := os.log ++ [.openFile path flags mode fd],
           env := env })
  else
    (-1, { os with env := env }.record (.openFile path flags mode (-1)))

/-- The call `dup(fd)`: a new descriptor for the same open file description. -/
def sys_dup (os : OS) (fd : Int) : Int × OS :=
  match os.ofd fd with
  | none => (-1, os.record (.dup fd (-1)))
  | some id =>
    let env := { os.env with dupOk := os.env.dupOk.tail }
    if nextOk os.env.dupOk then
      let nfd : Int := firstFree os.fdtab
      (nfd, { os with fdtab := install os.fdtab id, env := env }.record (.dup fd nfd))
    else
      (-1, { os with env := env }.record (.dup fd (-1)))

/-- The call `close(fd)`: the slot is emptied; the advisory lock of the open file
description goes with its last descriptor. -/
def sys_close (os : OS) (fd : Int) : OS :=
  match os.ofd fd with
  | none => os.record (.close fd)
  | some id =>
    let tab := clear os.fdtab fd.toNat
    let os1 : OS := { os with fdtab := tab }.record (.close fd)
    if tab.contains (some id) then os1
    else os1.setFile id { os.files id with held := .unlocked }

/-- The call `flock(fd, op)` with `op` one of LOCK_SH, LOCK_EX (each possibly with LOCK_NB)
and LOCK_UN.  The lock belongs to the open file description.  Whether a request
is granted is up to the environment; the model gives the outcome of the call when
it returns and does not represent a blocking call that waits forever. -/
def sys_flock (os : OS) (fd : Int) (op : FlockOp) (nonBlocking : Bool) : Int × OS :=
  match os.ofd fd with
  | none => (-1, os.record (.flock fd op nonBlocking (-1)))
  | some id =>
    match op with
    | .LOCK_UN =>
      (0, (os.setFile id { os.files id with held := .unlocked }).record (.flock fd op nonBlocking 0))
    | _ =>
      let env := { os.env with flockOk := os.env.flockOk.tail }
      if nextOk os.env.flockOk then
        let h : Held := if op = .LOCK_SH then .shared else .exclusive
        (0, ({ os with env := env }.setFile id { os.files id with held := h }).record
              (.flock fd op nonBlocking 0))
      else
        (-1, { os with env := env }.record (.flock fd op nonBlocking (-1)))

/-- The call `lseek(fd, offset, SEEK_SET)`. -/
def sys_lseek (os : OS) (fd : Int) (offset : Nat) : Int × OS :=
  match os.ofd fd with
  | none => (-1, os.record (.lseek fd offset (-1)))
  | some id =>
    let env := { os.env with lseekOk := os.env.lseekOk.tail }
    if nextOk os.env.lseekOk then
      (offset, ({ os with env := env }.setFile id { os.files id with offset := offset }).record
                 (.lseek fd offset offset))
    else
      (-1, { os with env := env }.record (.lseek fd offset (-1)))

/-- The outcome the environment gives to the next `fstat`, `read` or `write`. -/
def nextRet (l : List (Option Nat)) (dflt : Nat) : Option Nat := l.headD (some dflt)

/-- The call `fstat(fd, &buf)`: the return value and `buf.st_size`. -/
def sys_fstat (os : OS) (fd : Int) : Int × Nat × OS :=
  match os.ofd fd with
  | none => (-1, 0, os.record (.fstat fd (-1)))
  | some _ =>
    let env := { os.env with fstatRet := os.env.fstatRet.tail }
    match nextRet os.env.fstatRet 0 with
    | some sz => (0, sz, { os with env := env }.record (.fstat fd 0))
    | none => (-1, 0, { os with env := env }.record (.fstat fd (-1)))

/-- The call `read(fd, buf, count)`: the number of bytes read, which is at most
`count`, or -1; the offset of the open file description moves on by that number.
The bytes themselves are not represented. -/
def sys_read (os : OS) (fd : Int) (count : Nat) : Int × OS :=
  match os.ofd fd with
  | none => (-1, os.record (.read fd count (-1)))
  | some id =>
    let env := { os.env with readRet := os.env.readRet.tail }
    match nextRet os.env.readRet count with
    | some k =>
      ((min k count : Nat),
        ({ os with env := env }.setFile id
          { os.files id with offset := (os.files id).offset + min k count }).record
          (.read fd count (min k count : Nat)))
    | none => (-1, { os with env := env }.record (.read fd count (-1)))

/-- The call `write(fd, buf, count)`: the number of bytes written, which is at
most `count`, or -1; the offset of the open file description moves on by that
number. -/
def sys_write (os : OS) (fd : Int) (count : Nat) : Int × OS :=
  match os.ofd fd with
  | none => (-1, os.record (.write fd count (-1)))
  | some id =>
    let env := { os.env with writeRet := os.env.writeRet.tail }
    match nextRet os.env.writeRet count with
    | some k =>
      ((min k count : Nat),
        ({ os with env := env }.setFile id
          { os.files id with offset := (os.files id).offset + min k count }).record
          (.write fd count (min k count : Nat)))
    | none => (-1, { os with env := env }.record (.write fd count (-1)))

/-! ## FileSource and FileSink -/

/-- A read channel (`FileSource`): descriptor, ownership flag, lock flag. -/
structure FileSource where
  fd : Int
  ownsFd : Bool
  locked : Bool
  deriving DecidableEq, Repr

/-- A write channel (`FileSink`): descriptor, ownership flag, lock flag. -/
structure FileSink where
  fd : Int
  ownsFd : Bool
  locked : Bool
  deriving DecidableEq, Repr

/-- Modelled from the spec: the permission argument `Mode` of the FileSink
constructors is declared in qcc/FileStream.h, which is not among the sources.
The spec speaks of world-readable and world-writable flags; the constructors
test `WORLD_READABLE & mode` and `WORLD_WRITABLE & mode`. -/
structure Mode where
  worldReadable : Bool
  worldWritable : Bool
  deriving DecidableEq, Repr

/-- Modelled from the spec: `FileSink::PRIVATE` (qcc/FileStream.h, not among the
sources) is the mode with neither flag: permission bits are a configuration
concern of the file that is created, private to the user by default. -/
def Mode.PRIVATE : Mode := ⟨false, false⟩

/-- Modelled from the spec: `FileSource::IsValid` is declared inline in
qcc/FileStream.h, which is not among the sources.  A channel is valid when it
has a valid handle; FileStream.cc tests the same condition as `0 > fd`. -/
def FileSource.IsValid (self : FileSource) : Bool := decide (0 ≤ self.fd)

/-- Modelled from the spec: `FileSink::IsValid`, as `FileSource.IsValid`. -/
def FileSink.IsValid (self : FileSink) : Bool := decide (0 ≤ self.fd)

/-- Constructor `FileSource::FileSource(qcc::String fileName)`. -/
def FileSource.ctor_fileName (fileName : String) (os : OS) : FileSource × OS :=
  let (fd, os) := sys_open os fileName .rdonly 0
  (⟨fd, true, false⟩, os)

/-- Constructor `FileSource::FileSource(int fdesc)`. -/
def FileSource.ctor_fdesc (fdesc : Int) (os : OS) : FileSource × OS :=
  let (fd, os) := sys_dup os fdesc
  (⟨fd, true, false⟩, os)

/-- Constructor `FileSource::FileSource()`: the standard input, not owned. -/
def FileSource.ctor_default : FileSource := ⟨0, false, false⟩

/-- Method `FileSource::GetSize(int64_t& fileSize)`: the status and the value of
`fileSize` after the call (the value before it when the method does not write
it). -/
def FileSource.GetSize (self : FileSource) (fileSize : Int) (os : OS) : QStatus × Int × OS :=
  if self.fd < 0 then (.ER_INIT_FAILED, fileSize, os)
  else
    let (ret, size, os) := sys_fstat os self.fd
    if ret < 0 then (.ER_FAIL, fileSize, os)
    else (.ER_OK, (size : Int), os)

/-- Method `FileSource::PullBytes(void* buf, size_t reqBytes, size_t& actualBytes,
uint32_t timeout)`: the status and the value of `actualBytes` after the call.
The timeout is not used by the code. -/
def FileSource.PullBytes (self : FileSource) (reqBytes : Nat) (actualBytes : Nat) (os : OS) :
    QStatus × Nat × OS :=
  if self.fd < 0 then (.ER_INIT_FAILED, actualBytes, os)
  else if reqBytes = 0 then (.ER_OK, 0, os)
  else
    let (ret, os) := sys_read os self.fd reqBytes
    if ret < 0 then (.ER_FAIL, actualBytes, os)
    else (if ret = 0 then .ER_EOF else .ER_OK, ret.toNat, os)

/-- Method `FileSource::Lock(bool block)`. -/
def FileSource.Lock (self : FileSource) (block : Bool) (os : OS) : Bool × FileSource × OS :=
  if self.fd < 0 then (false, self, os)
  else if !self.locked then
    let (ret, os) := sys_flock os self.fd .LOCK_SH (!block)
    (decide (ret = 0), { self with locked := decide (ret = 0) }, os)
  else (self.locked, self, os)

/-- Method `FileSource::Unlock()`. -/
def FileSource.Unlock (self : FileSource) (os : OS) : FileSource × OS :=
  if 0 ≤ self.fd ∧ self.locked then
    ({ self with locked := false }, (sys_flock os self.fd .LOCK_UN false).2)
  else (self, os)

/-- Destructor `FileSource::~FileSource()`. -/
def FileSource.dtor (self : FileSource) (os : OS) : OS :=
  let (self, os) := self.Unlock os
  if self.ownsFd ∧ 0 ≤ self.fd then sys_close os self.fd else os

/-- Copy constructor `FileSource::FileSource(const FileSource& other)`: a
duplicate of the descriptor, owned, with the lock flag of the original. -/
def FileSource.ctor_copy (other : FileSource) (os : OS) : FileSource × OS :=
  let (fd, os) := sys_dup os other.fd
  (⟨fd, true, other.locked⟩, os)

/-- Operator `FileSource FileSource::operator=(const FileSource& other)`.
`sameObject` says whether `&other == this` (the body is skipped then).  The
operator returns by value: the result is the new state of `*this` together with
the temporary built from it by the copy constructor, which the caller destroys. -/
def FileSource.assign (self other : FileSource) (sameObject : Bool) (os : OS) :
    FileSource × FileSource × OS :=
  let (self, os) :=
    if sameObject then (self, os)
    else
      let os := if self.ownsFd ∧ 0 ≤ self.fd then sys_close os self.fd else os
      let (fd, os) := sys_dup os other.fd
      (⟨fd, true, other.locked⟩, os)
  let (ret, os) := FileSource.ctor_copy self os
  (self, ret, os)

/-- String search `fileName.find("/", begin)` on the characters of the name:
the first position at or after `begin` that holds `c`. -/
def findIdx (c : Char) : List Char → Option Nat
  | [] => none
  | x :: t => if x = c then some 0 else (findIdx c t).map (· + 1)

/-- String search from a position. -/
def findFrom (s : List Char) (c : Char) (begin : Nat) : Option Nat :=
  (findIdx c (s.drop begin)).map (· + begin)

/-- The loop "Create the intermediate directories" of both FileSink constructors
(lines 200-222 and 260-282, the same text), started at `begin`, with an
iteration bound.  The result is `false` when a `mkdir` failed (the constructor
returns at once) and `true` when the loop ran to its end. -/
def FileSink.createDirs (fileName : List Char) (dirMode : Nat) :
    Nat → Nat → OS → Except Fault (Bool × OS)
  | 0, _, _ => .error .outOfFuel
  | fuel + 1, begin, os =>
    match findFrom fileName '/' begin with
    | none => .ok (true, os)
    | some endPos =>
      if begin = endPos then
        FileSink.createDirs fileName dirMode fuel (begin + 1) os
      else
        let p := String.mk (fileName.take endPos)
        let (r, os) := sys_stat os p
        if r < 0 then
          let (r2, os) := sys_mkdir os p dirMode
          if r2 < 0 then .ok (false, os)
          else FileSink.createDirs fileName dirMode fuel (endPos + 1) os
        else FileSink.createDirs fileName dirMode fuel (endPos + 1) os

/-- Permission bits of the created file, plain posix branch:
`S_IRUSR | S_IWUSR`, plus `S_IRGRP | S_IROTH` and `S_IWGRP | S_IWOTH`. -/
def fileModeOf (mode : Mode) : Nat :=
  0o600 ||| (if mode.worldReadable then 0o044 else 0) ||| (if mode.worldWritable then 0o022 else 0)

/-- Permission bits of the created directories, plain posix branch:
`S_IRWXU | S_IXGRP | S_IXOTH`, plus the same world bits. -/
def dirModeOf (mode : Mode) : Nat :=
  0o711 ||| (if mode.worldReadable then 0o044 else 0) ||| (if mode.worldWritable then 0o022 else 0)

/-- Constructor `FileSink::FileSink(qcc::String fileName, bool truncate, Mode mode)`.
The loop gets one more iteration than the name has characters. -/
def FileSink.ctor_fileName_truncate_mode (fileName : String) (truncate : Bool) (mode : Mode)
    (os : OS) : Except Fault (FileSink × OS) :=
  match FileSink.createDirs fileName.data (dirModeOf mode) (fileName.data.length + 1) 0 os with
  | .error e => .error e
  | .ok (false, os) => .ok (⟨-1, true, false⟩, os)
  | .ok (true, os) =>
    let (fd, os) := sys_open os fileName (.creatRdwr truncate) (fileModeOf mode)
    .ok (⟨fd, true, false⟩, os)

/-- Constructor `FileSink::FileSink(qcc::String fileName, Mode mode)`. -/
def FileSink.ctor_fileName_mode (fileName : String) (mode : Mode)
    (os : OS) : Except Fault (FileSink × OS) :=
  match FileSink.createDirs fileName.data (dirModeOf mode) (fileName.data.length + 1) 0 os with
  | .error e => .error e
  | .ok (false, os) => .ok (⟨-1, true, false⟩, os)
  | .ok (true, os) =>
    let (fd, os) := sys_open os fileName .creatWronlyTrunc (fileModeOf mode)
    .ok (⟨fd, true, false⟩, os)

/-- Constructor `FileSink::FileSink()`: the standard output, not owned. -/
def FileSink.ctor_default : FileSink := ⟨1, false, false⟩

/-- Method `FileSink::PushBytes(const void* buf, size_t numBytes, size_t& numSent)`:
the status and the value of `numSent` after the call. -/
def FileSink.PushBytes (self : FileSink) (numBytes : Nat) (numSent : Nat) (os : OS) :
    QStatus × Nat × OS :=
  if self.fd < 0 then (.ER_INIT_FAILED, numSent, os)
  else
    let (ret, os) := sys_write os self.fd numBytes
    if 0 ≤ ret then (.ER_OK, ret.toNat, os)
    else (.ER_FAIL, numSent, os)

/-- Method `FileSink::Lock(bool block)`. -/
def FileSink.Lock (self : FileSink) (block : Bool) (os : OS) : Bool × FileSink × OS :=
  if self.fd < 0 then (false, self, os)
  else if !self.locked then
    let (ret, os) := sys_flock os self.fd .LOCK_EX (!block)
    (decide (ret = 0), { self with locked := decide (ret = 0) }, os)
  else (self.locked, self, os)

/-- Method `FileSink::Unlock()`. -/
def FileSink.Unlock (self : FileSink) (os : OS) : FileSink × OS :=
  if 0 ≤ self.fd ∧ self.locked then
    ({ self with locked := false }, (sys_flock os self.fd .LOCK_UN false).2)
  else (self, os)

/-- Destructor `FileSink::~FileSink()`. -/
def FileSink.dtor (self : FileSink) (os : OS) : OS :=
  let (self, os) := self.Unlock os
  if self.ownsFd ∧ 0 ≤ self.fd then sys_close os self.fd else os

/-- Copy constructor `FileSink::FileSink(const FileSink& other)`. -/
def FileSink.ctor_copy (other : FileSink) (os : OS) : FileSink × OS :=
  let (fd, os) := sys_dup os other.fd
  (⟨fd, true, other.locked⟩, os)

/-- Operator `FileSink FileSink::operator=(const FileSink& other)`, returning by
value like the one of FileSource. -/
def FileSink.assign (self other : FileSink) (sameObject : Bool) (os : OS) :
    FileSink × FileSink × OS :=
  let (self, os) :=
    if sameObject then (self, os)
    else
      let os := if self.ownsFd ∧ 0 ≤ self.fd then sys_close os self.fd else os
      let (fd, os) := sys_dup os other.fd
      (⟨fd, true, other.locked⟩, os)
  let (ret, os) := FileSink.ctor_copy self os
  (self, ret, os)

/-! ## Shared ownership of the write channel -/

/-- A heap cell of `std::shared_ptr<FileSink>`: the object and its use count.
A count of zero means that no object lives at the address. -/
structure SinkCell where
  obj : FileSink
  useCount : Nat
  deriving DecidableEq, Repr

/-- State of the process: the kernel side and the heap of shared write channels. -/
structure World where
  os : OS
  heap : Nat → SinkCell
  /-- The next address `make_shared` hands out. -/
  brk : Nat

/-- Allocation `std::make_shared<FileSink>(...)` of an object already constructed:
a new cell with use count 1. -/
def make_shared (obj : FileSink) (w : World) : Nat × World :=
  (w.brk, { w with heap := Function.update w.heap w.brk ⟨obj, 1⟩, brk := w.brk + 1 })

/-- Copy of a shared pointer: the use count goes up. -/
def sp_copy (p : Option Nat) (w : World) : World :=
  match p with
  | none => w
  | some a =>
    { w with heap := Function.update w.heap a { w.heap a with useCount := (w.heap a).useCount + 1 } }

/-- Reset or destruction of a shared pointer: the use count goes down and the
object is destroyed when it reaches zero.  A pointer never refers to a cell with
count zero; nothing is done there. -/
def sp_reset (p : Option Nat) (w : World) : World :=
  match p with
  | none => w
  | some a =>
    match (w.heap a).useCount with
    | 0 => w
    | 1 =>
      { w with os := (w.heap a).obj.dtor w.os,
               heap := Function.update w.heap a { w.heap a with useCount := 0 } }
    | n + 2 => { w with heap := Function.update w.heap a { w.heap a with useCount := n + 1 } }

/-- Assignment `old = new` of shared pointers: the new object is retained, then
the old one released. -/
def sp_assign (old new : Option Nat) (w : World) : World :=
  sp_reset old (sp_copy new w)

/-- Reset or destruction of a `std::unique_ptr<FileSource>`: the object it held is
destroyed. -/
def up_reset (old : Option FileSource) (os : OS) : OS :=
  match old with
  | none => os
  | some src => src.dtor os

/-! ## FileLock -/

/-- A lock handle (`FileLock`): `m_source` is a `std::unique_ptr<FileSource>`,
`m_sink` a `std::shared_ptr<FileSink>`. -/
structure FileLock where
  m_source : Option FileSource
  m_sink : Option Nat
  deriving DecidableEq, Repr

/-- A handle as its caller creates it: both pointers null. -/
def FileLock.empty : FileLock := ⟨none, none⟩

/-- Method `FileLock::GetSource()`. -/
def FileLock.GetSource (self : FileLock) : Option FileSource := self.m_source

/-- Method `FileLock::GetSink()`: the address of the shared write channel. -/
def FileLock.GetSink (self : FileLock) : Option Nat := self.m_sink

/-- Method `FileLock::Release()`. -/
def FileLock.Release (self : FileLock) (w : World) : FileLock × World :=
  let w := { w with os := up_reset self.m_source w.os }
  let w := sp_reset self.m_sink w
  (⟨none, none⟩, w)

/-- Method `FileLock::InitReadOnly(const char* fullFileName)`. -/
def FileLock.InitReadOnly (self : FileLock) (fullFileName : String) (w : World) :
    QStatus × FileLock × World :=
  -- m_source.reset(new FileSource(fullFileName)): the new object is built first
  let (src, os) := FileSource.ctor_fileName fullFileName w.os
  let os := up_reset self.m_source os
  -- m_sink.reset()
  let w := sp_reset self.m_sink { w with os := os }
  if !src.IsValid then
    -- m_source.reset()
    (.ER_EOF, ⟨none, none⟩, { w with os := src.dtor w.os })
  else
    let (got, src, os) := src.Lock true w.os
    if !got then (.ER_READ_ERROR, ⟨some src, none⟩, { w with os := os })
    else (.ER_OK, ⟨some src, none⟩, { w with os := os })

/-- Method `FileLock::InitReadWrite(std::shared_ptr<FileSink> sink)`.  The argument
is an address, so the first assertion (`sink.get() != nullptr`) holds; the second
one is checked unless assertions are compiled out (`ndebug`).  The use count held
by the by-value argument itself is taken and dropped by the caller. -/
def FileLock.InitReadWrite (ndebug : Bool) (self : FileLock) (sink : Nat) (w : World) :
    Except Fault (QStatus × FileLock × World) :=
  if !ndebug ∧ self.m_sink = some sink then .error .assertFailed
  else if (w.heap sink).useCount = 0 then .error .badPointer
  else if !(w.heap sink).obj.IsValid then
    let w := { w with os := up_reset self.m_source w.os }
    let w := sp_reset self.m_sink w
    .ok (.ER_EOF, ⟨none, none⟩, w)
  else
    let (lseekRet, os) := sys_lseek w.os (w.heap sink).obj.fd 0
    if lseekRet < 0 then .ok (.ER_OS_ERROR, self, { w with os := os })
    else
      -- m_source.reset(new FileSource(sink->fd))
      let (src, os) := FileSource.ctor_fdesc (w.heap sink).obj.fd os
      let os := up_reset self.m_source os
      -- m_sink = sink
      let w := sp_assign self.m_sink (some sink) { w with os := os }
      .ok (.ER_OK, ⟨some src, some sink⟩, w)

/-! ## FileLocker -/

/-- The coordinator of one file (`FileLocker`): its name and the shared write
channel, null when no writer is active. -/
structure FileLocker where
  m_fileName : String
  m_sink : Option Nat
  deriving DecidableEq, Repr

/-- Constructor `FileLocker::FileLocker(const char* fullFileName)`. -/
def FileLocker.ctor (fullFileName : String) : FileLocker := ⟨fullFileName, none⟩

/-- Method `FileLocker::GetFileName()`. -/
def FileLocker.GetFileName (self : FileLocker) : String := self.m_fileName

/-- Method `FileLocker::HasWriteLock()`. -/
def FileLocker.HasWriteLock (self : FileLocker) : Bool := self.m_sink.isSome

/-- Method `FileLocker::GetFileLockForRead(FileLock* fileLock)`. -/
def FileLocker.GetFileLockForRead (ndebug : Bool) (self : FileLocker) (fileLock : FileLock)
    (w : World) : Except Fault (QStatus × FileLock × World) :=
  -- std::shared_ptr<FileSink> sink = m_sink
  let w := sp_copy self.m_sink w
  match self.m_sink with
  | none => .ok (fileLock.InitReadOnly self.m_fileName w)
  | some sink =>
    match fileLock.InitReadWrite ndebug sink (sp_copy (some sink) w) with
    | .error e => .error e
    | .ok (status, fileLock, w) =>
      -- the argument and the local pointer go out of scope
      .ok (status, fileLock, sp_reset (some sink) (sp_reset (some sink) w))

/-- Method `FileLocker::GetFileLockForWrite(FileLock* fileLock)`. -/
def FileLocker.GetFileLockForWrite (ndebug : Bool) (self : FileLocker) (fileLock : FileLock)
    (w : World) : Except Fault (QStatus × FileLock × World) :=
  -- std::shared_ptr<FileSink> sink = m_sink
  let w := sp_copy self.m_sink w
  match self.m_sink with
  | none => .ok (.ER_BUS_NOT_ALLOWED, fileLock, w)
  | some sink =>
    match fileLock.InitReadWrite ndebug sink (sp_copy (some sink) w) with
    | .error e => .error e
    | .ok (status, fileLock, w) =>
      .ok (status, fileLock, sp_reset (some sink) (sp_reset (some sink) w))

/-- Method `FileLocker::AcquireWriteLock()`. -/
def FileLocker.AcquireWriteLock (ndebug : Bool) (self : FileLocker) (w : World) :
    Except Fault (QStatus × FileLocker × World) :=
  -- QCC_ASSERT(m_sink.get() == nullptr)
  if !ndebug ∧ self.m_sink ≠ none then .error .assertFailed
  else
    -- m_sink.reset()
    let w := sp_reset self.m_sink w
    let self : FileLocker := { self with m_sink := none }
    -- std::make_shared<FileSink>(m_fileName, false, FileSink::PRIVATE)
    match FileSink.ctor_fileName_truncate_mode self.m_fileName false Mode.PRIVATE w.os with
    | .error e => .error e
    | .ok (obj, os) =>
      let (sink, w) := make_shared obj { w with os := os }
      if !(w.heap sink).obj.IsValid then
        -- return ER_EOF: the local pointer goes out of scope
        .ok (.ER_EOF, self, sp_reset (some sink) w)
      else
        -- m_sink = sink
        let w := sp_assign self.m_sink (some sink) w
        let self : FileLocker := { self with m_sink := some sink }
        -- sink->Lock(true)
        let (got, obj, os) := (w.heap sink).obj.Lock true w.os
        let w : World :=
          { w with os := os, heap := Function.update w.heap sink { w.heap sink with obj := obj } }
        if !got then
          -- m_sink.reset()
          let w := sp_reset self.m_sink w
          let self : FileLocker := { self with m_sink := none }
          .ok (.ER_OK, self, sp_reset (some sink) w)
        else
          .ok (.ER_OK, self, sp_reset (some sink) w)

/-- Method `FileLocker::ReleaseWriteLock()`. -/
def FileLocker.ReleaseWriteLock (self : FileLocker) (w : World) : FileLocker × World :=
  ({ self with m_sink := none }, sp_reset self.m_sink w)

/-! ## One FileLocker and the handles of its callers -/

/-- A FileLocker, the `n` FileLock objects of its callers and the state of the
process. -/
structure System (n : Nat) where
  locker : FileLocker
  locks : Fin n → FileLock
  w : World

/-- The calls a thread makes on the FileLocker and on its handles. -/
inductive Call (n : Nat)
  | AcquireWriteLock
  | ReleaseWriteLock
  | GetFileLockForRead (h : Fin n)
  | GetFileLockForWrite (h : Fin n)
  | Release (h : Fin n)
  deriving DecidableEq, Repr

/-- One call: the status it returns, if it returns one, and the state after it. -/
def System.step {n : Nat} (ndebug : Bool) (s : System n) :
    Call n → Except Fault (Option QStatus × System n)
  | .AcquireWriteLock =>
    match s.locker.AcquireWriteLock ndebug s.w with
    | .error e => .error e
    | .ok (status, locker, w) => .ok (some status, { s with locker := locker, w := w })
  | .ReleaseWriteLock =>
    let (locker, w) := s.locker.ReleaseWriteLock s.w
    .ok (none, { s with locker := locker, w := w })
  | .GetFileLockForRead h =>
    match s.locker.GetFileLockForRead ndebug (s.locks h) s.w with
    | .error e => .error e
    | .ok (status, fl, w) =>
      .ok (some status, { s with locks := Function.update s.locks h fl, w := w })
  | .GetFileLockForWrite h =>
    match s.locker.GetFileLockForWrite ndebug (s.locks h) s.w with
    | .error e => .error e
    | .ok (status, fl, w) =>
      .ok (some status, { s with locks := Function.update s.locks h fl, w := w })
  | .Release h =>
    let (fl, w) := (s.locks h).Release s.w
    .ok (none, { s with locks := Function.update s.locks h fl, w := w })

/-- A run of calls: the statuses returned, in order, and the final state. -/
def System.run {n : Nat} (ndebug : Bool) :
    System n → List (Call n) → Except Fault (List (Option QStatus) × System n)
  | s, [] => .ok ([], s)
  | s, c :: cs =>
    match s.step ndebug c with
    | .error e => .error e
    | .ok (r, s1) =>
      match System.run ndebug s1 cs with
      | .error e => .error e
      | .ok (rs, s2) => .ok (r :: rs, s2)

/-- A process at start: descriptors 0, 1 and 2 open on the terminal, no shared
write channel allocated, the given environment. -/
def World.fresh (env : Env) : World :=
  { os := { fdtab := [some 0, some 1, some 2],
            files := fun _ => ⟨"/dev/tty", 0, .unlocked⟩,
            nfiles := 3, log := [], env := env },
    heap := fun _ => ⟨⟨-1, false, false⟩, 0⟩,
    brk := 0 }

/-- A new FileLocker for a file in a process at start, with `n` empty handles. -/
def System.fresh (n : Nat) (fullFileName : String) (env : Env) : System n :=
  { locker := FileLocker.ctor fullFileName, locks := fun _ => FileLock.empty, w := World.fresh env }

/-! ## Notions used to state the properties -/

/-- The lock state of an open file description. -/
def OS.held (os : OS) (id : Nat) : Held := (os.files id).held

/-- The descriptor of the write channel at an address. -/
def World.fdOf (w : World) (a : Nat) : Int := (w.heap a).obj.fd

/-- The write channel at an address exists (its use count is positive). -/
def World.live (w : World) (a : Nat) : Prop := 0 < (w.heap a).useCount

/-- The process state with the use count of the write channel at `a` set to `c`. -/
def World.setCount (w : World) (a c : Nat) : World :=
  { w with heap := Function.update w.heap a { w.heap a with useCount := c } }

/-- Well-formedness of the process state with respect to the read channels
`srcs` that exist (indexed by whoever owns them):

* no object lives at or beyond the allocation mark, identities of open file
  descriptions are below the next identity;
* every live write channel owns an open descriptor; except for the channel `ex`
  (one that is being set up) it is locked and its open file description holds the
  exclusive lock; two live write channels have different open file descriptions;
* the descriptor of a read channel, when valid, is open, and is the descriptor of
  no live write channel and of no other read channel;
* a read channel that is locked, or marked in `own`, shares its open file
  description with no live write channel. -/
structure WInv {ι : Type} (w : World) (srcs : ι → Option FileSource) (own : ι → Prop)
    (ex : Option Nat) : Prop where
  brk : ∀ a, w.brk ≤ a → (w.heap a).useCount = 0
  ids : ∀ g id, w.os.ofd g = some id → id < w.os.nfiles
  sink : ∀ a, w.live a → (w.heap a).obj.ownsFd = true ∧ ∃ id, w.os.ofd (w.fdOf a) = some id
  locked : ∀ a, w.live a → ex ≠ some a →
    (w.heap a).obj.locked = true ∧ ∀ id, w.os.ofd (w.fdOf a) = some id → w.os.held id = .exclusive
  sinkInj : ∀ a b, w.live a → w.live b → w.os.ofd (w.fdOf a) = w.os.ofd (w.fdOf b) → a = b
  src : ∀ i s, srcs i = some s → 0 ≤ s.fd → ∃ id, w.os.ofd s.fd = some id
  srcSink : ∀ i s a, srcs i = some s → w.live a → s.fd ≠ w.fdOf a
  srcSrc : ∀ i j s t, i ≠ j → srcs i = some s → srcs j = some t → 0 ≤ s.fd → s.fd ≠ t.fd
  srcOfd : ∀ i s a, srcs i = some s → (s.locked = true ∨ own i) → w.live a →
    w.os.ofd s.fd ≠ w.os.ofd (w.fdOf a)

/-- The number of shared pointers to the write channel at `a` held by the
FileLocker and the handles. -/
def System.refCount {n : Nat} (s : System n) (a : Nat) : Nat :=
  (if s.locker.m_sink = some a then 1 else 0) +
    (Finset.univ.filter (fun h => (s.locks h).m_sink = some a)).card

/-- Well-formedness of a FileLocker with its handles: the process state is well
formed for the read channels of the handles, and the use count of every write
channel is the number of pointers to it. -/
structure System.Inv {n : Nat} (s : System n) : Prop where
  world : WInv s.w (fun h => (s.locks h).m_source) (fun _ => False) none
  count : ∀ a, (s.w.heap a).useCount = s.refCount a

/-- The call is a `stat` or a `mkdir`. -/
def Syscall.isDirCall : Syscall → Bool
  | .stat _ _ => true
  | .mkdir _ _ _ => true
  | _ => false

/-- The call is a request for a shared or an exclusive lock (a `flock` other than
LOCK_UN). -/
def Syscall.isLockRequest : Syscall → Bool
  | .flock _ op _ _ => decide (op ≠ .LOCK_UN)
  | _ => false

/-- The kernel state `os1` comes from `os` by `stat` and `mkdir` calls only:
descriptors, open file descriptions and the outcomes of the other kinds of call
are as before. -/
structure DirsOnly (os os1 : OS) : Prop where
  fdtab : os1.fdtab = os.fdtab
  files : os1.files = os.files
  nfiles : os1.nfiles = os.nfiles
  openOk : os1.env.openOk = os.env.openOk
  dupOk : os1.env.dupOk = os.env.dupOk
  flockOk : os1.env.flockOk = os.env.flockOk
  lseekOk : os1.env.lseekOk = os.env.lseekOk
  log : ∃ d, os1.log = os.log ++ d ∧ ∀ c ∈ d, c.isDirCall = true

/-- The call is one the FileSink constructor issues: `stat`, `mkdir` or `open`. -/
def Syscall.isOpening : Syscall → Bool
  | .stat _ _ => true
  | .mkdir _ _ _ => true
  | .openFile _ _ _ _ => true
  | _ => false

/-- What the FileSink constructor leaves behind.  The channel owns its descriptor
and is unlocked.  Either it is invalid (`fd = -1`) and no descriptor was opened,
or its descriptor is the lowest one that was unused, open on a new open file
description that is unlocked and at offset 0.  Only `stat`, `mkdir` and `open`
were called. -/
structure SinkCtorPost (fileName : String) (os : OS) (obj : FileSink) (os1 : OS) : Prop where
  ownsFd : obj.ownsFd = true
  unlocked : obj.locked = false
  dupOk : os1.env.dupOk = os.env.dupOk
  flockOk : os1.env.flockOk = os.env.flockOk
  lseekOk : os1.env.lseekOk = os.env.lseekOk
  log : ∃ d, os1.log = os.log ++ d ∧ ∀ c ∈ d, c.isOpening = true
  result :
    (obj.fd = -1 ∧ os1.fdtab = os.fdtab ∧ os1.files = os.files ∧ os1.nfiles = os.nfiles) ∨
    (obj.fd = (firstFree os.fdtab : Int) ∧ os1.fdtab = install os.fdtab os.nfiles ∧
      os1.files = Function.update os.files os.nfiles ⟨fileName, 0, .unlocked⟩ ∧
      os1.nfiles = os.nfiles + 1)

/-- What a caller sees of a run: the statuses returned, and the write channel the
FileLocker publishes afterwards. -/
def System.outcome {n : Nat} (r : Except Fault (List (Option QStatus) × System n)) :
    Except Fault (List (Option QStatus) × Option Nat) :=
  match r with
  | .error e => .error e
  | .ok (rs, s) => .ok (rs, s.locker.m_sink)

/-- The state a run ends in (the start state when a fault cuts the run short). -/
def System.after {n : Nat} (ndebug : Bool) (s : System n) (cs : List (Call n)) : System n :=
  match s.run ndebug cs with
  | .ok (_, s1) => s1
  | .error _ => s

/-- Between the kernel states `os` and `os1` no shared or exclusive lock was
requested: the log grew by calls none of which is such a request. -/
def NoLockReq (os os1 : OS) : Prop :=
  ∃ d, os1.log = os.log ++ d ∧ ∀ c ∈ d, c.isLockRequest = false

/-- An example state: one handle, and a FileLocker for "ks" that has acquired the
write lock in a process at start where every call succeeds. -/
def System.activeExample : System 1 :=
  System.after false (System.fresh 1 "ks" {}) [.AcquireWriteLock]

/-- The kernel state `os1` extends `os`: the descriptors open in `os` refer to the
same open file descriptions, the open file descriptions of `os` hold the same
locks, and identities stay below the next identity. -/
structure Extends (os os1 : OS) : Prop where
  ofd : ∀ g id, os.ofd g = some id → os1.ofd g = some id
  ids : (∀ g id, os.ofd g = some id → id < os.nfiles) →
    ∀ g id, os1.ofd g = some id → id < os1.nfiles
  held : ∀ id, id < os.nfiles → os1.held id = os.held id
  nfiles : os.nfiles ≤ os1.nfiles

/-- What the destructor of a channel does to the kernel, for FileSource and
FileSink alike: nothing for an invalid descriptor; otherwise LOCK_UN if the
channel is locked, then `close` if it owns the descriptor. -/
def closeChannel (fd : Int) (ownsFd locked : Bool) (os : OS) : OS :=
  if fd < 0 then os
  else if ownsFd then sys_close (if locked then (sys_flock os fd .LOCK_UN false).2 else os) fd
  else if locked then (sys_flock os fd .LOCK_UN false).2 else os

/-- The read channels of the handles together with one more place, for a channel
that is built before the one it replaces is destroyed. -/
def withSpare {ι : Type} (srcs : ι → Option FileSource) : Option ι → Option FileSource
  | none => none
  | some j => srcs j

/-- What GetFileLockForRead and GetFileLockForWrite both do when the FileLocker
publishes the write channel `a`: the local pointer and the argument are taken,
InitReadWrite runs, and both are dropped. -/
def rideOn (ndebug : Bool) (a : Nat) (fl : FileLock) (w : World) :
    Except Fault (QStatus × FileLock × World) :=
  match fl.InitReadWrite ndebug a (sp_copy (some a) (sp_copy (some a) w)) with
  | .error e => .error e
  | .ok (st, fl1, w1) => .ok (st, fl1, sp_reset (some a) (sp_reset (some a) w1))

/-- Every forthcoming request for a shared or exclusive lock will be granted. -/
def Granted (os : OS) : Prop := ∀ b ∈ os.env.flockOk, b = true

/-- The outcomes the environment holds for forthcoming lock requests in `os1` are
what is left in `os` after some of them were used. -/
def EnvLater (os os1 : OS) : Prop := os1.env.flockOk <:+ os.env.flockOk

/-- Whether the latest AcquireWriteLock or ReleaseWriteLock call of a run (the
calls and the statuses they returned) is an AcquireWriteLock that returned ER_OK;
`before` when the run has no such call. -/
def activeAfter {n : Nat} (before : Bool) : List (Call n) → List (Option QStatus) → Bool
  | c :: cs, r :: rs =>
    match c with
    | .AcquireWriteLock => activeAfter (decide (r = some .ER_OK)) cs rs
    | .ReleaseWriteLock => activeAfter false cs rs
    | _ => activeAfter before cs rs
  | _, _ => before

/-- The state in which InitReadOnly examines the read channel it has built: the
file was opened, the read channel the handle held before was destroyed and the
pointer it held was dropped. -/
def readOnlyMid (fl : FileLock) (name : String) (w : World) : World :=
  sp_reset fl.m_sink { w with os := up_reset fl.m_source (FileSource.ctor_fileName name w.os).2 }

/-- The call drops pointers and takes none: ReleaseWriteLock, or Release of a
handle. -/
def Call.isDrop {n : Nat} : Call n → Bool
  | .ReleaseWriteLock => true
  | .Release _ => true
  | _ => false

/-- The call is a `close` of the descriptor `fd`. -/
def Syscall.closes (fd : Int) : Syscall → Bool
  | .close g => decide (g = fd)
  | _ => false

/-- The call is a `flock` with LOCK_UN on the descriptor `fd`. -/
def Syscall.unlocks (fd : Int) : Syscall → Bool
  | .flock g .LOCK_UN _ _ => decide (g = fd)
  | _ => false

/-- Between the kernel states `os` and `os1` the descriptor `fd` was unlocked `k`
times and closed `k` times. -/
def Disposed (fd : Int) (k : Nat) (os os1 : OS) : Prop :=
  ∃ d, os1.log = os.log ++ d ∧
    d.countP (Syscall.unlocks fd) = k ∧ d.countP (Syscall.closes fd) = k

/-- An example state: the FileLocker for "ks" has acquired the write lock, handle 0
was given a read lock and handle 1 a write lock, so three pointers refer to the
write channel (address 0, descriptor 3). -/
def System.sharedExample : System 2 :=
  System.after false (System.fresh 2 "ks" {})
    [.AcquireWriteLock, .GetFileLockForRead 0, .GetFileLockForWrite 1]

/-- The write channel at address `a` holds the write lock: it exists, its locked
flag is set, and its descriptor is open on an open file description that holds the
exclusive lock. -/
def World.holdsWriteLock (w : World) (a : Nat) : Prop :=
  w.live a ∧ (w.heap a).obj.locked = true ∧
    ∃ id, w.os.ofd (w.fdOf a) = some id ∧ w.os.held id = .exclusive

/-- Every exclusive lock in the kernel belongs to a write channel on the file
`name`: an open file description that holds the exclusive lock was opened on
`name`, and it is the one of a write channel that exists, whose locked flag is
set and whose descriptor is open on it. -/
def World.Owned (w : World) (name : String) : Prop :=
  ∀ id, w.os.held id = .exclusive → (w.os.files id).path = name ∧
    ∃ a, w.live a ∧ (w.heap a).obj.locked = true ∧ w.os.ofd (w.fdOf a) = some id

/-- The call is a grant to a handle or the release of a handle. -/
def Call.isHandleCall {n : Nat} : Call n → Bool
  | .GetFileLockForRead _ => true
  | .GetFileLockForWrite _ => true
  | .Release _ => true
  | _ => false

/-- The call is a `flock`, with any operation. -/
def Syscall.isFlock : Syscall → Bool
  | .flock _ _ _ _ => true
  | _ => false

/-- Between the kernel states `os` and `os1` no `flock` was called. -/
def NoFlock (os os1 : OS) : Prop :=
  ∃ d, os1.log = os.log ++ d ∧ ∀ c ∈ d, c.isFlock = false

/-- Every handle is empty or rides on the write channel `a`: it refers to no
other write channel, and its read channel, if it has one, is not locked. -/
def System.ridersOf {n : Nat} (s : System n) (a : Nat) : Prop :=
  ∀ h, ((s.locks h).m_sink = none ∨ (s.locks h).m_sink = some a) ∧
    ∀ src, (s.locks h).m_source = some src → src.locked = false

/-- The index `e` of the name marks a directory: `s[e] = '/'`, `e > 0` and
`s[e-1] != '/'`. -/
def isDirEnd (s : List Char) (e : Nat) : Bool :=
  decide (s[e]? = some '/' ∧ 0 < e ∧ s[e - 1]? ≠ some '/')

/-- The indices from `b` on that mark a directory, in increasing order. -/
def dirEndsFrom (s : List Char) (b : Nat) : List Nat :=
  (List.range' b (s.length - b)).filter (isDirEnd s)

/-- The directories of a file name: the prefixes `s[0..e)` for every index `e`
with `s[e] = '/'`, `e > 0` and `s[e-1] != '/'`, in order of increasing length. -/
def dirPrefixes (s : List Char) : List String :=
  ((List.range s.length).filter (isDirEnd s)).map (fun e => String.mk (s.take e))

/-- Visiting directories in order: each is looked up with `stat` and created with
`mkdir` only when `stat` reports it absent; the visit stops at the first `mkdir`
that fails.  The result is `true` when all of them were visited. -/
def visitDirs (dirMode : Nat) : List String → OS → Bool × OS
  | [], os => (true, os)
  | p :: ps, os =>
    if (sys_stat os p).1 < 0 then
      if (sys_mkdir (sys_stat os p).2 p dirMode).1 < 0 then
        (false, (sys_mkdir (sys_stat os p).2 p dirMode).2)
      else visitDirs dirMode ps (sys_mkdir (sys_stat os p).2 p dirMode).2
    else visitDirs dirMode ps (sys_stat os p).2

/-- An example: in a process at start a read channel is opened on "ks" (descriptor
3) and locked with a blocking Lock. -/
def lockedSourceExample : FileSource × OS :=
  ((FileSource.ctor_fileName "ks" (World.fresh {}).os).1.Lock true
    (FileSource.ctor_fileName "ks" (World.fresh {}).os).2).2

/-- The kernel state after a copy of the locked read channel of the example was
built by the copy constructor and destroyed. -/
def sourceCopyDestroyed : OS :=
  (FileSource.ctor_copy lockedSourceExample.1 lockedSourceExample.2).1.dtor
    (FileSource.ctor_copy lockedSourceExample.1 lockedSourceExample.2).2

/-- An example: a write channel is opened on "ks" (descriptor 3) and locked. -/
def lockedSinkExample : Except Fault (FileSink × OS) :=
  match FileSink.ctor_fileName_mode "ks" Mode.PRIVATE (World.fresh {}).os with
  | .error e => .error e
  | .ok (snk, os) => .ok (snk.Lock true os).2

/-- The write channel of the example, and the kernel state after it was assigned
to a default-constructed channel (`other = snk;`, the temporary that the operator
returns being destroyed at the end of the statement). -/
def sinkAssigned : Except Fault (FileSink × FileSink × OS) :=
  match lockedSinkExample with
  | .error e => .error e
  | .ok (snk, os) =>
    .ok (snk, (FileSink.ctor_default.assign snk false os).1,
      (FileSink.ctor_default.assign snk false os).2.1.dtor
        (FileSink.ctor_default.assign snk false os).2.2)

/-- The offset of an open file description. -/
def OS.offset (os : OS) (id : Nat) : Nat := (os.files id).offset

/-- The number of '/' characters of the name from position `b` on. -/
def slashesFrom (s : List Char) (b : Nat) : Nat := (s.drop b).count '/'

/-! ## LockChecker

LockChecker.h declares the class; the bodies of its methods (LockChecker.cc), the
class `LockTrace` and the level of a `Mutex` are not part of the sources at hand.
They are modelled from the description of the component. -/

/-- Modelled from the spec: a lock as the checker sees it (`const Mutex*`), with
its identity and its declared ordering level; the class `Mutex` is missing. -/
structure Mutex where
  id : Nat
  level : Nat
  deriving DecidableEq, Repr

/-- Modelled from the spec: an entry of the lock stack (the class `LockTrace`,
declared in LockChecker.h and defined in the missing LockChecker.cc): the lock
and its level. -/
structure LockTrace where
  lock : Nat
  level : Nat
  deriving DecidableEq, Repr

/-- Modelled from the spec: the state of a thread's LockChecker.  `m_lockStack`
holds the locks the thread has acquired, oldest first; `m_currentDepth` is the
length of the list, and the array grows on demand, so `m_maximumDepth` puts no
bound on it. -/
structure LockChecker where
  m_lockStack : List LockTrace
  deriving DecidableEq, Repr

/-- Modelled from the spec: the constructor `LockChecker::LockChecker()` (body
missing): a thread starts with no lock held. -/
def LockChecker.ctor : LockChecker := ⟨[]⟩

/-- What AcquiringLock signals. -/
structure AcquireReport where
  orderViolation : Bool
  recursiveAcquire : Bool
  deriving DecidableEq, Repr

/-- Modelled from the spec: `LockChecker::AcquiringLock(const Mutex* lock)` (body
missing).  "If level is strictly less than the level of any lock currently on
this thread's stack, this signals a potential lock-order violation.  If lockId is
already present on the stack, this signals recursive acquisition."  The stack is
not changed. -/
def LockChecker.AcquiringLock (self : LockChecker) (lock : Mutex) : AcquireReport :=
  { orderViolation := self.m_lockStack.any (fun t => decide (lock.level < t.level)),
    recursiveAcquire := self.m_lockStack.any (fun t => decide (t.lock = lock.id)) }

/-- Modelled from the spec: `LockChecker::LockAcquired(const Mutex* lock)` (body
missing): "pushes (lockId, level) onto this thread's stack". -/
def LockChecker.LockAcquired (self : LockChecker) (lock : Mutex) : LockChecker :=
  ⟨self.m_lockStack ++ [⟨lock.id, lock.level⟩]⟩

/-- Modelled from the spec: `LockChecker::ReleasingLock(const Mutex* lock)` (body
missing): "removes lockId from the stack", here its most recent entry; the result
says whether that entry was the top of the stack ("removal from the middle ... is
itself reportable"). -/
def LockChecker.ReleasingLock (self : LockChecker) (lock : Mutex) : Bool × LockChecker :=
  (decide ((self.m_lockStack.getLast?.map (·.lock)) = some lock.id),
    ⟨(self.m_lockStack.reverse.eraseP (fun t => decide (t.lock = lock.id))).reverse⟩)

/-- What a thread does with a lock. -/
inductive LockOp
  | acquire (lock : Mutex)
  | release (lock : Mutex)
  deriving DecidableEq, Repr

/-- A thread working through lock operations: an acquisition calls AcquiringLock
and then LockAcquired, a release calls ReleasingLock.  The result holds what
every AcquiringLock signalled, in order, and the checker at the end. -/
def LockChecker.run : LockChecker → List LockOp → List AcquireReport × LockChecker
  | self, [] => ([], self)
  | self, .acquire lock :: ops =>
    let r := self.AcquiringLock lock
    let (rs, final) := LockChecker.run (self.LockAcquired lock) ops
    (r :: rs, final)
  | self, .release lock :: ops => LockChecker.run (self.ReleasingLock lock).2 ops

/-- The levels on the stack do not decrease from the oldest entry to the newest. -/
def LockChecker.ordered (self : LockChecker) : Prop :=
  self.m_lockStack.Pairwise (fun x y => x.level ≤ y.level)

/-! ## time.cc: timestamps

`time_t` and `long` are signed 64-bit integers, `uint32_t` and `uint64_t` are
unsigned and wrap.  The subtraction of two `time_t` values is taken in the
integers; it is the machine result whenever that does not overflow. -/

/-- A reading of a clock (`struct timespec`). -/
structure Timespec where
  tv_sec : Int
  tv_nsec : Int
  deriving DecidableEq, Repr

/-- The conversion `(uint64_t)x` of a signed value. -/
def toUInt64 (x : Int) : Nat := (x % 2 ^ 64).toNat

/-- The conversion `(uint32_t)x` of a signed value. -/
def toUInt32 (x : Int) : Nat := (x % 2 ^ 32).toNat

/-- Function `qcc::GetTimestamp()`, given the value of the static `s_clockOffset`
and the reading `ts` that `platform_gettime(&ts, true)` delivers: the value
returned and the new value of `s_clockOffset`. -/
def GetTimestamp (s_clockOffset : Int) (ts : Timespec) : Nat × Int :=
  let s_clockOffset := if 0 = s_clockOffset then ts.tv_sec else s_clockOffset
  let ret_val := (toUInt32 (ts.tv_sec - s_clockOffset) * 1000) % 2 ^ 32
  let ret_val := (ret_val + toUInt32 ts.tv_nsec / 1000000) % 2 ^ 32
  (ret_val, s_clockOffset)

/-- Function `qcc::GetTimestamp64()`, in the same way. -/
def GetTimestamp64 (s_clockOffset : Int) (ts : Timespec) : Nat × Int :=
  let s_clockOffset := if 0 = s_clockOffset then ts.tv_sec else s_clockOffset
  let ret_val := (toUInt64 (ts.tv_sec - s_clockOffset) * 1000) % 2 ^ 64
  let ret_val := (ret_val + toUInt64 ts.tv_nsec / 1000000) % 2 ^ 64
  (ret_val, s_clockOffset)

/-- The reading `a` is not later than the reading `b`. -/
def Timespec.notAfter (a b : Timespec) : Prop :=
  a.tv_sec < b.tv_sec ∨ (a.tv_sec = b.tv_sec ∧ a.tv_nsec ≤ b.tv_nsec)

/-! ## Descriptor table -/

theorem slot_nil (m : Nat) : slot [] m = none := by
  cases m <;> rfl

theorem slot_clear (t : List (Option Nat)) (n m : Nat) :
    slot (clear t n) m = if m = n then none else slot t m := by
  induction t generalizing n m with
  | nil => simp [clear, slot_nil]
  | cons h t ih =>
    cases n with
    | zero => cases m <;> simp [clear, slot]
    | succ n => cases m <;> simp [clear, slot, ih]

theorem slot_firstFree (t : List (Option Nat)) : slot t (firstFree t) = none := by
  induction t with
  | nil => rfl
  | cons h t ih => cases h <;> simp [firstFree, slot, ih]

theorem slot_install (t : List (Option Nat)) (id m : Nat) :
    slot (install t id) m = if m = firstFree t then some id else slot t m := by
  induction t generalizing m with
  | nil => cases m <;> simp [install, slot, firstFree, slot_nil]
  | cons h t ih =>
    cases h with
    | none => cases m <;> simp [install, slot, firstFree]
    | some x => cases m <;> simp [install, slot, firstFree, ih]

theorem mem_iff_slot (t : List (Option Nat)) (id : Nat) :
    some id ∈ t ↔ ∃ m, slot t m = some id := by
  induction t with
  | nil => simp [slot_nil]
  | cons h t ih =>
    constructor
    · intro hm
      rcases List.mem_cons.1 hm with h1 | h1
      · exact ⟨0, by simp [slot, h1]⟩
      · obtain ⟨m, hm⟩ := ih.1 h1
        exact ⟨m + 1, by simpa [slot] using hm⟩
    · rintro ⟨m, hm⟩
      cases m with
      | zero => simp [slot] at hm; simp [hm]
      | succ m => simp [slot] at hm; exact List.mem_cons_of_mem _ (ih.2 ⟨m, hm⟩)

/-! ## System calls: their effect on descriptors, locks, log and environment -/

theorem ofd_of_neg (os : OS) (fd : Int) (h : fd < 0) : os.ofd fd = none := by
  simp [OS.ofd, h]

theorem ofd_nonneg (os : OS) (fd : Int) (id : Nat) (h : os.ofd fd = some id) : 0 ≤ fd := by
  by_contra hn
  rw [ofd_of_neg os fd (by omega)] at h
  cases h

theorem ofd_natCast (os : OS) (m : Nat) : os.ofd (m : Int) = slot os.fdtab m := by
  simp [OS.ofd]

theorem ofd_firstFree (os : OS) : os.ofd (firstFree os.fdtab : Int) = none := by
  rw [ofd_natCast, slot_firstFree]

/-- Descriptors after a slot was filled. -/
theorem ofd_install (os os1 : OS) (id : Nat) (h : os1.fdtab = install os.fdtab id) (g : Int) :
    os1.ofd g = if g = (firstFree os.fdtab : Int) then some id else os.ofd g := by
  by_cases hg : g < 0
  · have : g ≠ (firstFree os.fdtab : Int) := by omega
    simp [ofd_of_neg, hg, this]
  · obtain ⟨m, rfl⟩ : ∃ m : Nat, g = m := ⟨g.toNat, by omega⟩
    rw [ofd_natCast, ofd_natCast, h, slot_install]
    simp

/-- Descriptors after a slot was emptied. -/
theorem ofd_clear (os os1 : OS) (fd : Int) (hfd : 0 ≤ fd) (h : os1.fdtab = clear os.fdtab fd.toNat)
    (g : Int) : os1.ofd g = if g = fd then none else os.ofd g := by
  by_cases hg : g < 0
  · have : g ≠ fd := by omega
    simp [ofd_of_neg, hg, this]
  · obtain ⟨m, rfl⟩ : ∃ m : Nat, g = m := ⟨g.toNat, by omega⟩
    obtain ⟨k, rfl⟩ : ∃ k : Nat, fd = k := ⟨fd.toNat, by omega⟩
    rw [ofd_natCast, ofd_natCast, h]
    simp [slot_clear]

theorem mem_fdtab_iff (os : OS) (id : Nat) : some id ∈ os.fdtab ↔ ∃ g : Int, os.ofd g = some id := by
  rw [mem_iff_slot]
  constructor
  · rintro ⟨m, hm⟩
    exact ⟨m, by rw [ofd_natCast]; exact hm⟩
  · rintro ⟨g, hg⟩
    have h0 := ofd_nonneg os g id hg
    obtain ⟨m, rfl⟩ : ∃ m : Nat, g = m := ⟨g.toNat, by omega⟩
    exact ⟨m, by rw [ofd_natCast] at hg; exact hg⟩

theorem ofd_congr (os os1 : OS) (h : os1.fdtab = os.fdtab) (g : Int) : os1.ofd g = os.ofd g := by
  simp [OS.ofd, h]

@[simp] theorem record_fdtab (os : OS) (c : Syscall) : (os.record c).fdtab = os.fdtab := rfl
@[simp] theorem record_files (os : OS) (c : Syscall) : (os.record c).files = os.files := rfl
@[simp] theorem record_nfiles (os : OS) (c : Syscall) : (os.record c).nfiles = os.nfiles := rfl
@[simp] theorem record_env (os : OS) (c : Syscall) : (os.record c).env = os.env := rfl
@[simp] theorem record_log (os : OS) (c : Syscall) : (os.record c).log = os.log ++ [c] := rfl
@[simp] theorem record_ofd (os : OS) (c : Syscall) (g : Int) : (os.record c).ofd g = os.ofd g := rfl
@[simp] theorem setFile_fdtab (os : OS) (id : Nat) (f : OpenFile) :
    (os.setFile id f).fdtab = os.fdtab := rfl
@[simp] theorem setFile_files (os : OS) (id : Nat) (f : OpenFile) :
    (os.setFile id f).files = Function.update os.files id f := rfl
@[simp] theorem setFile_nfiles (os : OS) (id : Nat) (f : OpenFile) :
    (os.setFile id f).nfiles = os.nfiles := rfl
@[simp] theorem setFile_env (os : OS) (id : Nat) (f : OpenFile) : (os.setFile id f).env = os.env := rfl
@[simp] theorem setFile_log (os : OS) (id : Nat) (f : OpenFile) : (os.setFile id f).log = os.log := rfl
@[simp] theorem setFile_ofd (os : OS) (id : Nat) (f : OpenFile) (g : Int) :
    (os.setFile id f).ofd g = os.ofd g := rfl

/-! ## The directory loop runs to its end -/

theorem findIdx_lt (c : Char) (l : List Char) (k : Nat) (h : findIdx c l = some k) :
    k < l.length := by
  induction l generalizing k with
  | nil => simp [findIdx] at h
  | cons x t ih =>
    simp only [findIdx] at h
    split at h
    · simp at h; subst h; simp
    · cases hk : findIdx c t with
      | none => simp [hk] at h
      | some j =>
        simp [hk] at h
        subst h
        have := ih j hk
        simp
        omega

theorem findFrom_bounds (s : List Char) (c : Char) (b e : Nat) (h : findFrom s c b = some e) :
    b ≤ e ∧ e < s.length := by
  unfold findFrom at h
  cases hk : findIdx c (s.drop b) with
  | none => simp [hk] at h
  | some j =>
    simp [hk] at h
    have := findIdx_lt c _ j hk
    simp at this
    omega

theorem DirsOnly.same (os : OS) : DirsOnly os os :=
  ⟨rfl, rfl, rfl, rfl, rfl, rfl, rfl, [], by simp, by simp⟩

theorem DirsOnly.andThen {a b c : OS} (h1 : DirsOnly a b) (h2 : DirsOnly b c) : DirsOnly a c := by
  obtain ⟨d1, hd1, hc1⟩ := h1.log
  obtain ⟨d2, hd2, hc2⟩ := h2.log
  refine ⟨h2.fdtab.trans h1.fdtab, h2.files.trans h1.files, h2.nfiles.trans h1.nfiles,
    h2.openOk.trans h1.openOk, h2.dupOk.trans h1.dupOk, h2.flockOk.trans h1.flockOk,
    h2.lseekOk.trans h1.lseekOk, d1 ++ d2, ?_, ?_⟩
  · rw [hd2, hd1, List.append_assoc]
  · intro x hx
    rcases List.mem_append.1 hx with h | h
    · exact hc1 x h
    · exact hc2 x h

theorem DirsOnly.of_stat (os : OS) (p : String) : DirsOnly os (sys_stat os p).2 :=
  ⟨rfl, rfl, rfl, rfl, rfl, rfl, rfl, _, rfl, by simp [Syscall.isDirCall]⟩

theorem DirsOnly.of_mkdir (os : OS) (p : String) (m : Nat) : DirsOnly os (sys_mkdir os p m).2 :=
  ⟨rfl, rfl, rfl, rfl, rfl, rfl, rfl, _, rfl, by simp [Syscall.isDirCall]⟩

/-- With one unit of fuel for every position left to scan (and one for the exit)
the directory loop returns, having issued `stat` and `mkdir` calls only. -/
theorem createDirs_returns (s : List Char) (m : Nat) (fuel b : Nat) (os : OS)
    (hb : b ≤ s.length) (hf : s.length + 1 ≤ fuel + b) :
    ∃ r os1, FileSink.createDirs s m fuel b os = .ok (r, os1) ∧ DirsOnly os os1 := by
  induction fuel generalizing b os with
  | zero => omega
  | succ fuel ih =>
    unfold FileSink.createDirs
    cases hfind : findFrom s '/' b with
    | none => exact ⟨true, os, rfl, DirsOnly.same os⟩
    | some e =>
      have hbe := findFrom_bounds s '/' b e hfind
      simp only
      split
      · exact ih (b + 1) os (by omega) (by omega)
      · split
        · split
          · exact ⟨false, _, rfl, (DirsOnly.of_stat os _).andThen (DirsOnly.of_mkdir _ _ _)⟩
          · obtain ⟨r, os1, h1, h2⟩ := ih (e + 1) (sys_mkdir (sys_stat os _).2 _ m).2
              (by omega) (by omega)
            exact ⟨r, os1, h1, ((DirsOnly.of_stat os _).andThen (DirsOnly.of_mkdir _ _ _)).andThen h2⟩
        · obtain ⟨r, os1, h1, h2⟩ := ih (e + 1) (sys_stat os _).2 (by omega) (by omega)
          exact ⟨r, os1, h1, (DirsOnly.of_stat os _).andThen h2⟩

/-- The FileSink constructor used by AcquireWriteLock returns, with the effect
described by `SinkCtorPost`. -/
theorem sinkCtor_returns (fileName : String) (truncate : Bool) (mode : Mode) (os : OS) :
    ∃ obj os1, FileSink.ctor_fileName_truncate_mode fileName truncate mode os = .ok (obj, os1) ∧
      SinkCtorPost fileName os obj os1 := by
  obtain ⟨r, os0, hrun, hd⟩ := createDirs_returns fileName.data (dirModeOf mode)
    (fileName.data.length + 1) 0 os (Nat.zero_le _) (by omega)
  obtain ⟨d, hlog, hdir⟩ := hd.log
  have hopening : ∀ c ∈ d, c.isOpening = true := by
    intro c hc
    have := hdir c hc
    cases c <;> simp_all [Syscall.isDirCall, Syscall.isOpening]
  unfold FileSink.ctor_fileName_truncate_mode
  rw [hrun]
  cases r with
  | false =>
    exact ⟨_, _, rfl, ⟨rfl, rfl, hd.dupOk, hd.flockOk, hd.lseekOk, ⟨d, hlog, hopening⟩,
      Or.inl ⟨rfl, hd.fdtab, hd.files, hd.nfiles⟩⟩⟩
  | true =>
    simp only
    by_cases hopen : nextOk os0.env.openOk = true
    · refine ⟨_, _, rfl, ⟨rfl, rfl, ?_, ?_, ?_, ⟨d ++ [.openFile fileName (.creatRdwr truncate)
        (fileModeOf mode) (firstFree os0.fdtab : Int)], ?_, ?_⟩, Or.inr ⟨?_, ?_, ?_, ?_⟩⟩⟩
      · simp [sys_open, hopen, hd.dupOk]
      · simp [sys_open, hopen, hd.flockOk]
      · simp [sys_open, hopen, hd.lseekOk]
      · simp [sys_open, hopen, hlog]
      · intro c hc
        rcases List.mem_append.1 hc with h | h
        · exact hopening c h
        · simp at h; subst h; rfl
      · simp [sys_open, hopen, hd.fdtab]
      · simp [sys_open, hopen, hd.fdtab, hd.nfiles]
      · simp [sys_open, hopen, hd.files, hd.nfiles]
      · simp [sys_open, hopen, hd.nfiles]
    · refine ⟨_, _, rfl, ⟨rfl, rfl, ?_, ?_, ?_, ⟨d ++ [.openFile fileName (.creatRdwr truncate)
        (fileModeOf mode) (-1)], ?_, ?_⟩, Or.inl ⟨?_, ?_, ?_, ?_⟩⟩⟩
      · simp [sys_open, hopen, hd.dupOk]
      · simp [sys_open, hopen, hd.flockOk]
      · simp [sys_open, hopen, hd.lseekOk]
      · simp [sys_open, hopen, hlog]
      · intro c hc
        rcases List.mem_append.1 hc with h | h
        · exact hopening c h
        · simp at h; subst h; rfl
      · simp [sys_open, hopen]
      · simp [sys_open, hopen, hd.fdtab]
      · simp [sys_open, hopen, hd.files]
      · simp [sys_open, hopen, hd.nfiles]

/-! ## Return values of the system calls -/

theorem sys_flock_request (os : OS) (fd : Int) (id : Nat) (op : FlockOp) (nb : Bool)
    (h : os.ofd fd = some id) (hop : op ≠ .LOCK_UN) :
    sys_flock os fd op nb =
      if nextOk os.env.flockOk then
        (0, ({ os with env := { os.env with flockOk := os.env.flockOk.tail } }.setFile id
              { os.files id with held := if op = FlockOp.LOCK_SH then Held.shared else Held.exclusive }).record
              (.flock fd op nb 0))
      else
        (-1, { os with env := { os.env with flockOk := os.env.flockOk.tail } }.record
              (.flock fd op nb (-1))) := by
  unfold sys_flock
  rw [h]
  cases op <;> simp at hop ⊢

theorem sys_flock_unlock (os : OS) (fd : Int) (id : Nat) (nb : Bool) (h : os.ofd fd = some id) :
    sys_flock os fd .LOCK_UN nb =
      (0, (os.setFile id { os.files id with held := Held.unlocked }).record
            (.flock fd .LOCK_UN nb 0)) := by
  unfold sys_flock
  rw [h]

theorem sys_flock_closed (os : OS) (fd : Int) (op : FlockOp) (nb : Bool) (h : os.ofd fd = none) :
    sys_flock os fd op nb = (-1, os.record (.flock fd op nb (-1))) := by
  unfold sys_flock
  rw [h]

theorem sys_close_open (os : OS) (fd : Int) (id : Nat) (h : os.ofd fd = some id) :
    sys_close os fd =
      if (clear os.fdtab fd.toNat).contains (some id) then
        { os with fdtab := clear os.fdtab fd.toNat }.record (.close fd)
      else
        ({ os with fdtab := clear os.fdtab fd.toNat }.record (.close fd)).setFile id
          { os.files id with held := Held.unlocked } := by
  unfold sys_close
  rw [h]

theorem sys_close_closed (os : OS) (fd : Int) (h : os.ofd fd = none) :
    sys_close os fd = os.record (.close fd) := by
  unfold sys_close
  rw [h]

theorem sys_lseek_open (os : OS) (fd : Int) (id : Nat) (off : Nat) (h : os.ofd fd = some id) :
    sys_lseek os fd off =
      if nextOk os.env.lseekOk then
        ((off : Int), ({ os with env := { os.env with lseekOk := os.env.lseekOk.tail } }.setFile id
              { os.files id with offset := off }).record (.lseek fd off off))
      else
        (-1, { os with env := { os.env with lseekOk := os.env.lseekOk.tail } }.record
              (.lseek fd off (-1))) := by
  unfold sys_lseek
  rw [h]

theorem sys_dup_open (os : OS) (fd : Int) (id : Nat) (h : os.ofd fd = some id) :
    sys_dup os fd =
      if nextOk os.env.dupOk then
        ((firstFree os.fdtab : Int),
          { os with fdtab := install os.fdtab id,
                    env := { os.env with dupOk := os.env.dupOk.tail } }.record
            (.dup fd (firstFree os.fdtab : Int)))
      else
        (-1, { os with env := { os.env with dupOk := os.env.dupOk.tail } }.record (.dup fd (-1))) := by
  unfold sys_dup
  rw [h]

/-- The descriptor of a valid channel built by the FileSink constructor is open
on the new open file description. -/
theorem SinkCtorPost.ofd_fd {name : String} {os os1 : OS} {obj : FileSink}
    (h : SinkCtorPost name os obj os1) (hv : 0 ≤ obj.fd) : os1.ofd obj.fd = some os.nfiles := by
  rcases h.result with ⟨h1, _⟩ | ⟨h1, h2, _, _⟩
  · omega
  · rw [ofd_install os os1 os.nfiles h2, h1]
    simp

/-- The descriptors that were open before the FileSink constructor ran are as
they were. -/
theorem SinkCtorPost.ofd_other {name : String} {os os1 : OS} {obj : FileSink}
    (h : SinkCtorPost name os obj os1) (g : Int) (hg : g ≠ obj.fd) : os1.ofd g = os.ofd g := by
  rcases h.result with ⟨_, h2, _, _⟩ | ⟨h1, h2, _, _⟩
  · exact ofd_congr os os1 h2 g
  · rw [ofd_install os os1 os.nfiles h2, if_neg (h1 ▸ hg)]

/-- The descriptor the FileSink constructor returns was not open before. -/
theorem SinkCtorPost.ofd_fresh {name : String} {os os1 : OS} {obj : FileSink}
    (h : SinkCtorPost name os obj os1) : os.ofd obj.fd = none := by
  rcases h.result with ⟨h1, _⟩ | ⟨h1, _, _, _⟩
  · exact ofd_of_neg os _ (by omega)
  · rw [h1]; exact ofd_firstFree os

/-! ## Destructors -/

theorem sinkDtor_invalid (self : FileSink) (os : OS) (h : self.fd < 0) : self.dtor os = os := by
  have : ¬ 0 ≤ self.fd := by omega
  simp [FileSink.dtor, FileSink.Unlock, this]

theorem sinkDtor_valid (self : FileSink) (os : OS) (h : 0 ≤ self.fd) :
    self.dtor os =
      if self.ownsFd then
        sys_close (if self.locked then (sys_flock os self.fd .LOCK_UN false).2 else os) self.fd
      else if self.locked then (sys_flock os self.fd .LOCK_UN false).2 else os := by
  cases hl : self.locked <;> cases ho : self.ownsFd <;>
    simp [FileSink.dtor, FileSink.Unlock, h, hl, ho]

theorem sourceDtor_invalid (self : FileSource) (os : OS) (h : self.fd < 0) :
    self.dtor os = os := by
  have : ¬ 0 ≤ self.fd := by omega
  simp [FileSource.dtor, FileSource.Unlock, this]

theorem sourceDtor_valid (self : FileSource) (os : OS) (h : 0 ≤ self.fd) :
    self.dtor os =
      if self.ownsFd then
        sys_close (if self.locked then (sys_flock os self.fd .LOCK_UN false).2 else os) self.fd
      else if self.locked then (sys_flock os self.fd .LOCK_UN false).2 else os := by
  cases hl : self.locked <;> cases ho : self.ownsFd <;>
    simp [FileSource.dtor, FileSource.Unlock, h, hl, ho]

/-! ## What each system call leaves unchanged -/

@[simp] theorem sys_flock_fdtab (os : OS) (fd : Int) (op : FlockOp) (nb : Bool) :
    (sys_flock os fd op nb).2.fdtab = os.fdtab := by
  unfold sys_flock
  cases os.ofd fd <;> cases op <;> simp <;> split <;> rfl

@[simp] theorem sys_flock_ofd (os : OS) (fd : Int) (op : FlockOp) (nb : Bool) (g : Int) :
    (sys_flock os fd op nb).2.ofd g = os.ofd g :=
  ofd_congr _ _ (sys_flock_fdtab os fd op nb) g

@[simp] theorem sys_flock_nfiles (os : OS) (fd : Int) (op : FlockOp) (nb : Bool) :
    (sys_flock os fd op nb).2.nfiles = os.nfiles := by
  unfold sys_flock
  cases os.ofd fd <;> cases op <;> simp <;> split <;> rfl

theorem sys_flock_log (os : OS) (fd : Int) (op : FlockOp) (nb : Bool) :
    (sys_flock os fd op nb).2.log = os.log ++ [.flock fd op nb (sys_flock os fd op nb).1] := by
  unfold sys_flock
  cases os.ofd fd <;> cases op <;> simp <;> split <;> rfl

@[simp] theorem sys_close_nfiles (os : OS) (fd : Int) : (sys_close os fd).nfiles = os.nfiles := by
  unfold sys_close
  cases os.ofd fd <;> simp
  split <;> rfl

@[simp] theorem sys_close_env (os : OS) (fd : Int) : (sys_close os fd).env = os.env := by
  unfold sys_close
  cases os.ofd fd <;> simp
  split <;> rfl

@[simp] theorem sys_close_log (os : OS) (fd : Int) : (sys_close os fd).log = os.log ++ [.close fd] := by
  unfold sys_close
  cases os.ofd fd <;> simp
  split <;> rfl

theorem sys_close_ofd (os : OS) (fd g : Int) :
    (sys_close os fd).ofd g = if g = fd then none else os.ofd g := by
  cases h : os.ofd fd with
  | none =>
    rw [sys_close_closed os fd h]
    by_cases hg : g = fd
    · simp [hg, h]
    · simp [hg]
  | some id =>
    have h0 := ofd_nonneg os fd id h
    rw [sys_close_open os fd id h]
    split
    · exact ofd_clear os _ fd h0 rfl g
    · exact ofd_clear os _ fd h0 rfl g

theorem clear_contains (os : OS) (fd : Int) (h0 : 0 ≤ fd) (id0 : Nat) :
    (clear os.fdtab fd.toNat).contains (some id0) = true ↔
      ∃ g, g ≠ fd ∧ os.ofd g = some id0 := by
  have hc : (clear os.fdtab fd.toNat).contains (some id0) = true ↔
      some id0 ∈ clear os.fdtab fd.toNat := by
    simp [List.contains]
  rw [hc]
  have := mem_fdtab_iff { os with fdtab := clear os.fdtab fd.toNat } id0
  simp only at this
  rw [this]
  constructor
  · rintro ⟨g, hg⟩
    rw [ofd_clear os _ fd h0 rfl g] at hg
    by_cases hgf : g = fd
    · simp [hgf] at hg
    · exact ⟨g, hgf, by simpa [hgf] using hg⟩
  · rintro ⟨g, hgf, hg⟩
    exact ⟨g, by rw [ofd_clear os _ fd h0 rfl g]; simpa [hgf] using hg⟩

/-- The lock of an open file description survives a `close` of a descriptor that
is not its last one, or that belongs to another open file description. -/
theorem sys_close_held_keep (os : OS) (fd : Int) (id : Nat)
    (h : os.ofd fd ≠ some id ∨ ∃ g, g ≠ fd ∧ os.ofd g = some id) :
    (sys_close os fd).held id = os.held id := by
  cases hfd : os.ofd fd with
  | none => rw [sys_close_closed os fd hfd]; simp [OS.held]
  | some id0 =>
    have h0 := ofd_nonneg os fd id0 hfd
    rw [sys_close_open os fd id0 hfd]
    by_cases hc : (clear os.fdtab fd.toNat).contains (some id0) = true
    · rw [if_pos hc]; simp [OS.held]
    · rw [if_neg hc]
      have hex : ¬ ∃ g, g ≠ fd ∧ os.ofd g = some id0 :=
        fun hx => hc ((clear_contains os fd h0 id0).2 hx)
      have hid : id ≠ id0 := by
        rintro rfl
        rcases h with h | h
        · exact h hfd
        · exact hex h
      simp [OS.held, hid]

/-- The lock of an open file description is released by the `close` of its last
descriptor. -/
theorem sys_close_held_last (os : OS) (fd : Int) (id : Nat) (hfd : os.ofd fd = some id)
    (h : ¬ ∃ g, g ≠ fd ∧ os.ofd g = some id) :
    (sys_close os fd).held id = .unlocked := by
  have h0 := ofd_nonneg os fd id hfd
  rw [sys_close_open os fd id hfd]
  have hc : ¬ (clear os.fdtab fd.toNat).contains (some id) = true :=
    fun hx => h ((clear_contains os fd h0 id).1 hx)
  rw [if_neg hc]
  simp [OS.held]

theorem sys_flock_env_unlock (os : OS) (fd : Int) (nb : Bool) :
    (sys_flock os fd .LOCK_UN nb).2.env = os.env := by
  unfold sys_flock
  cases os.ofd fd <;> rfl

theorem sys_flock_held_other (os : OS) (fd : Int) (op : FlockOp) (nb : Bool) (id : Nat)
    (h : os.ofd fd ≠ some id) : (sys_flock os fd op nb).2.held id = os.held id := by
  cases hfd : os.ofd fd with
  | none => rw [sys_flock_closed os fd op nb hfd]; rfl
  | some id0 =>
    have hid : id ≠ id0 := by
      rintro rfl
      exact h hfd
    cases op with
    | LOCK_UN => rw [sys_flock_unlock os fd id0 nb hfd]; simp [OS.held, hid]
    | LOCK_SH =>
      rw [sys_flock_request os fd id0 _ nb hfd (by decide)]
      split <;> simp [OS.held, hid]
    | LOCK_EX =>
      rw [sys_flock_request os fd id0 _ nb hfd (by decide)]
      split <;> simp [OS.held, hid]

theorem sys_flock_held_unlock (os : OS) (fd : Int) (nb : Bool) (id : Nat)
    (h : os.ofd fd = some id) : (sys_flock os fd .LOCK_UN nb).2.held id = .unlocked := by
  rw [sys_flock_unlock os fd id nb h]
  simp [OS.held]

/-! ## AcquireWriteLock on an idle FileLocker -/

theorem acquire_idle (ndebug : Bool) (self : FileLocker) (w : World) (hidle : self.m_sink = none)
    (obj : FileSink) (os1 : OS)
    (hctor : FileSink.ctor_fileName_truncate_mode self.m_fileName false Mode.PRIVATE w.os
      = .ok (obj, os1))
    (hpost : SinkCtorPost self.m_fileName w.os obj os1) :
    self.AcquireWriteLock ndebug w =
      if obj.fd < 0 then
        .ok (.ER_EOF, self,
          { os := os1, heap := Function.update w.heap w.brk ⟨obj, 0⟩, brk := w.brk + 1 })
      else if nextOk os1.env.flockOk then
        .ok (.ER_OK, { self with m_sink := some w.brk },
          { os := (sys_flock os1 obj.fd .LOCK_EX false).2,
            heap := Function.update w.heap w.brk ⟨{ obj with locked := true }, 1⟩,
            brk := w.brk + 1 })
      else
        .ok (.ER_OK, self,
          { os := sys_close (sys_flock os1 obj.fd .LOCK_EX false).2 obj.fd,
            heap := Function.update w.heap w.brk ⟨obj, 0⟩, brk := w.brk + 1 }) := by
  obtain ⟨name, sink⟩ := self
  simp only at hidle
  subst hidle
  obtain ⟨fd, ownsFd, locked⟩ := obj
  have h1 := hpost.ownsFd
  have h2 := hpost.unlocked
  simp only at h1 h2
  subst h1 h2
  by_cases hfd : fd < 0
  · simp [FileLocker.AcquireWriteLock, hctor, hfd, sp_reset, make_shared, FileSink.IsValid,
      sinkDtor_invalid]
  · have hofd := hpost.ofd_fd (by simp only; omega)
    have hfd2 : 0 ≤ fd := by omega
    simp only at hofd
    by_cases hg : nextOk os1.env.flockOk = true
    · simp [FileLocker.AcquireWriteLock, hctor, hfd, sp_reset, make_shared, FileSink.IsValid,
        sp_assign, sp_copy, FileSink.Lock,
        sys_flock_request os1 fd _ .LOCK_EX false hofd (by decide), hg]
    · simp [FileLocker.AcquireWriteLock, hctor, hfd, sp_reset, make_shared, FileSink.IsValid,
        sp_assign, sp_copy, FileSink.Lock, sinkDtor_valid, hfd2,
        sys_flock_request os1 fd _ .LOCK_EX false hofd (by decide), hg]

/-! ## Shared pointers -/

@[simp] theorem sp_copy_none (w : World) : sp_copy none w = w := rfl
@[simp] theorem sp_reset_none (w : World) : sp_reset none w = w := rfl
@[simp] theorem sp_copy_os (p : Option Nat) (w : World) : (sp_copy p w).os = w.os := by
  cases p <;> rfl
@[simp] theorem sp_copy_brk (p : Option Nat) (w : World) : (sp_copy p w).brk = w.brk := by
  cases p <;> rfl

@[simp] theorem sp_reset_brk (p : Option Nat) (w : World) : (sp_reset p w).brk = w.brk := by
  cases p with
  | none => rfl
  | some a =>
    unfold sp_reset
    simp only
    split <;> rfl

theorem sp_copy_heap (a : Nat) (w : World) :
    (sp_copy (some a) w).heap =
      Function.update w.heap a { w.heap a with useCount := (w.heap a).useCount + 1 } := rfl

/-- The heap after a shared pointer was dropped: the count of its cell is one
less, the object and the other cells are as they were. -/
theorem sp_reset_heap (a : Nat) (w : World) :
    (sp_reset (some a) w).heap =
      Function.update w.heap a { w.heap a with useCount := (w.heap a).useCount - 1 } := by
  unfold sp_reset
  simp only
  split
  · rename_i h
    funext b
    by_cases hb : b = a
    · subst hb
      simp [h]
      rw [← h]
    · simp [Function.update_noteq hb]
  · rename_i h
    simp [h]
  · rename_i n h
    simp [h]

/-- The kernel side after a shared pointer was dropped: untouched unless it was
the last one, in which case the destructor of the channel ran. -/
theorem sp_reset_os (a : Nat) (w : World) :
    (sp_reset (some a) w).os =
      if (w.heap a).useCount = 1 then (w.heap a).obj.dtor w.os else w.os := by
  unfold sp_reset
  simp only
  split
  · rename_i h; simp [h]
  · rename_i h; simp [h]
  · rename_i n h; simp [h]
theorem sp_copy_copy_heap (a : Nat) (w : World) :
    (sp_copy (some a) (sp_copy (some a) w)).heap a =
      { w.heap a with useCount := (w.heap a).useCount + 2 } := by
  simp [sp_copy_heap]


@[simp] theorem setCount_os (w : World) (a c : Nat) : (w.setCount a c).os = w.os := rfl
@[simp] theorem setCount_brk (w : World) (a c : Nat) : (w.setCount a c).brk = w.brk := rfl

@[simp] theorem setCount_obj (w : World) (a c b : Nat) :
    ((w.setCount a c).heap b).obj = (w.heap b).obj := by
  by_cases hb : b = a
  · subst hb; simp [World.setCount]
  · simp [World.setCount, Function.update_noteq hb]

@[simp] theorem setCount_fdOf (w : World) (a c b : Nat) : (w.setCount a c).fdOf b = w.fdOf b := by
  simp [World.fdOf]

theorem setCount_useCount (w : World) (a c b : Nat) :
    ((w.setCount a c).heap b).useCount = if b = a then c else (w.heap b).useCount := by
  by_cases hb : b = a
  · subst hb; simp [World.setCount]
  · simp [World.setCount, Function.update_noteq hb, hb]

theorem sp_copy_eq (a : Nat) (w : World) :
    sp_copy (some a) w = w.setCount a ((w.heap a).useCount + 1) := rfl

/-- Dropping a shared pointer: the count goes down by one, and the destructor of
the channel runs if it was the last pointer. -/
theorem sp_reset_eq (a : Nat) (w : World) :
    sp_reset (some a) w =
      { w.setCount a ((w.heap a).useCount - 1) with
        os := (if (w.heap a).useCount = 1 then (w.heap a).obj.dtor w.os else w.os) } := by
  have hw : sp_reset (some a) w =
      { os := (sp_reset (some a) w).os, heap := (sp_reset (some a) w).heap, brk := w.brk } := by
    rw [← sp_reset_brk (some a) w]
  rw [hw, sp_reset_heap, sp_reset_os]
  rfl

/-! ## Calls that request no lock -/

theorem NoLockReq.nothing (os : OS) : NoLockReq os os := ⟨[], by simp, by simp⟩

theorem NoLockReq.quiet_eq {os os1 : OS} (h : os1 = os) : NoLockReq os os1 := h ▸ NoLockReq.nothing os

theorem NoLockReq.next {a b c : OS} (h1 : NoLockReq a b) (h2 : NoLockReq b c) : NoLockReq a c := by
  obtain ⟨d1, hd1, hc1⟩ := h1
  obtain ⟨d2, hd2, hc2⟩ := h2
  refine ⟨d1 ++ d2, by rw [hd2, hd1, List.append_assoc], ?_⟩
  intro x hx
  rcases List.mem_append.1 hx with h | h
  · exact hc1 x h
  · exact hc2 x h

theorem NoLockReq.quiet_one {os os1 : OS} (c : Syscall) (h : os1.log = os.log ++ [c])
    (hc : c.isLockRequest = false) : NoLockReq os os1 :=
  ⟨[c], h, by simpa using hc⟩

theorem sys_lseek_log (os : OS) (fd : Int) (off : Nat) :
    (sys_lseek os fd off).2.log = os.log ++ [.lseek fd off (sys_lseek os fd off).1] := by
  unfold sys_lseek
  cases os.ofd fd <;> simp
  split <;> rfl

theorem sys_dup_log (os : OS) (fd : Int) :
    (sys_dup os fd).2.log = os.log ++ [.dup fd (sys_dup os fd).1] := by
  unfold sys_dup
  cases os.ofd fd <;> simp
  split <;> rfl

theorem NoLockReq.quiet_close (os : OS) (fd : Int) : NoLockReq os (sys_close os fd) :=
  NoLockReq.quiet_one _ (sys_close_log os fd) rfl

theorem NoLockReq.quiet_unlock (os : OS) (fd : Int) (nb : Bool) :
    NoLockReq os (sys_flock os fd .LOCK_UN nb).2 :=
  NoLockReq.quiet_one _ (sys_flock_log os fd .LOCK_UN nb) rfl

theorem NoLockReq.quiet_lseek (os : OS) (fd : Int) (off : Nat) : NoLockReq os (sys_lseek os fd off).2 :=
  NoLockReq.quiet_one _ (sys_lseek_log os fd off) rfl

theorem NoLockReq.quiet_dup (os : OS) (fd : Int) : NoLockReq os (sys_dup os fd).2 :=
  NoLockReq.quiet_one _ (sys_dup_log os fd) rfl

theorem NoLockReq.quiet_sinkDtor (self : FileSink) (os : OS) : NoLockReq os (self.dtor os) := by
  by_cases h : self.fd < 0
  · rw [sinkDtor_invalid self os h]; exact NoLockReq.nothing os
  · rw [sinkDtor_valid self os (by omega)]
    cases self.ownsFd <;> cases self.locked <;> simp
    · exact NoLockReq.nothing os
    · exact NoLockReq.quiet_unlock os _ _
    · exact NoLockReq.quiet_close os _
    · exact (NoLockReq.quiet_unlock os _ _).next (NoLockReq.quiet_close _ _)

theorem NoLockReq.quiet_sourceDtor (self : FileSource) (os : OS) : NoLockReq os (self.dtor os) := by
  by_cases h : self.fd < 0
  · rw [sourceDtor_invalid self os h]; exact NoLockReq.nothing os
  · rw [sourceDtor_valid self os (by omega)]
    cases self.ownsFd <;> cases self.locked <;> simp
    · exact NoLockReq.nothing os
    · exact NoLockReq.quiet_unlock os _ _
    · exact NoLockReq.quiet_close os _
    · exact (NoLockReq.quiet_unlock os _ _).next (NoLockReq.quiet_close _ _)

theorem NoLockReq.quiet_up_reset (old : Option FileSource) (os : OS) : NoLockReq os (up_reset old os) := by
  cases old with
  | none => exact NoLockReq.nothing os
  | some src => exact NoLockReq.quiet_sourceDtor src os

theorem NoLockReq.quiet_sp_reset (p : Option Nat) (w : World) : NoLockReq w.os (sp_reset p w).os := by
  cases p with
  | none => exact NoLockReq.nothing _
  | some a =>
    rw [sp_reset_os]
    split
    · exact NoLockReq.quiet_sinkDtor _ _
    · exact NoLockReq.nothing _

theorem NoLockReq.quiet_sp_copy (p : Option Nat) (w : World) : NoLockReq w.os (sp_copy p w).os := by
  rw [sp_copy_os]; exact NoLockReq.nothing _

theorem NoLockReq.quiet_sp_assign (old new : Option Nat) (w : World) :
    NoLockReq w.os (sp_assign old new w).os := by
  unfold qcc.sp_assign
  exact (NoLockReq.quiet_sp_copy new w).next (NoLockReq.quiet_sp_reset old _)

/-! ## Lock and the handle initialisers -/

theorem sourceLock_fd (self : FileSource) (block : Bool) (os : OS) :
    (self.Lock block os).2.1.fd = self.fd ∧ (self.Lock block os).2.1.ownsFd = self.ownsFd := by
  unfold FileSource.Lock
  split
  · exact ⟨rfl, rfl⟩
  · split <;> exact ⟨rfl, rfl⟩

/-- The value `Lock` returns is the lock flag it leaves, and a channel it reports
locked is valid. -/
theorem sourceLock_locked (self : FileSource) (block : Bool) (os : OS)
    (h : (self.Lock block os).1 = true) :
    (self.Lock block os).2.1.locked = true ∧ 0 ≤ self.fd := by
  unfold FileSource.Lock at h ⊢
  split at h
  · simp at h
  · rename_i hfd
    split at h
    · rename_i hl
      simp only [if_neg hfd, if_pos hl]
      exact ⟨h, by omega⟩
    · rename_i hl
      simp only [if_neg hfd, if_neg hl]
      exact ⟨h, by omega⟩

/-- The definition of InitReadWrite with the results of the calls named by
projections. -/
theorem FileLock.InitReadWrite_eq (ndebug : Bool) (fl : FileLock) (sink : Nat) (w : World) :
    fl.InitReadWrite ndebug sink w =
      if !ndebug ∧ fl.m_sink = some sink then .error .assertFailed
      else if (w.heap sink).useCount = 0 then .error .badPointer
      else if !(w.heap sink).obj.IsValid then
        .ok (.ER_EOF, ⟨none, none⟩, sp_reset fl.m_sink { w with os := up_reset fl.m_source w.os })
      else if (sys_lseek w.os (w.heap sink).obj.fd 0).1 < 0 then
        .ok (.ER_OS_ERROR, fl, { w with os := (sys_lseek w.os (w.heap sink).obj.fd 0).2 })
      else
        .ok (.ER_OK,
          ⟨some (FileSource.ctor_fdesc (w.heap sink).obj.fd
              (sys_lseek w.os (w.heap sink).obj.fd 0).2).1, some sink⟩,
          sp_assign fl.m_sink (some sink)
            { w with
              os := (up_reset fl.m_source (FileSource.ctor_fdesc (w.heap sink).obj.fd
                (sys_lseek w.os (w.heap sink).obj.fd 0).2).2) }) := rfl

/-- A handle initialised by InitReadWrite: no lock was requested, and on ER_OK the
handle holds the channel it was given together with an unlocked read channel of
its own. -/
theorem initReadWrite_ok (ndebug : Bool) (fl : FileLock) (sink : Nat) (w : World)
    (st : QStatus) (fl1 : FileLock) (w1 : World)
    (h : fl.InitReadWrite ndebug sink w = .ok (st, fl1, w1)) :
    NoLockReq w.os w1.os ∧
    (st = .ER_OK → fl1.m_sink = some sink ∧
      ∃ src, fl1.m_source = some src ∧ src.locked = false ∧ src.ownsFd = true) := by
  rw [FileLock.InitReadWrite_eq] at h
  split at h
  · cases h
  · split at h
    · cases h
    · split at h
      · simp only [Except.ok.injEq, Prod.mk.injEq] at h
        obtain ⟨rfl, rfl, rfl⟩ := h
        refine ⟨?_, by simp⟩
        exact (NoLockReq.quiet_up_reset fl.m_source w.os).next
          (NoLockReq.quiet_sp_reset fl.m_sink { w with os := up_reset fl.m_source w.os })
      · split at h
        · simp only [Except.ok.injEq, Prod.mk.injEq] at h
          obtain ⟨rfl, rfl, rfl⟩ := h
          exact ⟨NoLockReq.quiet_lseek _ _ _, by simp⟩
        · simp only [Except.ok.injEq, Prod.mk.injEq] at h
          obtain ⟨rfl, rfl, rfl⟩ := h
          refine ⟨?_, fun _ => ⟨rfl, _, rfl, rfl, rfl⟩⟩
          refine (NoLockReq.quiet_lseek w.os (w.heap sink).obj.fd 0).next ?_
          refine (NoLockReq.quiet_dup _ (w.heap sink).obj.fd).next ?_
          refine (NoLockReq.quiet_up_reset fl.m_source _).next ?_
          exact NoLockReq.quiet_sp_assign fl.m_sink (some sink)
            { w with
              os := (up_reset fl.m_source (FileSource.ctor_fdesc (w.heap sink).obj.fd
                (sys_lseek w.os (w.heap sink).obj.fd 0).2).2) }

/-- The definition of InitReadOnly with the results of the calls named by
projections. -/
theorem FileLock.InitReadOnly_eq (fl : FileLock) (name : String) (w : World) :
    fl.InitReadOnly name w =
      if !(FileSource.ctor_fileName name w.os).1.IsValid then
        (.ER_EOF, ⟨none, none⟩,
          { readOnlyMid fl name w with
            os := ((FileSource.ctor_fileName name w.os).1.dtor (readOnlyMid fl name w).os) })
      else if !((FileSource.ctor_fileName name w.os).1.Lock true (readOnlyMid fl name w).os).1 then
        (.ER_READ_ERROR,
          ⟨some ((FileSource.ctor_fileName name w.os).1.Lock true (readOnlyMid fl name w).os).2.1,
            none⟩,
          { readOnlyMid fl name w with
            os := ((FileSource.ctor_fileName name w.os).1.Lock true
              (readOnlyMid fl name w).os).2.2 })
      else
        (.ER_OK,
          ⟨some ((FileSource.ctor_fileName name w.os).1.Lock true (readOnlyMid fl name w).os).2.1,
            none⟩,
          { readOnlyMid fl name w with
            os := ((FileSource.ctor_fileName name w.os).1.Lock true
              (readOnlyMid fl name w).os).2.2 }) :=
  rfl

/-! ## Well-formedness is kept by the elementary changes of state -/

section WInvBasics

variable {ι : Type} {w : World} {srcs : ι → Option FileSource} {own : ι → Prop} {ex : Option Nat}

theorem WInv.fd_nonneg (h : WInv w srcs own ex) (a : Nat) (ha : w.live a) : 0 ≤ w.fdOf a := by
  obtain ⟨_, id, hid⟩ := h.sink a ha
  exact ofd_nonneg _ _ _ hid

/-- Two live write channels have different descriptors. -/
theorem WInv.fd_inj (h : WInv w srcs own ex) (a b : Nat) (ha : w.live a) (hb : w.live b)
    (hfd : w.fdOf a = w.fdOf b) : a = b :=
  h.sinkInj a b ha hb (by rw [hfd])

/-- The read channels may be renamed, dropped, and their marks changed as long as
every marked one was marked or is locked. -/
theorem WInv.reindex {ι' : Type} (h : WInv w srcs own ex) (σ : ι' → ι)
    (srcs' : ι' → Option FileSource) (own' : ι' → Prop)
    (hσ : ∀ i j s t, srcs' i = some s → srcs' j = some t → σ i = σ j → i = j)
    (hs : ∀ i s, srcs' i = some s → srcs (σ i) = some s)
    (ho : ∀ i s, srcs' i = some s → own' i → s.locked = true ∨ own (σ i)) :
    WInv w srcs' own' ex where
  brk := h.brk
  ids := h.ids
  sink := h.sink
  locked := h.locked
  sinkInj := h.sinkInj
  src := fun i s hi => h.src (σ i) s (hs i s hi)
  srcSink := fun i s a hi => h.srcSink (σ i) s a (hs i s hi)
  srcSrc := fun i j s t hij hi hj =>
    h.srcSrc (σ i) (σ j) s t (fun e => hij (hσ i j s t hi hj e)) (hs i s hi) (hs j t hj)
  srcOfd := fun i s a hi hl ha => by
    refine h.srcOfd (σ i) s a (hs i s hi) ?_ ha
    rcases hl with hl | hl
    · exact Or.inl hl
    · exact ho i s hi hl

/-- The exempted channel may be forgotten once it is locked or gone, and any
channel may be exempted. -/
theorem WInv.setEx (h : WInv w srcs own ex) (ex' : Option Nat)
    (hex : ∀ a, ex = some a → ex' ≠ some a → w.live a →
      (w.heap a).obj.locked = true ∧
        ∀ id, w.os.ofd (w.fdOf a) = some id → w.os.held id = .exclusive) :
    WInv w srcs own ex' where
  brk := h.brk
  ids := h.ids
  sink := h.sink
  locked := fun a ha hne => by
    by_cases he : ex = some a
    · exact hex a he hne ha
    · exact h.locked a ha he
  sinkInj := h.sinkInj
  src := h.src
  srcSink := h.srcSink
  srcSrc := h.srcSrc
  srcOfd := h.srcOfd

/-- A change of the kernel state that leaves alone the descriptors of the live
write channels and of the read channels, and the exclusive locks of the write
channels. -/
theorem WInv.frame_os (h : WInv w srcs own ex) (os1 : OS)
    (hsink : ∀ a, w.live a → os1.ofd (w.fdOf a) = w.os.ofd (w.fdOf a))
    (hsrc : ∀ i s, srcs i = some s → os1.ofd s.fd = w.os.ofd s.fd)
    (hids : ∀ g id, os1.ofd g = some id → id < os1.nfiles)
    (hheld : ∀ a, w.live a → ex ≠ some a → ∀ id, w.os.ofd (w.fdOf a) = some id →
      os1.held id = .exclusive) :
    WInv { w with os := os1 } srcs own ex where
  brk := h.brk
  ids := hids
  sink := fun a ha => by
    obtain ⟨h1, id, hid⟩ := h.sink a ha
    exact ⟨h1, id, (hsink a ha).trans hid⟩
  locked := fun a ha hne => by
    refine ⟨(h.locked a ha hne).1, fun id hid => ?_⟩
    exact hheld a ha hne id ((hsink a ha).symm.trans hid)
  sinkInj := fun a b ha hb hab => by
    refine h.sinkInj a b ha hb ?_
    have := hsink a ha
    have := hsink b hb
    simp only [World.fdOf] at *
    simp_all
  src := fun i s hi h0 => by
    obtain ⟨id, hid⟩ := h.src i s hi h0
    exact ⟨id, (hsrc i s hi).trans hid⟩
  srcSink := h.srcSink
  srcSrc := h.srcSrc
  srcOfd := fun i s a hi hl ha => by
    have h1 := h.srcOfd i s a hi hl ha
    have h2 := hsink a ha
    have h3 := hsrc i s hi
    simp only [World.fdOf] at *
    simp_all

/-- A change of the use count of one write channel that does not bring a dead
channel to life. -/
theorem WInv.of_setCount (h : WInv w srcs own ex) (a c : Nat) (hc : 0 < c → w.live a) :
    WInv (w.setCount a c) srcs own ex := by
  have hlive : ∀ b, (w.setCount a c).live b → w.live b := by
    intro b hb'
    simp only [World.live, setCount_useCount] at hb'
    by_cases hb : b = a
    · subst hb
      rw [if_pos rfl] at hb'
      exact hc hb'
    · rwa [if_neg hb] at hb'
  constructor
  · intro b hb
    rw [setCount_useCount]
    by_cases hba : b = a
    · subst hba
      rw [if_pos rfl]
      have := h.brk b hb
      by_contra hne
      have := hc (Nat.pos_of_ne_zero hne)
      simp only [World.live] at this
      omega
    · rw [if_neg hba]
      exact h.brk b hb
  · exact h.ids
  · intro b hb
    have := h.sink b (hlive b hb)
    simpa using this
  · intro b hb hne
    have := h.locked b (hlive b hb) hne
    simpa using this
  · intro b b' hb hb' hbb
    refine h.sinkInj b b' (hlive b hb) (hlive b' hb') ?_
    simpa using hbb
  · exact h.src
  · intro i s b hi hb
    have := h.srcSink i s b hi (hlive b hb)
    simpa using this
  · exact h.srcSrc
  · intro i s b hi hl hb
    have := h.srcOfd i s b hi hl (hlive b hb)
    simpa using this

/-- A read channel is put in place `i`: its descriptor, when valid, is open and is
that of no live write channel and no other read channel. -/
theorem WInv.setSrc (h : WInv w srcs own ex) [DecidableEq ι] (i : ι) (s : FileSource)
    (hopen : 0 ≤ s.fd → ∃ id, w.os.ofd s.fd = some id)
    (hsink : ∀ a, w.live a → s.fd ≠ w.fdOf a)
    (hsrc : ∀ j t, j ≠ i → srcs j = some t → 0 ≤ s.fd → s.fd ≠ t.fd)
    (hofd : (s.locked = true ∨ own i) → ∀ a, w.live a → w.os.ofd s.fd ≠ w.os.ofd (w.fdOf a)) :
    WInv w (Function.update srcs i (some s)) own ex where
  brk := h.brk
  ids := h.ids
  sink := h.sink
  locked := h.locked
  sinkInj := h.sinkInj
  src := fun j t hj h0 => by
    by_cases hji : j = i
    · subst hji
      simp at hj
      subst hj
      exact hopen h0
    · rw [Function.update_noteq hji] at hj
      exact h.src j t hj h0
  srcSink := fun j t a hj ha => by
    by_cases hji : j = i
    · subst hji
      simp at hj
      subst hj
      exact hsink a ha
    · rw [Function.update_noteq hji] at hj
      exact h.srcSink j t a hj ha
  srcSrc := fun j k t u hjk hj hk h0 => by
    by_cases hji : j = i
    · subst hji
      simp at hj
      subst hj
      have hki : k ≠ j := fun e => hjk e.symm
      rw [Function.update_noteq hki] at hk
      exact hsrc k u hki hk h0
    · rw [Function.update_noteq hji] at hj
      by_cases hki : k = i
      · subst hki
        simp at hk
        subst hk
        intro e
        exact hsrc j t hji hj (by omega) e.symm
      · rw [Function.update_noteq hki] at hk
        exact h.srcSrc j k t u hjk hj hk h0
  srcOfd := fun j t a hj hl ha => by
    by_cases hji : j = i
    · subst hji
      simp at hj
      subst hj
      exact hofd hl a ha
    · rw [Function.update_noteq hji] at hj
      exact h.srcOfd j t a hj hl ha

end WInvBasics

/-! ## Calls that only add to the kernel state -/

theorem Extends.ext_same (os : OS) : Extends os os :=
  ⟨fun _ _ h => h, fun h => h, fun _ _ => rfl, Nat.le_refl _⟩

theorem Extends.andAlso {a b c : OS} (h1 : Extends a b) (h2 : Extends b c) : Extends a c :=
  ⟨fun g id h => h2.ofd g id (h1.ofd g id h), fun h => h2.ids (h1.ids h),
    fun id h => (h2.held id (Nat.lt_of_lt_of_le h h1.nfiles)).trans (h1.held id h),
    Nat.le_trans h1.nfiles h2.nfiles⟩

/-- A kernel state with the same descriptors and open file descriptions. -/
theorem Extends.of_same_tables {os os1 : OS} (h1 : os1.fdtab = os.fdtab)
    (h2 : ∀ id, os1.held id = os.held id) (h3 : os1.nfiles = os.nfiles) : Extends os os1 :=
  ⟨fun g id h => by rw [ofd_congr os os1 h1]; exact h,
    fun h g id hg => by rw [h3]; exact h g id (by rw [← ofd_congr os os1 h1]; exact hg),
    fun id _ => h2 id, by omega⟩

theorem Extends.of_dirsOnly {os os1 : OS} (h : DirsOnly os os1) : Extends os os1 :=
  Extends.of_same_tables h.fdtab (fun id => by simp [OS.held, h.files]) h.nfiles

theorem Extends.of_sinkCtor {name : String} {os os1 : OS} {obj : FileSink}
    (h : SinkCtorPost name os obj os1) : Extends os os1 := by
  rcases h.result with ⟨_, h2, h3, h4⟩ | ⟨h1, h2, h3, h4⟩
  · exact Extends.of_same_tables h2 (fun id => by simp [OS.held, h3]) h4
  · refine ⟨fun g id hg => ?_, fun hids g id hg => ?_, fun id hid => ?_, by omega⟩
    · rw [ofd_install os os1 os.nfiles h2]
      have : g ≠ (firstFree os.fdtab : Int) := by
        rintro rfl
        rw [ofd_firstFree] at hg
        cases hg
      rw [if_neg this]
      exact hg
    · rw [ofd_install os os1 os.nfiles h2] at hg
      rw [h4]
      split at hg
      · cases hg; omega
      · have := hids g id hg; omega
    · have : id ≠ os.nfiles := by omega
      simp [OS.held, h3, Function.update_noteq this]

theorem sys_lseek_fdtab (os : OS) (fd : Int) (off : Nat) :
    (sys_lseek os fd off).2.fdtab = os.fdtab := by
  unfold sys_lseek
  cases os.ofd fd <;> simp
  split <;> rfl

theorem sys_lseek_nfiles (os : OS) (fd : Int) (off : Nat) :
    (sys_lseek os fd off).2.nfiles = os.nfiles := by
  unfold sys_lseek
  cases os.ofd fd <;> simp
  split <;> rfl

theorem sys_lseek_held (os : OS) (fd : Int) (off : Nat) (id : Nat) :
    (sys_lseek os fd off).2.held id = os.held id := by
  unfold sys_lseek
  cases h : os.ofd fd with
  | none => rfl
  | some id0 =>
    simp only
    split
    · by_cases hid : id = id0
      · subst hid; simp [OS.held]
      · simp [OS.held, Function.update_noteq hid]
    · rfl

theorem Extends.of_lseek (os : OS) (fd : Int) (off : Nat) : Extends os (sys_lseek os fd off).2 :=
  Extends.of_same_tables (sys_lseek_fdtab os fd off) (sys_lseek_held os fd off)
    (sys_lseek_nfiles os fd off)

/-- What `open` does: either it fails and descriptors and open file descriptions
are untouched, or it returns the lowest unused descriptor, open on a new, unlocked
open file description. -/
theorem sys_open_cases (os : OS) (path : String) (flags : OpenFlags) (mode : Nat) :
    ((sys_open os path flags mode).1 = -1 ∧
      (sys_open os path flags mode).2.fdtab = os.fdtab ∧
      (sys_open os path flags mode).2.files = os.files ∧
      (sys_open os path flags mode).2.nfiles = os.nfiles) ∨
    ((sys_open os path flags mode).1 = (firstFree os.fdtab : Int) ∧
      (sys_open os path flags mode).2.fdtab = install os.fdtab os.nfiles ∧
      (sys_open os path flags mode).2.files
        = Function.update os.files os.nfiles ⟨path, 0, .unlocked⟩ ∧
      (sys_open os path flags mode).2.nfiles = os.nfiles + 1) := by
  unfold sys_open
  by_cases h : nextOk os.env.openOk = true
  · right; simp [h]
  · left; simp [h]

theorem Extends.of_open (os : OS) (path : String) (flags : OpenFlags) (mode : Nat) :
    Extends os (sys_open os path flags mode).2 := by
  rcases sys_open_cases os path flags mode with ⟨_, h2, h3, h4⟩ | ⟨h1, h2, h3, h4⟩
  · exact Extends.of_same_tables h2 (fun id => by simp [OS.held, h3]) h4
  · refine ⟨fun g id hg => ?_, fun hids g id hg => ?_, fun id hid => ?_, by omega⟩
    · rw [ofd_install os _ os.nfiles h2]
      have : g ≠ (firstFree os.fdtab : Int) := by
        rintro rfl
        rw [ofd_firstFree] at hg
        cases hg
      rw [if_neg this]
      exact hg
    · rw [ofd_install os _ os.nfiles h2] at hg
      rw [h4]
      split at hg
      · cases hg; omega
      · have := hids g id hg; omega
    · have : id ≠ os.nfiles := by omega
      simp [OS.held, h3, Function.update_noteq this]

/-- What `dup` does: either it fails and descriptors are untouched, or it returns
the lowest unused descriptor, open on the open file description of its argument. -/
theorem sys_dup_cases (os : OS) (fd : Int) :
    (sys_dup os fd).2.files = os.files ∧ (sys_dup os fd).2.nfiles = os.nfiles ∧
    (((sys_dup os fd).1 = -1 ∧ (sys_dup os fd).2.fdtab = os.fdtab) ∨
      ∃ id, os.ofd fd = some id ∧ (sys_dup os fd).1 = (firstFree os.fdtab : Int) ∧
        (sys_dup os fd).2.fdtab = install os.fdtab id) := by
  unfold sys_dup
  cases h : os.ofd fd with
  | none => exact ⟨rfl, rfl, Or.inl ⟨rfl, rfl⟩⟩
  | some id =>
    simp only
    by_cases hd : nextOk os.env.dupOk = true
    · simp [hd]
    · simp [hd]

theorem Extends.of_dup (os : OS) (fd : Int) : Extends os (sys_dup os fd).2 := by
  obtain ⟨h3, h4, hc⟩ := sys_dup_cases os fd
  rcases hc with ⟨_, h2⟩ | ⟨id0, hid0, h1, h2⟩
  · exact Extends.of_same_tables h2 (fun id => by simp [OS.held, h3]) h4
  · refine ⟨fun g id hg => ?_, fun hids g id hg => ?_, fun id _ => ?_, by omega⟩
    · rw [ofd_install os _ id0 h2]
      have : g ≠ (firstFree os.fdtab : Int) := by
        rintro rfl
        rw [ofd_firstFree] at hg
        cases hg
      rw [if_neg this]
      exact hg
    · rw [ofd_install os _ id0 h2] at hg
      rw [h4]
      split at hg
      · cases hg; exact hids fd _ hid0
      · exact hids g id hg
    · simp [OS.held, h3]

section WInvExtends

variable {ι : Type} {w : World} {srcs : ι → Option FileSource} {own : ι → Prop} {ex : Option Nat}

/-- Well-formedness is kept when the kernel state is extended. -/
theorem WInv.extend (h : WInv w srcs own ex) (os1 : OS) (he : Extends w.os os1) :
    WInv { w with os := os1 } srcs own ex := by
  refine h.frame_os os1 ?_ ?_ (he.ids h.ids) ?_
  · intro a ha
    obtain ⟨_, id, hid⟩ := h.sink a ha
    rw [hid]
    exact he.ofd _ _ hid
  · intro i s hi
    by_cases h0 : 0 ≤ s.fd
    · obtain ⟨id, hid⟩ := h.src i s hi h0
      rw [hid]
      exact he.ofd _ _ hid
    · rw [ofd_of_neg _ _ (by omega), ofd_of_neg _ _ (by omega)]
  · intro a ha hne id hid
    rw [he.held id (h.ids _ _ hid)]
    exact (h.locked a ha hne).2 id hid

end WInvExtends

/-! ## The destructors and the kernel state -/

theorem sinkDtor_eq (self : FileSink) (os : OS) :
    self.dtor os = closeChannel self.fd self.ownsFd self.locked os := by
  unfold closeChannel
  by_cases h : self.fd < 0
  · rw [if_pos h, sinkDtor_invalid self os h]
  · rw [if_neg h, sinkDtor_valid self os (by omega)]

theorem sourceDtor_eq (self : FileSource) (os : OS) :
    self.dtor os = closeChannel self.fd self.ownsFd self.locked os := by
  unfold closeChannel
  by_cases h : self.fd < 0
  · rw [if_pos h, sourceDtor_invalid self os h]
  · rw [if_neg h, sourceDtor_valid self os (by omega)]

theorem closeChannel_nfiles (fd : Int) (o l : Bool) (os : OS) :
    (closeChannel fd o l os).nfiles = os.nfiles := by
  unfold closeChannel
  split
  · rfl
  · cases o <;> cases l <;> simp

theorem closeChannel_ofd_other (fd : Int) (o l : Bool) (os : OS) (g : Int) (hg : g ≠ fd) :
    (closeChannel fd o l os).ofd g = os.ofd g := by
  unfold closeChannel
  split
  · rfl
  · cases o <;> cases l <;> simp [sys_close_ofd, hg]

theorem closeChannel_ofd_sub (fd : Int) (o l : Bool) (os : OS) (g : Int) (id : Nat)
    (h : (closeChannel fd o l os).ofd g = some id) : os.ofd g = some id := by
  unfold closeChannel at h
  split at h
  · exact h
  · by_cases hg : g = fd
    · cases o <;> cases l <;> simp [sys_close_ofd, hg] at h ⊢ <;> simpa [hg] using h
    · cases o <;> cases l <;> simpa [sys_close_ofd, hg] using h

/-- The descriptor of a valid channel that owns it is closed by the destructor. -/
theorem closeChannel_ofd_self (fd : Int) (l : Bool) (os : OS) (h : 0 ≤ fd) :
    (closeChannel fd true l os).ofd fd = none := by
  unfold closeChannel
  rw [if_neg (by omega)]
  simp [sys_close_ofd]

/-- The lock of an open file description survives the destructor of a channel on
another open file description, and that of an unlocked channel which leaves it a
descriptor. -/
theorem closeChannel_held (fd : Int) (o l : Bool) (os : OS) (id : Nat)
    (h1 : l = true → os.ofd fd ≠ some id) (h2 : ∃ g, g ≠ fd ∧ os.ofd g = some id) :
    (closeChannel fd o l os).held id = os.held id := by
  unfold closeChannel
  split
  · rfl
  · cases l with
    | false =>
      cases o with
      | false => rfl
      | true =>
        simp only [if_true]
        exact sys_close_held_keep os fd id (Or.inr h2)
    | true =>
      have h1' := h1 rfl
      cases o with
      | false =>
        simp only [if_true]
        exact sys_flock_held_other os fd .LOCK_UN false id h1'
      | true =>
        simp only [if_true]
        rw [sys_close_held_keep _ fd id (Or.inl (by simpa using h1'))]
        exact sys_flock_held_other os fd .LOCK_UN false id h1'

theorem closeChannel_env (fd : Int) (o l : Bool) (os : OS) :
    (closeChannel fd o l os).env = os.env := by
  unfold closeChannel
  split
  · rfl
  · cases o <;> cases l <;> simp [sys_flock_env_unlock]

/-- The calls the destructor issues. -/
theorem closeChannel_log (fd : Int) (o l : Bool) (os : OS) (h : 0 ≤ fd) :
    (closeChannel fd o l os).log = os.log ++
      (if l then [Syscall.flock fd .LOCK_UN false (sys_flock os fd .LOCK_UN false).1] else []) ++
      (if o then [Syscall.close fd] else []) := by
  unfold closeChannel
  rw [if_neg (by omega)]
  cases o <;> cases l <;> simp [sys_flock_log]

/-! ## Well-formedness is kept by the operations on pointers and channels -/

section WInvPrims

variable {ι : Type} {w : World} {srcs : ι → Option FileSource} {own : ι → Prop} {ex : Option Nat}

theorem WInv.of_sp_copy (h : WInv w srcs own ex) (p : Option Nat)
    (hp : ∀ a, p = some a → w.live a) : WInv (sp_copy p w) srcs own ex := by
  cases p with
  | none => exact h
  | some a => exact h.of_setCount a _ (fun _ => hp a rfl)

/-- The destructor of a channel whose descriptor is that of no live write channel
and of no read channel, and whose unlocking touches no live write channel. -/
theorem WInv.of_closeChannel (h : WInv w srcs own ex) (fd : Int) (o l : Bool)
    (hsink : ∀ a, w.live a → w.fdOf a ≠ fd)
    (hsrc : ∀ i s, srcs i = some s → 0 ≤ s.fd → s.fd ≠ fd)
    (hofd : l = true → ∀ a, w.live a → w.os.ofd fd ≠ w.os.ofd (w.fdOf a)) :
    WInv { w with os := closeChannel fd o l w.os } srcs own ex := by
  refine h.frame_os _ ?_ ?_ ?_ ?_
  · intro a ha
    exact closeChannel_ofd_other fd o l w.os _ (hsink a ha)
  · intro i s hi
    by_cases h0 : 0 ≤ s.fd
    · exact closeChannel_ofd_other fd o l w.os _ (hsrc i s hi h0)
    · rw [ofd_of_neg _ _ (by omega), ofd_of_neg _ _ (by omega)]
  · intro g id hg
    rw [closeChannel_nfiles]
    exact h.ids g id (closeChannel_ofd_sub fd o l w.os g id hg)
  · intro a ha hne id hid
    rw [closeChannel_held fd o l w.os id ?_ ⟨w.fdOf a, hsink a ha, hid⟩]
    · exact (h.locked a ha hne).2 id hid
    · intro hl hfd
      exact hofd hl a ha (hfd.trans hid.symm)

theorem WInv.of_sp_reset (h : WInv w srcs own ex) (p : Option Nat) :
    WInv (sp_reset p w) srcs own ex := by
  cases p with
  | none => exact h
  | some a =>
    rw [sp_reset_eq]
    have hk := h.of_setCount a ((w.heap a).useCount - 1) (fun hc => by
      simp only [World.live]; omega)
    by_cases h1 : (w.heap a).useCount = 1
    · rw [if_pos h1, sinkDtor_eq]
      have ha : w.live a := by simp only [World.live]; omega
      have hdead : ∀ b, (w.setCount a ((w.heap a).useCount - 1)).live b → b ≠ a ∧ w.live b := by
        intro b hb
        simp only [World.live, setCount_useCount] at hb
        by_cases hba : b = a
        · subst hba
          rw [if_pos rfl] at hb
          omega
        · rw [if_neg hba] at hb
          exact ⟨hba, hb⟩
      refine hk.of_closeChannel (w.heap a).obj.fd _ _ ?_ ?_ ?_
      · intro b hb e
        obtain ⟨hba, hlb⟩ := hdead b hb
        rw [setCount_fdOf] at e
        exact hba (h.fd_inj b a hlb ha e)
      · intro i s hi _ e
        exact h.srcSink i s a hi ha e
      · intro _ b hb e
        obtain ⟨hba, hlb⟩ := hdead b hb
        rw [setCount_fdOf] at e
        exact hba (h.sinkInj b a hlb ha e.symm)
    · rw [if_neg h1]
      exact hk

/-- The read channel in place `i` is destroyed. -/
theorem WInv.of_up_reset [DecidableEq ι] (h : WInv w srcs own ex) (i : ι) :
    WInv { w with os := up_reset (srcs i) w.os } (Function.update srcs i none) own ex := by
  have hrem : WInv w (Function.update srcs i none) own ex := by
    refine h.reindex id _ own (fun _ _ _ _ _ _ e => e) ?_ ?_
    · intro j s hj
      by_cases hji : j = i
      · subst hji; simp at hj
      · rwa [Function.update_noteq hji] at hj
    · intro j s _ ho
      exact Or.inr ho
  cases hs : srcs i with
  | none => exact hrem
  | some s =>
    simp only [up_reset]
    rw [sourceDtor_eq]
    refine hrem.of_closeChannel s.fd _ _ ?_ ?_ ?_
    · intro a ha e
      exact h.srcSink i s a hs ha e.symm
    · intro j t hj h0 e
      by_cases hji : j = i
      · subst hji; simp at hj
      · rw [Function.update_noteq hji] at hj
        exact h.srcSrc j i t s hji hj hs h0 e
    · intro hl a ha
      exact h.srcOfd i s a hs (Or.inl hl) ha

/-- A read channel is opened by name and put in the empty place `i`. -/
theorem WInv.of_open_source [DecidableEq ι] (h : WInv w srcs own ex) (i : ι) (name : String) :
    WInv { w with os := (FileSource.ctor_fileName name w.os).2 }
      (Function.update srcs i (some (FileSource.ctor_fileName name w.os).1)) own ex := by
  have he := Extends.of_open w.os name .rdonly 0
  have h1 := h.extend _ he
  have hfree : ∀ g id, w.os.ofd g = some id → 0 ≤ (sys_open w.os name .rdonly 0).1 →
      (sys_open w.os name .rdonly 0).1 ≠ g := by
    intro g id hg h0 e
    rcases sys_open_cases w.os name .rdonly 0 with ⟨c1, _⟩ | ⟨c1, _⟩
    · omega
    · rw [← e, c1, ofd_firstFree] at hg
      cases hg
  have hnew : 0 ≤ (sys_open w.os name .rdonly 0).1 →
      (sys_open w.os name .rdonly 0).2.ofd (sys_open w.os name .rdonly 0).1 = some w.os.nfiles := by
    intro h0
    rcases sys_open_cases w.os name .rdonly 0 with ⟨c1, _⟩ | ⟨c1, c2, _, _⟩
    · omega
    · rw [ofd_install w.os _ w.os.nfiles c2, c1]
      simp
  refine h1.setSrc i _ ?_ ?_ ?_ ?_
  · intro h0
    exact ⟨_, hnew h0⟩
  · intro a ha e
    obtain ⟨_, id, hid⟩ := h.sink a ha
    have h0 : 0 ≤ (sys_open w.os name .rdonly 0).1 := by
      have := ofd_nonneg _ _ _ hid
      simp only [FileSource.ctor_fileName, World.fdOf] at e this ⊢
      omega
    exact hfree _ id hid h0 e
  · intro j t hji hj h0 e
    have ht : 0 ≤ t.fd := by
      simp only [FileSource.ctor_fileName] at e h0
      omega
    obtain ⟨id, hid⟩ := h.src j t hj ht
    exact hfree _ id hid h0 e
  · intro _ a ha e
    obtain ⟨_, id, hid⟩ := h.sink a ha
    have hlt := h.ids _ _ hid
    have hid1 := he.ofd _ _ hid
    simp only [FileSource.ctor_fileName, World.fdOf] at e hid1 hid
    rw [hid1] at e
    have h0 : 0 ≤ (sys_open w.os name .rdonly 0).1 := ofd_nonneg _ _ _ e
    rw [hnew h0] at e
    cases e
    omega

/-- A read channel is made on a duplicate of a descriptor and put in the empty,
unmarked place `i`. -/
theorem WInv.of_dup_source [DecidableEq ι] (h : WInv w srcs own ex) (i : ι)
    (hown : ¬ own i) (fdesc : Int) :
    WInv { w with os := (FileSource.ctor_fdesc fdesc w.os).2 }
      (Function.update srcs i (some (FileSource.ctor_fdesc fdesc w.os).1)) own ex := by
  have he := Extends.of_dup w.os fdesc
  have h1 := h.extend _ he
  obtain ⟨_, _, hc⟩ := sys_dup_cases w.os fdesc
  have hfree : ∀ g id, w.os.ofd g = some id → 0 ≤ (sys_dup w.os fdesc).1 →
      (sys_dup w.os fdesc).1 ≠ g := by
    intro g id hg h0 e
    rcases hc with ⟨c1, _⟩ | ⟨_, _, c1, _⟩
    · omega
    · rw [← e, c1, ofd_firstFree] at hg
      cases hg
  refine h1.setSrc i _ ?_ ?_ ?_ ?_
  · intro h0
    rcases hc with ⟨c1, _⟩ | ⟨id0, _, c1, c2⟩
    · simp only [FileSource.ctor_fdesc] at h0
      omega
    · refine ⟨id0, ?_⟩
      simp only [FileSource.ctor_fdesc]
      rw [ofd_install w.os _ id0 c2, c1]
      simp
  · intro a ha e
    obtain ⟨_, id, hid⟩ := h.sink a ha
    have h0 : 0 ≤ (sys_dup w.os fdesc).1 := by
      have := ofd_nonneg _ _ _ hid
      simp only [FileSource.ctor_fdesc, World.fdOf] at e this ⊢
      omega
    exact hfree _ id hid h0 e
  · intro j t hji hj h0 e
    have ht : 0 ≤ t.fd := by
      simp only [FileSource.ctor_fdesc] at e h0
      omega
    obtain ⟨id, hid⟩ := h.src j t hj ht
    exact hfree _ id hid h0 e
  · intro hl
    rcases hl with hl | hl
    · simp [FileSource.ctor_fdesc] at hl
    · exact absurd hl hown

theorem sourceLock_os (s : FileSource) (block : Bool) (os : OS) :
    (s.Lock block os).2.2 = os ∨ (s.Lock block os).2.2 = (sys_flock os s.fd .LOCK_SH (!block)).2 := by
  unfold FileSource.Lock
  split
  · exact Or.inl rfl
  · split
    · exact Or.inr rfl
    · exact Or.inl rfl

/-- The read channel in place `i`, locked already or marked, is locked. -/
theorem WInv.of_lock_source [DecidableEq ι] (h : WInv w srcs own ex) (i : ι) (s : FileSource)
    (hs : srcs i = some s) (hown : s.locked = true ∨ own i) (block : Bool) :
    WInv { w with os := (s.Lock block w.os).2.2 }
      (Function.update srcs i (some (s.Lock block w.os).2.1)) own ex := by
  have hfd := (sourceLock_fd s block w.os).1
  have h1 : WInv { w with os := (s.Lock block w.os).2.2 } srcs own ex := by
    rcases sourceLock_os s block w.os with e | e
    · rw [e]; exact h
    · rw [e]
      refine h.frame_os _ (fun a _ => sys_flock_ofd _ _ _ _ _) (fun j t _ => sys_flock_ofd _ _ _ _ _)
        ?_ ?_
      · intro g id hg
        rw [sys_flock_nfiles]
        rw [sys_flock_ofd] at hg
        exact h.ids g id hg
      · intro a ha hne id hid
        rw [sys_flock_held_other w.os s.fd _ _ id ?_]
        · exact (h.locked a ha hne).2 id hid
        · intro e2
          exact h.srcOfd i s a hs hown ha (e2.trans hid.symm)
  have hofd : ∀ g, ({ w with os := (s.Lock block w.os).2.2 } : World).os.ofd g = w.os.ofd g := by
    intro g
    rcases sourceLock_os s block w.os with e | e
    · simp only [e]
    · simp only [e, sys_flock_ofd]
  refine h1.setSrc i _ ?_ ?_ ?_ ?_
  · intro h0
    rw [hfd] at h0 ⊢
    obtain ⟨id, hid⟩ := h.src i s hs h0
    exact ⟨id, by rw [hofd]; exact hid⟩
  · intro a ha
    rw [hfd]
    exact h.srcSink i s a hs ha
  · intro j t hji hj h0
    rw [hfd] at h0 ⊢
    intro e
    have ht : 0 ≤ t.fd := by omega
    exact h.srcSrc j i t s hji hj hs ht e.symm
  · intro _ a ha
    rw [hfd, hofd, hofd]
    exact h.srcOfd i s a hs hown ha

/-- A valid write channel is allocated on a descriptor that is open, is the
descriptor of no read channel, and has an open file description of its own; the
new channel is the one exempted from being locked. -/
theorem WInv.of_make_shared (h : WInv w srcs own none) (obj : FileSink)
    (hown : obj.ownsFd = true) (id : Nat) (hopen : w.os.ofd obj.fd = some id)
    (hsink : ∀ a, w.live a → w.os.ofd (w.fdOf a) ≠ some id)
    (hsrc : ∀ i s, srcs i = some s → w.os.ofd s.fd ≠ some id) :
    WInv (make_shared obj w).2 srcs own (some w.brk) := by
  have hb := h.brk w.brk (Nat.le_refl _)
  have hlive : ∀ b, (make_shared obj w).2.live b → b ≠ w.brk → w.live b := by
    intro b hb1 hne
    simpa [World.live, make_shared, Function.update_noteq hne] using hb1
  have hfd : ∀ b, b ≠ w.brk → (make_shared obj w).2.fdOf b = w.fdOf b := by
    intro b hne
    simp [World.fdOf, make_shared, Function.update_noteq hne]
  have hfdn : (make_shared obj w).2.fdOf w.brk = obj.fd := by
    simp [World.fdOf, make_shared]
  have hos : (make_shared obj w).2.os = w.os := rfl
  constructor
  · intro b hbb
    have h1 : w.brk + 1 ≤ b := hbb
    have hne : b ≠ w.brk := by omega
    simpa [make_shared, Function.update_noteq hne] using h.brk b (by omega)
  · exact h.ids
  · intro b hbl
    by_cases hne : b = w.brk
    · subst hne
      rw [hfdn, hos]
      exact ⟨by simpa [make_shared] using hown, id, hopen⟩
    · have := h.sink b (hlive b hbl hne)
      rw [hfd b hne, hos]
      simpa [make_shared, Function.update_noteq hne] using this
  · intro b hbl hex
    have hne : b ≠ w.brk := fun e => hex (by rw [e])
    have := h.locked b (hlive b hbl hne) (by simp)
    rw [hfd b hne, hos]
    simpa [make_shared, Function.update_noteq hne] using this
  · intro b c hbl hcl e
    rw [hos] at e
    by_cases hb1 : b = w.brk
    · by_cases hc1 : c = w.brk
      · rw [hb1, hc1]
      · exfalso
        rw [hb1, hfdn, hfd c hc1, hopen] at e
        exact hsink c (hlive c hcl hc1) e.symm
    · by_cases hc1 : c = w.brk
      · exfalso
        rw [hc1, hfdn, hfd b hb1, hopen] at e
        exact hsink b (hlive b hbl hb1) e
      · rw [hfd b hb1, hfd c hc1] at e
        exact h.sinkInj b c (hlive b hbl hb1) (hlive c hcl hc1) e
  · exact h.src
  · intro i s b hi hbl
    by_cases hb1 : b = w.brk
    · rw [hb1, hfdn]
      intro e
      exact hsrc i s hi (by rw [e]; exact hopen)
    · rw [hfd b hb1]
      exact h.srcSink i s b hi (hlive b hbl hb1)
  · exact h.srcSrc
  · intro i s b hi hl hbl
    rw [hos]
    by_cases hb1 : b = w.brk
    · rw [hb1, hfdn, hopen]
      exact hsrc i s hi
    · rw [hfd b hb1]
      exact h.srcOfd i s b hi hl (hlive b hbl hb1)

end WInvPrims

/-! ## AcquireWriteLock keeps the process state well formed -/

section WInvAcquire

variable {ι : Type} {w : World} {srcs : ι → Option FileSource} {own : ι → Prop} {ex : Option Nat}

/-- Well-formedness looks at the heap through the use counts and the live objects
only. -/
theorem WInv.of_heap (h : WInv w srcs own ex) (heap1 : Nat → SinkCell)
    (hcount : ∀ a, (heap1 a).useCount = (w.heap a).useCount)
    (hobj : ∀ a, w.live a → (heap1 a).obj = (w.heap a).obj) :
    WInv { w with heap := heap1 } srcs own ex := by
  have hlive : ∀ a, (0 < (heap1 a).useCount) → w.live a := by
    intro a ha
    rw [hcount] at ha
    exact ha
  constructor
  · intro a ha
    simp only [hcount]
    exact h.brk a ha
  · exact h.ids
  · intro a ha
    have := h.sink a (hlive a ha)
    simpa only [World.fdOf, hobj a (hlive a ha)] using this
  · intro a ha hne
    have := h.locked a (hlive a ha) hne
    simpa only [World.fdOf, hobj a (hlive a ha)] using this
  · intro a a' ha ha' e
    refine h.sinkInj a a' (hlive a ha) (hlive a' ha') ?_
    simpa only [World.fdOf, hobj a (hlive a ha), hobj a' (hlive a' ha')] using e
  · exact h.src
  · intro i s a hi ha
    have := h.srcSink i s a hi (hlive a ha)
    simpa only [World.fdOf, hobj a (hlive a ha)] using this
  · exact h.srcSrc
  · intro i s a hi hl ha
    have := h.srcOfd i s a hi hl (hlive a ha)
    simpa only [World.fdOf, hobj a (hlive a ha)] using this

/-- A cell is allocated and its object destroyed at once. -/
theorem WInv.of_deadCell (h : WInv w srcs own ex) (obj : FileSink) :
    WInv { os := w.os, heap := Function.update w.heap w.brk ⟨obj, 0⟩, brk := w.brk + 1 }
      srcs own ex := by
  have hb := h.brk w.brk (Nat.le_refl _)
  have h1 := h.of_heap (Function.update w.heap w.brk ⟨obj, 0⟩) ?_ ?_
  · exact { h1 with brk := fun b hbb => h1.brk b (Nat.le_of_succ_le hbb) }
  · intro a
    by_cases ha : a = w.brk
    · rw [ha]; simp [hb]
    · simp [Function.update_noteq ha]
  · intro a hl
    have ha : a ≠ w.brk := by
      rintro rfl
      simp only [World.live] at hl
      omega
    simp [Function.update_noteq ha]

/-- The exempted write channel gets locked: its flag is set and its open file
description holds the exclusive lock. -/
theorem WInv.of_lockCell {b : Nat} (h : WInv w srcs own (some b)) (id : Nat)
    (hid : w.os.ofd (w.fdOf b) = some id) (os1 : OS) (obj : FileSink) (c : Nat)
    (hfd : obj.fd = w.fdOf b) (hown : obj.ownsFd = (w.heap b).obj.ownsFd)
    (hl : obj.locked = true) (hc : 0 < c → w.live b)
    (hofd : ∀ g, os1.ofd g = w.os.ofd g) (hn : os1.nfiles = w.os.nfiles)
    (hheld : os1.held id = .exclusive) (hother : ∀ j, j ≠ id → os1.held j = w.os.held j) :
    WInv { os := os1, heap := Function.update w.heap b ⟨obj, c⟩, brk := w.brk } srcs own none := by
  simp only [World.fdOf] at hid hfd
  have hlive : ∀ a, (0 < ((Function.update w.heap b ⟨obj, c⟩) a).useCount) → w.live a := by
    intro a ha
    by_cases hab : a = b
    · rw [hab] at ha ⊢
      simp at ha
      exact hc ha
    · simpa [World.live, Function.update_noteq hab] using ha
  have hfdOf : ∀ a, ((Function.update w.heap b ⟨obj, c⟩) a).obj.fd = (w.heap a).obj.fd := by
    intro a
    by_cases hab : a = b
    · rw [hab]; simpa using hfd
    · simp [Function.update_noteq hab]
  constructor
  · intro a ha
    by_cases hab : a = b
    · rw [hab] at ha ⊢
      simp only [Function.update_same]
      by_contra hne
      have h1 := hc (Nat.pos_of_ne_zero hne)
      have h2 := h.brk b ha
      simp only [World.live] at h1
      omega
    · simpa [Function.update_noteq hab] using h.brk a ha
  · intro g j hg
    rw [hn]
    exact h.ids g j (by rw [← hofd]; exact hg)
  · intro a ha
    have hs := h.sink a (hlive a ha)
    simp only [World.fdOf, hfdOf, hofd] at hs ⊢
    refine ⟨?_, hs.2⟩
    by_cases hab : a = b
    · rw [hab] at hs ⊢
      simp only [Function.update_same, hown]
      exact hs.1
    · simpa [Function.update_noteq hab] using hs.1
  · intro a ha _
    simp only [World.fdOf, hfdOf, hofd]
    by_cases hab : a = b
    · rw [hab]
      simp only [Function.update_same]
      refine ⟨hl, fun j hj => ?_⟩
      rw [hid] at hj
      cases hj
      exact hheld
    · have hlk := h.locked a (hlive a ha) (by intro e; cases e; exact hab rfl)
      simp only [World.fdOf] at hlk
      refine ⟨by simpa [Function.update_noteq hab] using hlk.1, fun j hj => ?_⟩
      by_cases hne : j = id
      · rw [hne]; exact hheld
      · rw [hother j hne]
        exact hlk.2 j hj
  · intro a a' ha ha' e
    simp only [World.fdOf, hfdOf, hofd] at e
    exact h.sinkInj a a' (hlive a ha) (hlive a' ha') e
  · intro i s hi h0
    obtain ⟨j, hj⟩ := h.src i s hi h0
    exact ⟨j, by rw [hofd]; exact hj⟩
  · intro i s a hi ha
    simp only [World.fdOf, hfdOf]
    exact h.srcSink i s a hi (hlive a ha)
  · exact h.srcSrc
  · intro i s a hi hlk ha
    simp only [World.fdOf, hfdOf, hofd]
    exact h.srcOfd i s a hi hlk (hlive a ha)

/-- Unless the assertion fires, AcquireWriteLock first drops the pointer the
FileLocker holds and then runs as on an idle FileLocker. -/
theorem acquire_eq_idle (ndebug : Bool) (self : FileLocker) (w : World)
    (h : ndebug = true ∨ self.m_sink = none) :
    self.AcquireWriteLock ndebug w =
      FileLocker.AcquireWriteLock ndebug { self with m_sink := none } (sp_reset self.m_sink w) := by
  rcases h with h | h
  · subst h
    simp [FileLocker.AcquireWriteLock]
  · simp [FileLocker.AcquireWriteLock, h]

theorem acquire_assert (self : FileLocker) (w : World) (h : self.m_sink ≠ none) :
    self.AcquireWriteLock false w = .error .assertFailed := by
  simp [FileLocker.AcquireWriteLock, h]

/-- No live write channel and no read channel has the descriptor the FileSink
constructor returns, or its open file description. -/
theorem WInv.sinkCtor_fresh (h : WInv w srcs own ex) {name : String} {obj : FileSink} {os1 : OS}
    (hpost : SinkCtorPost name w.os obj os1) :
    (∀ a, w.live a → w.fdOf a ≠ obj.fd ∧ os1.ofd (w.fdOf a) ≠ some w.os.nfiles) ∧
    (∀ i s, srcs i = some s → (0 ≤ s.fd → s.fd ≠ obj.fd) ∧ os1.ofd s.fd ≠ some w.os.nfiles) := by
  have he := Extends.of_sinkCtor hpost
  constructor
  · intro a ha
    obtain ⟨_, id, hid⟩ := h.sink a ha
    refine ⟨fun e => ?_, ?_⟩
    · rw [e, hpost.ofd_fresh] at hid
      cases hid
    · rw [he.ofd _ _ hid]
      have := h.ids _ _ hid
      intro e
      cases e
      omega
  · intro i s hi
    refine ⟨fun h0 e => ?_, ?_⟩
    · obtain ⟨id, hid⟩ := h.src i s hi h0
      rw [e, hpost.ofd_fresh] at hid
      cases hid
    · by_cases h0 : 0 ≤ s.fd
      · obtain ⟨id, hid⟩ := h.src i s hi h0
        rw [he.ofd _ _ hid]
        have := h.ids _ _ hid
        intro e
        cases e
        omega
      · rw [ofd_of_neg _ _ (by omega)]
        simp

/-- AcquireWriteLock keeps the process state well formed. -/
theorem WInv.of_acquire (h : WInv w srcs own none) (ndebug : Bool) (self : FileLocker)
    (st : QStatus) (l : FileLocker) (w1 : World)
    (hrun : self.AcquireWriteLock ndebug w = .ok (st, l, w1)) : WInv w1 srcs own none := by
  have hidle : ndebug = true ∨ self.m_sink = none := by
    by_contra hn
    have h1 : ndebug = false := by
      cases ndebug
      · rfl
      · exact absurd (Or.inl rfl) hn
    have h2 : self.m_sink ≠ none := fun e => hn (Or.inr e)
    rw [h1, acquire_assert self w h2] at hrun
    cases hrun
  rw [acquire_eq_idle ndebug self w hidle] at hrun
  have h0 := h.of_sp_reset self.m_sink
  generalize sp_reset self.m_sink w = w0 at hrun h0
  obtain ⟨obj, os1, hctor, hpost⟩ :=
    sinkCtor_returns self.m_fileName false Mode.PRIVATE w0.os
  rw [acquire_idle ndebug { self with m_sink := none } w0 rfl obj os1 hctor hpost] at hrun
  have he := Extends.of_sinkCtor hpost
  have h1 := h0.extend os1 he
  obtain ⟨hfs, hfr⟩ := h0.sinkCtor_fresh hpost
  by_cases hfd : obj.fd < 0
  · rw [if_pos hfd] at hrun
    simp only [Except.ok.injEq, Prod.mk.injEq] at hrun
    obtain ⟨_, _, rfl⟩ := hrun
    exact h1.of_deadCell obj
  · have hofd := hpost.ofd_fd (by omega)
    have hreq := sys_flock_request os1 obj.fd _ .LOCK_EX false hofd (by decide)
    rw [if_neg hfd] at hrun
    by_cases hg : nextOk os1.env.flockOk = true
    · rw [if_pos hg] at hrun
      rw [if_pos hg] at hreq
      simp only [Except.ok.injEq, Prod.mk.injEq] at hrun
      obtain ⟨_, _, rfl⟩ := hrun
      have h2 := h1.of_make_shared obj hpost.ownsFd w0.os.nfiles hofd
        (fun a ha => (hfs a ha).2) (fun i s hi => (hfr i s hi).2)
      have h3 := h2.of_lockCell w0.os.nfiles (by simpa [World.fdOf, make_shared] using hofd)
        (sys_flock os1 obj.fd .LOCK_EX false).2 { obj with locked := true } 1
        (by simp [World.fdOf, make_shared]) (by simp [make_shared]) rfl
        (fun _ => by simp [World.live, make_shared])
        (fun g => sys_flock_ofd _ _ _ _ g) (sys_flock_nfiles _ _ _ _)
        (by rw [hreq]; simp [OS.held])
        (fun j hj => sys_flock_held_other os1 obj.fd _ _ j (by
          rw [hofd]
          intro e
          cases e
          exact hj rfl))
      simpa [make_shared] using h3
    · rw [if_neg hg] at hrun
      rw [if_neg hg] at hreq
      simp only [Except.ok.injEq, Prod.mk.injEq] at hrun
      obtain ⟨_, _, rfl⟩ := hrun
      have h2 : WInv { w0 with os := (sys_flock os1 obj.fd .LOCK_EX false).2 } srcs own none := by
        have := h1.extend (sys_flock os1 obj.fd .LOCK_EX false).2
          (Extends.of_same_tables (sys_flock_fdtab _ _ _ _)
            (fun id => by rw [hreq]; rfl) (sys_flock_nfiles _ _ _ _))
        exact this
      have h3 := h2.of_closeChannel obj.fd true false
        (fun a ha => (hfs a ha).1) (fun i s hi h0' => (hfr i s hi).1 h0') (by simp)
      have hcc : closeChannel obj.fd true false (sys_flock os1 obj.fd .LOCK_EX false).2
          = sys_close (sys_flock os1 obj.fd .LOCK_EX false).2 obj.fd := by
        simp [closeChannel, hfd]
      rw [hcc] at h3
      exact h3.of_deadCell obj

end WInvAcquire

/-! ## The operations on a handle keep the process state well formed -/

section WInvHandle

variable {ι : Type} {w : World} {srcs : ι → Option FileSource} {ex : Option Nat}

theorem WInv.toSpare (h : WInv w srcs (fun _ => False) ex) (i : ι) :
    WInv w (withSpare srcs) (fun o => o = none) ex := by
  refine h.reindex (fun o => o.getD i) _ _ ?_ ?_ ?_
  · intro a b s t ha hb e
    cases a <;> cases b <;> simp_all [withSpare]
  · intro a s ha
    cases a <;> simp_all [withSpare]
  · intro a s ha ho
    subst ho
    simp [withSpare] at ha

/-- Back from the places with a spare one: the read channel of handle `i` is now
`new`, which sits either in the spare place or nowhere. -/
theorem WInv.ofSpare [DecidableEq ι] {S : Option ι → Option FileSource} {O : Option ι → Prop}
    (h : WInv w S O ex) (i : ι) (new : Option FileSource)
    (hi : S (some i) = none) (hnew : S none = new ∨ new = none)
    (hrest : ∀ j, j ≠ i → S (some j) = srcs j) :
    WInv w (Function.update srcs i new) (fun _ => False) ex := by
  refine h.reindex (fun j => if j = i then none else some j) _ _ ?_ ?_ ?_
  · intro a b s t _ _ e
    by_cases ha : a = i <;> by_cases hb : b = i <;> simp_all
  · intro a s ha
    by_cases hai : a = i
    · subst hai
      simp only [Function.update_same] at ha
      simp only [if_true]
      rcases hnew with e | e
      · rw [e]; exact ha
      · rw [e] at ha; cases ha
    · rw [Function.update_noteq hai] at ha
      simp only [if_neg hai, hrest a hai]
      exact ha
  · intro a s _ ho
    exact absurd ho id

theorem WInv.of_release [DecidableEq ι] (h : WInv w srcs (fun _ => False) ex) (i : ι) (fl : FileLock)
    (hfl : srcs i = fl.m_source) :
    WInv (fl.Release w).2 (Function.update srcs i none) (fun _ => False) ex := by
  have h1 := h.of_up_reset i
  rw [hfl] at h1
  exact h1.of_sp_reset fl.m_sink

theorem WInv.of_readOnlyMid [DecidableEq ι] (h : WInv w srcs (fun _ => False) ex) (i : ι)
    (fl : FileLock) (hfl : srcs i = fl.m_source) (name : String) :
    WInv (readOnlyMid fl name w)
      (Function.update (Function.update (withSpare srcs) none
        (some (FileSource.ctor_fileName name w.os).1)) (some i) none)
      (fun o => o = none) ex := by
  have h1 := (h.toSpare i).of_open_source none name
  have h2 := h1.of_up_reset (some i)
  have e2 : Function.update (withSpare srcs) none
      (some (FileSource.ctor_fileName name w.os).1) (some i) = fl.m_source := by
    simp [withSpare, hfl]
  rw [e2] at h2
  exact h2.of_sp_reset fl.m_sink

theorem WInv.of_initReadOnly [DecidableEq ι] (h : WInv w srcs (fun _ => False) ex) (i : ι)
    (fl : FileLock) (hfl : srcs i = fl.m_source) (name : String) :
    WInv (fl.InitReadOnly name w).2.2
      (Function.update srcs i (fl.InitReadOnly name w).2.1.m_source) (fun _ => False) ex := by
  have h3 := h.of_readOnlyMid i fl hfl name
  rw [FileLock.InitReadOnly_eq]
  split
  · rename_i hv
    have hneg : (FileSource.ctor_fileName name w.os).1.fd < 0 := by
      simpa [FileSource.IsValid] using hv
    simp only [sourceDtor_invalid _ _ hneg]
    refine h3.ofSpare i none (by simp) (Or.inr rfl) ?_
    intro j hj
    have : (some j : Option ι) ≠ some i := by simpa using hj
    simp [withSpare, Function.update_noteq this]
  · have h4 := h3.of_lock_source none (FileSource.ctor_fileName name w.os).1 (by simp)
      (Or.inr rfl) true
    have hrest : ∀ j, j ≠ i →
        Function.update (Function.update (Function.update (withSpare srcs) none
          (some (FileSource.ctor_fileName name w.os).1)) (some i) none) none
          (some ((FileSource.ctor_fileName name w.os).1.Lock true
            (readOnlyMid fl name w).os).2.1)
          (some j) = srcs j := by
      intro j hj
      have : (some j : Option ι) ≠ some i := by simpa using hj
      simp [withSpare, Function.update_noteq this]
    split
    · exact h4.ofSpare i _ (by simp) (Or.inl (by simp)) hrest
    · exact h4.ofSpare i _ (by simp) (Or.inl (by simp)) hrest

end WInvHandle

section WInvHandle2

variable {ι : Type} {w : World} {srcs : ι → Option FileSource} {ex : Option Nat}

theorem WInv.of_initReadWrite [DecidableEq ι] (h : WInv w srcs (fun _ => False) ex) (i : ι)
    (fl : FileLock) (hfl : srcs i = fl.m_source) (ndebug : Bool) (a : Nat)
    (st : QStatus) (fl1 : FileLock) (w1 : World)
    (hrun : fl.InitReadWrite ndebug a w = .ok (st, fl1, w1)) :
    WInv w1 (Function.update srcs i fl1.m_source) (fun _ => False) ex := by
  rw [FileLock.InitReadWrite_eq] at hrun
  split at hrun
  · cases hrun
  · split at hrun
    · cases hrun
    · rename_i hlive
      have hla : w.live a := by simp only [World.live]; omega
      split at hrun
      · simp only [Except.ok.injEq, Prod.mk.injEq] at hrun
        obtain ⟨_, rfl, rfl⟩ := hrun
        have h1 := h.of_up_reset i
        rw [hfl] at h1
        exact h1.of_sp_reset fl.m_sink
      · split at hrun
        · simp only [Except.ok.injEq, Prod.mk.injEq] at hrun
          obtain ⟨_, rfl, rfl⟩ := hrun
          rw [← hfl, Function.update_eq_self]
          exact h.extend _ (Extends.of_lseek _ _ _)
        · simp only [Except.ok.injEq, Prod.mk.injEq] at hrun
          obtain ⟨_, rfl, rfl⟩ := hrun
          have h0 : WInv w (withSpare srcs) (fun _ => False) ex :=
            (h.toSpare i).reindex id _ _ (fun _ _ _ _ _ _ e => e) (fun _ _ e => e)
              (fun _ _ _ e => absurd e id)
          have h1 := h0.extend _ (Extends.of_lseek w.os (w.heap a).obj.fd 0)
          have h2 := h1.of_dup_source none id (w.heap a).obj.fd
          have h3 := h2.of_up_reset (some i)
          have e3 : Function.update (withSpare srcs) none
              (some (FileSource.ctor_fdesc (w.heap a).obj.fd
                (sys_lseek w.os (w.heap a).obj.fd 0).2).1) (some i) = fl.m_source := by
            simp [withSpare, hfl]
          simp only at h3
          rw [e3] at h3
          have h4 := h3.of_sp_copy (some a) (fun b hb => by
            cases hb
            exact hla)
          have h5 := h4.of_sp_reset fl.m_sink
          refine h5.ofSpare i _ (by simp) (Or.inl (by simp)) ?_
          intro j hj
          have : (some j : Option ι) ≠ some i := by simpa using hj
          simp [withSpare, Function.update_noteq this]

end WInvHandle2

/-! ## Use counts -/

theorem sp_reset_useCount (p : Option Nat) (w : World) (x : Nat) :
    ((sp_reset p w).heap x).useCount = (w.heap x).useCount - (if p = some x then 1 else 0) := by
  cases p with
  | none => simp
  | some a =>
    rw [sp_reset_eq]
    simp only [setCount_useCount]
    by_cases hx : x = a
    · subst hx; simp
    · have : a ≠ x := fun e => hx e.symm
      simp [hx, this]

theorem sp_copy_useCount (p : Option Nat) (w : World) (x : Nat) :
    ((sp_copy p w).heap x).useCount = (w.heap x).useCount + (if p = some x then 1 else 0) := by
  cases p with
  | none => simp
  | some a =>
    rw [sp_copy_eq]
    simp only [setCount_useCount]
    by_cases hx : x = a
    · subst hx; simp
    · have : a ≠ x := fun e => hx e.symm
      simp [hx, this]

theorem sp_reset_heap_os (p : Option Nat) (w : World) (os1 : OS) :
    (sp_reset p { w with os := os1 }).heap = (sp_reset p w).heap := by
  cases p with
  | none => rfl
  | some a => rw [sp_reset_heap, sp_reset_heap]

theorem sp_copy_heap_os (p : Option Nat) (w : World) (os1 : OS) :
    (sp_copy p { w with os := os1 }).heap = (sp_copy p w).heap := by
  cases p <;> rfl

theorem release_useCount (fl : FileLock) (w : World) (x : Nat) :
    ((fl.Release w).2.heap x).useCount
      = (w.heap x).useCount - (if fl.m_sink = some x then 1 else 0) := by
  simp only [FileLock.Release]
  rw [sp_reset_heap_os, sp_reset_useCount]

theorem initReadOnly_heap (fl : FileLock) (name : String) (w : World) :
    (fl.InitReadOnly name w).2.2.heap = (sp_reset fl.m_sink w).heap ∧
    (fl.InitReadOnly name w).2.1.m_sink = none := by
  have hm : (readOnlyMid fl name w).heap = (sp_reset fl.m_sink w).heap := sp_reset_heap_os _ _ _
  rw [FileLock.InitReadOnly_eq]
  split
  · exact ⟨hm, rfl⟩
  · split
    · exact ⟨hm, rfl⟩
    · exact ⟨hm, rfl⟩

/-- The use counts after InitReadWrite: the handle gave up the pointer it held and
holds the one it has now. -/
theorem initReadWrite_useCount (ndebug : Bool) (fl : FileLock) (a : Nat) (w : World)
    (st : QStatus) (fl1 : FileLock) (w1 : World)
    (hrun : fl.InitReadWrite ndebug a w = .ok (st, fl1, w1)) (x : Nat)
    (hx : fl.m_sink = some x → 0 < (w.heap x).useCount) :
    (w1.heap x).useCount + (if fl.m_sink = some x then 1 else 0)
      = (w.heap x).useCount + (if fl1.m_sink = some x then 1 else 0) := by
  rw [FileLock.InitReadWrite_eq] at hrun
  split at hrun
  · cases hrun
  · split at hrun
    · cases hrun
    · split at hrun
      · simp only [Except.ok.injEq, Prod.mk.injEq] at hrun
        obtain ⟨_, rfl, rfl⟩ := hrun
        rw [sp_reset_heap_os, sp_reset_useCount]
        by_cases h1 : fl.m_sink = some x
        · have := hx h1
          simp [h1]
          omega
        · simp [h1]
      · split at hrun
        · simp only [Except.ok.injEq, Prod.mk.injEq] at hrun
          obtain ⟨_, rfl, rfl⟩ := hrun
          rfl
        · simp only [Except.ok.injEq, Prod.mk.injEq] at hrun
          obtain ⟨_, rfl, rfl⟩ := hrun
          simp only [sp_assign]
          rw [sp_reset_useCount, sp_copy_heap_os, sp_copy_useCount]
          by_cases h1 : fl.m_sink = some x
          · have := hx h1
            simp only [h1, if_true]
            omega
          · simp only [h1, if_false]
            omega

/-- The use counts after AcquireWriteLock: the FileLocker gave up the pointer it
held, and the cell allocated by the call has count 1 if it is published now and 0
otherwise. -/
theorem acquire_useCount (ndebug : Bool) (self : FileLocker) (w : World)
    (st : QStatus) (l : FileLocker) (w1 : World)
    (hrun : self.AcquireWriteLock ndebug w = .ok (st, l, w1)) :
    (l.m_sink = none ∨ l.m_sink = some w.brk) ∧ l.m_fileName = self.m_fileName ∧
    w1.brk = w.brk + 1 ∧
    ∀ x, (w1.heap x).useCount =
      if x = w.brk then (if l.m_sink = some w.brk then 1 else 0)
      else (w.heap x).useCount - (if self.m_sink = some x then 1 else 0) := by
  have hidle : ndebug = true ∨ self.m_sink = none := by
    by_contra hn
    have h1 : ndebug = false := by
      cases ndebug
      · rfl
      · exact absurd (Or.inl rfl) hn
    have h2 : self.m_sink ≠ none := fun e => hn (Or.inr e)
    rw [h1, acquire_assert self w h2] at hrun
    cases hrun
  rw [acquire_eq_idle ndebug self w hidle] at hrun
  obtain ⟨obj, os1, hctor, hpost⟩ :=
    sinkCtor_returns self.m_fileName false Mode.PRIVATE (sp_reset self.m_sink w).os
  rw [acquire_idle ndebug { self with m_sink := none } (sp_reset self.m_sink w) rfl obj os1
    hctor hpost] at hrun
  have key : ∀ (c : Nat) (o : FileSink) (x : Nat),
      ((Function.update (sp_reset self.m_sink w).heap w.brk ⟨o, c⟩) x).useCount =
        if x = w.brk then c
        else (w.heap x).useCount - (if self.m_sink = some x then 1 else 0) := by
    intro c o x
    by_cases hx : x = w.brk
    · subst hx; simp
    · simp [Function.update_noteq hx, hx, sp_reset_useCount]
  split at hrun
  · simp only [Except.ok.injEq, Prod.mk.injEq] at hrun
    obtain ⟨_, rfl, rfl⟩ := hrun
    refine ⟨Or.inl rfl, rfl, by simp, fun x => ?_⟩
    rw [sp_reset_brk, key]
    simp
  · split at hrun
    · simp only [Except.ok.injEq, Prod.mk.injEq] at hrun
      obtain ⟨_, rfl, rfl⟩ := hrun
      refine ⟨Or.inr (by simp), rfl, by simp, fun x => ?_⟩
      rw [sp_reset_brk, key]
      simp
    · simp only [Except.ok.injEq, Prod.mk.injEq] at hrun
      obtain ⟨_, rfl, rfl⟩ := hrun
      refine ⟨Or.inl rfl, rfl, by simp, fun x => ?_⟩
      rw [sp_reset_brk, key]
      simp

/-- Handles pointing to a write channel, after one handle was replaced. -/
theorem card_update {n : Nat} (locks : Fin n → FileLock) (h : Fin n) (fl : FileLock) (a : Nat) :
    (Finset.univ.filter (fun k => (Function.update locks h fl k).m_sink = some a)).card
        + (if (locks h).m_sink = some a then 1 else 0)
      = (Finset.univ.filter (fun k => (locks k).m_sink = some a)).card
        + (if fl.m_sink = some a then 1 else 0) := by
  rw [Finset.card_filter, Finset.card_filter]
  rw [← Finset.add_sum_erase Finset.univ _ (Finset.mem_univ h)]
  rw [← Finset.add_sum_erase Finset.univ
    (fun k => if (locks k).m_sink = some a then 1 else 0) (Finset.mem_univ h)]
  have hrest : ∑ x ∈ Finset.univ.erase h,
        (if (Function.update locks h fl x).m_sink = some a then 1 else 0)
      = ∑ x ∈ Finset.univ.erase h, (if (locks x).m_sink = some a then 1 else 0) := by
    refine Finset.sum_congr rfl ?_
    intro x hx
    have hxh : x ≠ h := (Finset.mem_erase.1 hx).1
    rw [Function.update_noteq hxh]
  rw [hrest]
  simp only [Function.update_same]
  omega

/-! ## Every call keeps the FileLocker and its handles well formed -/

theorem getRead_some (ndebug : Bool) (self : FileLocker) (fl : FileLock) (w : World) (a : Nat)
    (h : self.m_sink = some a) : self.GetFileLockForRead ndebug fl w = rideOn ndebug a fl w := by
  simp only [FileLocker.GetFileLockForRead, h, rideOn]

theorem getRead_none (ndebug : Bool) (self : FileLocker) (fl : FileLock) (w : World)
    (h : self.m_sink = none) :
    self.GetFileLockForRead ndebug fl w = .ok (fl.InitReadOnly self.m_fileName w) := by
  simp only [FileLocker.GetFileLockForRead, h, sp_copy_none]

theorem getWrite_some (ndebug : Bool) (self : FileLocker) (fl : FileLock) (w : World) (a : Nat)
    (h : self.m_sink = some a) : self.GetFileLockForWrite ndebug fl w = rideOn ndebug a fl w := by
  simp only [FileLocker.GetFileLockForWrite, h, rideOn]

theorem getWrite_none (ndebug : Bool) (self : FileLocker) (fl : FileLock) (w : World)
    (h : self.m_sink = none) :
    self.GetFileLockForWrite ndebug fl w = .ok (.ER_BUS_NOT_ALLOWED, fl, w) := by
  simp only [FileLocker.GetFileLockForWrite, h, sp_copy_none]

theorem WInv.of_rideOn {ι : Type} [DecidableEq ι] {w : World} {srcs : ι → Option FileSource}
    {ex : Option Nat} (h : WInv w srcs (fun _ => False) ex) (i : ι) (fl : FileLock)
    (hfl : srcs i = fl.m_source) (ndebug : Bool) (a : Nat) (hla : w.live a)
    (st : QStatus) (fl1 : FileLock) (w1 : World)
    (hrun : rideOn ndebug a fl w = .ok (st, fl1, w1)) :
    WInv w1 (Function.update srcs i fl1.m_source) (fun _ => False) ex := by
  unfold rideOn at hrun
  cases hres : fl.InitReadWrite ndebug a (sp_copy (some a) (sp_copy (some a) w)) with
  | error e => rw [hres] at hrun; cases hrun
  | ok r =>
    obtain ⟨st', fl', w'⟩ := r
    rw [hres] at hrun
    simp only [Except.ok.injEq, Prod.mk.injEq] at hrun
    obtain ⟨_, rfl, rfl⟩ := hrun
    have h1 := h.of_sp_copy (some a) (fun b hb => by cases hb; exact hla)
    have h2 := h1.of_sp_copy (some a) (fun b hb => by
      cases hb
      simp only [World.live, sp_copy_useCount] at hla ⊢
      omega)
    have h3 := h2.of_initReadWrite i fl hfl ndebug a _ _ _ hres
    exact (h3.of_sp_reset (some a)).of_sp_reset (some a)

theorem rideOn_useCount (ndebug : Bool) (a : Nat) (fl : FileLock) (w : World)
    (st : QStatus) (fl1 : FileLock) (w1 : World)
    (hrun : rideOn ndebug a fl w = .ok (st, fl1, w1)) (x : Nat)
    (hx : fl.m_sink = some x → 0 < (w.heap x).useCount) :
    (w1.heap x).useCount + (if fl.m_sink = some x then 1 else 0)
      = (w.heap x).useCount + (if fl1.m_sink = some x then 1 else 0) := by
  unfold rideOn at hrun
  cases hres : fl.InitReadWrite ndebug a (sp_copy (some a) (sp_copy (some a) w)) with
  | error e => rw [hres] at hrun; cases hrun
  | ok r =>
    obtain ⟨st', fl', w'⟩ := r
    rw [hres] at hrun
    simp only [Except.ok.injEq, Prod.mk.injEq] at hrun
    obtain ⟨_, rfl, rfl⟩ := hrun
    have h1 := initReadWrite_useCount ndebug fl a _ _ _ _ hres x (by
      intro e
      have := hx e
      simp only [sp_copy_useCount]
      omega)
    simp only [sp_copy_useCount] at h1
    simp only [sp_reset_useCount]
    have h0 : (if fl.m_sink = some x then 1 else 0) ≤ (w.heap x).useCount := by
      by_cases hfx : fl.m_sink = some x
      · have := hx hfx
        simp only [hfx, if_true]
        omega
      · simp only [hfx, if_false]
        omega
    by_cases hxa : x = a
    · subst hxa
      simp only [if_true] at h1 ⊢
      omega
    · have : ¬ (some a = some x) := by simpa using fun e : a = x => hxa e.symm
      simp only [this, if_false] at h1 ⊢
      omega

section SystemInv

variable {n : Nat} {s : System n}

/-- A handle that points to a write channel counts among the pointers to it. -/
theorem System.refCount_pos_of_handle (s : System n) (h : Fin n) (x : Nat)
    (hx : (s.locks h).m_sink = some x) : 0 < s.refCount x := by
  have := card_update s.locks h ⟨none, none⟩ x
  simp only [hx, if_true] at this
  unfold System.refCount
  simp at this
  omega

theorem System.refCount_pos_of_locker (s : System n) (x : Nat)
    (hx : s.locker.m_sink = some x) : 0 < s.refCount x := by
  unfold System.refCount
  simp [hx]

/-- A call on handle `h` that leaves the process state well formed for the new
read channel of the handle and moves one pointer keeps the system well formed. -/
theorem System.Inv.of_handle (hinv : s.Inv) (h : Fin n) (fl1 : FileLock) (w1 : World)
    (hw : WInv w1 (Function.update (fun k => (s.locks k).m_source) h fl1.m_source)
      (fun _ => False) none)
    (hc : ∀ x, (w1.heap x).useCount + (if (s.locks h).m_sink = some x then 1 else 0)
      = (s.w.heap x).useCount + (if fl1.m_sink = some x then 1 else 0)) :
    ({ s with locks := Function.update s.locks h fl1, w := w1 } : System n).Inv := by
  constructor
  · have e : (fun k => ((Function.update s.locks h fl1) k).m_source)
        = Function.update (fun k => (s.locks k).m_source) h fl1.m_source := by
      funext k
      by_cases hk : k = h
      · subst hk; simp
      · simp [Function.update_noteq hk]
    simp only [e]
    exact hw
  · intro x
    have h1 := hc x
    have h2 := hinv.count x
    have h3 := card_update s.locks h fl1 x
    simp only [System.refCount] at h2 ⊢
    omega

theorem System.Inv.of_step (hinv : s.Inv) (ndebug : Bool) (c : Call n) (r : Option QStatus)
    (s1 : System n) (hstep : s.step ndebug c = .ok (r, s1)) : s1.Inv := by
  cases c with
  | AcquireWriteLock =>
    simp only [System.step] at hstep
    cases hres : s.locker.AcquireWriteLock ndebug s.w with
    | error e => rw [hres] at hstep; cases hstep
    | ok res =>
      obtain ⟨st, l, w1⟩ := res
      rw [hres] at hstep
      simp only [Except.ok.injEq, Prod.mk.injEq] at hstep
      obtain ⟨_, rfl⟩ := hstep
      obtain ⟨hl, _, _, hcount⟩ := acquire_useCount ndebug _ _ _ _ _ hres
      refine ⟨hinv.world.of_acquire ndebug _ _ _ _ hres, fun x => ?_⟩
      have h0 := hinv.count s.w.brk
      rw [hinv.world.brk _ (Nat.le_refl _)] at h0
      have h2 := hinv.count x
      simp only [System.refCount] at h0 h2 ⊢
      rw [hcount x]
      by_cases hx : x = s.w.brk
      · subst hx
        simp only [if_true]
        rcases hl with e | e
        · simp only [e]
          simp
          omega
        · simp only [e, if_true]
          omega
      · simp only [if_neg hx]
        have hlx : l.m_sink ≠ some x := by
          rcases hl with e | e
          · simp [e]
          · rw [e]
            intro e2
            cases e2
            exact hx rfl
        simp only [hlx, if_false]
        omega
  | ReleaseWriteLock =>
    simp only [System.step, FileLocker.ReleaseWriteLock, Except.ok.injEq, Prod.mk.injEq] at hstep
    obtain ⟨_, rfl⟩ := hstep
    refine ⟨hinv.world.of_sp_reset _, fun x => ?_⟩
    have h2 := hinv.count x
    simp only [System.refCount] at h2 ⊢
    rw [sp_reset_useCount]
    by_cases hx : s.locker.m_sink = some x
    · simp only [hx, if_true] at h2 ⊢
      simp
      omega
    · simp only [hx, if_false] at h2 ⊢
      simp
      omega
  | GetFileLockForRead h =>
    simp only [System.step] at hstep
    cases hres : s.locker.GetFileLockForRead ndebug (s.locks h) s.w with
    | error e => rw [hres] at hstep; cases hstep
    | ok res =>
      obtain ⟨st, fl1, w1⟩ := res
      rw [hres] at hstep
      simp only [Except.ok.injEq, Prod.mk.injEq] at hstep
      obtain ⟨_, rfl⟩ := hstep
      cases hm : s.locker.m_sink with
      | none =>
        rw [getRead_none ndebug _ _ _ hm] at hres
        simp only [Except.ok.injEq] at hres
        have hw := hinv.world.of_initReadOnly h (s.locks h) rfl s.locker.m_fileName
        obtain ⟨hh, hs⟩ := initReadOnly_heap (s.locks h) s.locker.m_fileName s.w
        rw [hres] at hw hh hs
        refine hinv.of_handle h fl1 w1 hw (fun x => ?_)
        simp only at hh hs
        rw [hh, hs, sp_reset_useCount]
        by_cases hx : (s.locks h).m_sink = some x
        · have hp := s.refCount_pos_of_handle h x hx
          rw [← hinv.count x] at hp
          simp only [hx, if_true]
          simp
          omega
        · simp only [hx, if_false]
          simp
      | some a =>
        rw [getRead_some ndebug _ _ _ a hm] at hres
        have hla : s.w.live a := by
          have hp := s.refCount_pos_of_locker a hm
          rw [← hinv.count a] at hp
          exact hp
        refine hinv.of_handle h fl1 w1
          (hinv.world.of_rideOn h (s.locks h) rfl ndebug a hla _ _ _ hres) (fun x => ?_)
        exact rideOn_useCount ndebug a _ _ _ _ _ hres x (fun hx => by
          have hp := s.refCount_pos_of_handle h x hx
          rw [← hinv.count x] at hp
          exact hp)
  | GetFileLockForWrite h =>
    simp only [System.step] at hstep
    cases hres : s.locker.GetFileLockForWrite ndebug (s.locks h) s.w with
    | error e => rw [hres] at hstep; cases hstep
    | ok res =>
      obtain ⟨st, fl1, w1⟩ := res
      rw [hres] at hstep
      simp only [Except.ok.injEq, Prod.mk.injEq] at hstep
      obtain ⟨_, rfl⟩ := hstep
      cases hm : s.locker.m_sink with
      | none =>
        rw [getWrite_none ndebug _ _ _ hm] at hres
        simp only [Except.ok.injEq, Prod.mk.injEq] at hres
        obtain ⟨_, rfl, rfl⟩ := hres
        simp only [Function.update_eq_self]
        exact hinv
      | some a =>
        rw [getWrite_some ndebug _ _ _ a hm] at hres
        have hla : s.w.live a := by
          have hp := s.refCount_pos_of_locker a hm
          rw [← hinv.count a] at hp
          exact hp
        refine hinv.of_handle h fl1 w1
          (hinv.world.of_rideOn h (s.locks h) rfl ndebug a hla _ _ _ hres) (fun x => ?_)
        exact rideOn_useCount ndebug a _ _ _ _ _ hres x (fun hx => by
          have hp := s.refCount_pos_of_handle h x hx
          rw [← hinv.count x] at hp
          exact hp)
  | Release h =>
    simp only [System.step, Except.ok.injEq, Prod.mk.injEq] at hstep
    obtain ⟨_, rfl⟩ := hstep
    refine hinv.of_handle h _ _ (hinv.world.of_release h (s.locks h) rfl) (fun x => ?_)
    rw [release_useCount]
    by_cases hx : (s.locks h).m_sink = some x
    · have hp := s.refCount_pos_of_handle h x hx
      rw [← hinv.count x] at hp
      simp only [hx, if_true, FileLock.Release]
      simp
      omega
    · simp only [hx, if_false, FileLock.Release]
      simp

end SystemInv

/-- The status of a grant on the published write channel `a`, live and open: the
assertion fires in a debug build when the handle already holds `a`; otherwise the
result is ER_OK when the rewind succeeds and ER_OS_ERROR when it fails. -/
theorem rideOn_status (ndebug : Bool) (a : Nat) (fl : FileLock) (w : World) (id : Nat)
    (hlive : 0 < (w.heap a).useCount) (hofd : w.os.ofd (w.heap a).obj.fd = some id) :
    (ndebug = false ∧ fl.m_sink = some a → rideOn ndebug a fl w = .error .assertFailed) ∧
    (¬ (ndebug = false ∧ fl.m_sink = some a) →
      ∃ fl1 w1, rideOn ndebug a fl w
        = .ok (if nextOk w.os.env.lseekOk then .ER_OK else .ER_OS_ERROR, fl1, w1)) := by
  constructor
  · rintro ⟨h1, h2⟩
    unfold rideOn
    rw [FileLock.InitReadWrite_eq, if_pos ⟨by simp [h1], h2⟩]
  · intro hn
    have hfd := ofd_nonneg _ _ _ hofd
    have hc : ¬ ((!ndebug) = true ∧ fl.m_sink = some a) := by
      rintro ⟨h1, h2⟩
      exact hn ⟨by simpa using h1, h2⟩
    unfold rideOn
    rw [FileLock.InitReadWrite_eq, if_neg hc]
    simp only [sp_copy_copy_heap, sp_copy_os]
    rw [if_neg (by omega)]
    have hv : ¬ (!(w.heap a).obj.IsValid) = true := by simp [FileSink.IsValid, hfd]
    rw [if_neg hv, sys_lseek_open w.os _ id 0 hofd]
    by_cases hl : nextOk w.os.env.lseekOk = true
    · simp [hl]
    · simp [hl]

/-! ## The outcomes of lock requests are used up in order -/

theorem EnvLater.env_same (os : OS) : EnvLater os os := List.suffix_refl _

theorem EnvLater.env_eq {os os1 : OS} (h : os1.env.flockOk = os.env.flockOk) : EnvLater os os1 := by
  unfold EnvLater
  rw [h]

theorem EnvLater.env_tail {os os1 : OS} (h : os1.env.flockOk = os.env.flockOk.tail) :
    EnvLater os os1 := by
  unfold EnvLater
  rw [h]
  exact List.tail_suffix _

theorem EnvLater.env_step {a b c : OS} (h1 : EnvLater a b) (h2 : EnvLater b c) : EnvLater a c :=
  List.IsSuffix.trans h2 h1

theorem Granted.later {os os1 : OS} (h : Granted os) (hl : EnvLater os os1) : Granted os1 :=
  fun b hb => h b (hl.subset hb)

theorem Granted.nextOk_true {os : OS} (h : Granted os) : nextOk os.env.flockOk = true := by
  unfold nextOk
  cases hf : os.env.flockOk with
  | nil => rfl
  | cons b t => exact h b (by rw [hf]; exact List.mem_cons_self _ _)

theorem EnvLater.env_flock (os : OS) (fd : Int) (op : FlockOp) (nb : Bool) :
    EnvLater os (sys_flock os fd op nb).2 := by
  unfold sys_flock
  cases os.ofd fd with
  | none => exact EnvLater.env_same os
  | some id =>
    cases op with
    | LOCK_UN => exact EnvLater.env_same os
    | LOCK_SH =>
      simp only
      split
      · exact EnvLater.env_tail rfl
      · exact EnvLater.env_tail rfl
    | LOCK_EX =>
      simp only
      split
      · exact EnvLater.env_tail rfl
      · exact EnvLater.env_tail rfl

theorem sys_lseek_flockOk (os : OS) (fd : Int) (off : Nat) :
    (sys_lseek os fd off).2.env.flockOk = os.env.flockOk := by
  unfold sys_lseek
  cases os.ofd fd <;> simp
  split <;> rfl

theorem sys_dup_flockOk (os : OS) (fd : Int) :
    (sys_dup os fd).2.env.flockOk = os.env.flockOk := by
  unfold sys_dup
  cases os.ofd fd <;> simp
  split <;> rfl

theorem sys_open_flockOk (os : OS) (p : String) (fl : OpenFlags) (m : Nat) :
    (sys_open os p fl m).2.env.flockOk = os.env.flockOk := by
  unfold sys_open
  split <;> rfl

theorem EnvLater.env_up_reset (old : Option FileSource) (os : OS) :
    EnvLater os (up_reset old os) := by
  cases old with
  | none => exact EnvLater.env_same os
  | some s =>
    simp only [up_reset, sourceDtor_eq]
    exact EnvLater.env_eq (by rw [closeChannel_env])

theorem EnvLater.env_sp_reset (p : Option Nat) (w : World) : EnvLater w.os (sp_reset p w).os := by
  cases p with
  | none => exact EnvLater.env_same _
  | some a =>
    rw [sp_reset_os]
    split
    · rw [sinkDtor_eq]
      exact EnvLater.env_eq (by rw [closeChannel_env])
    · exact EnvLater.env_same _

theorem EnvLater.env_sourceLock (s : FileSource) (block : Bool) (os : OS) :
    EnvLater os (s.Lock block os).2.2 := by
  rcases sourceLock_os s block os with e | e
  · rw [e]; exact EnvLater.env_same os
  · rw [e]; exact EnvLater.env_flock _ _ _ _

theorem EnvLater.env_release (fl : FileLock) (w : World) : EnvLater w.os (fl.Release w).2.os := by
  simp only [FileLock.Release]
  exact (EnvLater.env_up_reset fl.m_source w.os).env_step (EnvLater.env_sp_reset fl.m_sink _)

theorem up_reset_env (old : Option FileSource) (os : OS) : (up_reset old os).env = os.env := by
  cases old with
  | none => rfl
  | some s => simp only [up_reset, sourceDtor_eq, closeChannel_env]

theorem sp_reset_env (p : Option Nat) (w : World) : (sp_reset p w).os.env = w.os.env := by
  cases p with
  | none => rfl
  | some a =>
    rw [sp_reset_os]
    split
    · rw [sinkDtor_eq, closeChannel_env]
    · rfl

theorem readOnlyMid_flockOk (fl : FileLock) (name : String) (w : World) :
    (readOnlyMid fl name w).os.env.flockOk = w.os.env.flockOk := by
  unfold readOnlyMid
  rw [sp_reset_env]
  simp only [up_reset_env, FileSource.ctor_fileName, sys_open_flockOk]

theorem EnvLater.env_initReadOnly (fl : FileLock) (name : String) (w : World) :
    EnvLater w.os (fl.InitReadOnly name w).2.2.os := by
  have h3 : EnvLater w.os (readOnlyMid fl name w).os :=
    EnvLater.env_eq (readOnlyMid_flockOk fl name w)
  rw [FileLock.InitReadOnly_eq]
  split
  · simp only [sourceDtor_eq]
    exact h3.env_step (EnvLater.env_eq (by rw [closeChannel_env]))
  · split
    · exact h3.env_step (EnvLater.env_sourceLock _ _ _)
    · exact h3.env_step (EnvLater.env_sourceLock _ _ _)

theorem EnvLater.env_initReadWrite (ndebug : Bool) (fl : FileLock) (a : Nat) (w : World)
    (st : QStatus) (fl1 : FileLock) (w1 : World)
    (hrun : fl.InitReadWrite ndebug a w = .ok (st, fl1, w1)) : EnvLater w.os w1.os := by
  rw [FileLock.InitReadWrite_eq] at hrun
  split at hrun
  · cases hrun
  · split at hrun
    · cases hrun
    · split at hrun
      · simp only [Except.ok.injEq, Prod.mk.injEq] at hrun
        obtain ⟨_, _, rfl⟩ := hrun
        exact (EnvLater.env_up_reset fl.m_source w.os).env_step
          (EnvLater.env_sp_reset fl.m_sink { w with os := up_reset fl.m_source w.os })
      · have h1 : EnvLater w.os (sys_lseek w.os (w.heap a).obj.fd 0).2 :=
          EnvLater.env_eq (sys_lseek_flockOk _ _ _)
        split at hrun
        · simp only [Except.ok.injEq, Prod.mk.injEq] at hrun
          obtain ⟨_, _, rfl⟩ := hrun
          exact h1
        · simp only [Except.ok.injEq, Prod.mk.injEq] at hrun
          obtain ⟨_, _, rfl⟩ := hrun
          have h2 : EnvLater (sys_lseek w.os (w.heap a).obj.fd 0).2
              (FileSource.ctor_fdesc (w.heap a).obj.fd (sys_lseek w.os (w.heap a).obj.fd 0).2).2 :=
            EnvLater.env_eq (sys_dup_flockOk _ _)
          have h3 := (h1.env_step h2).env_step (EnvLater.env_up_reset fl.m_source _)
          simp only [sp_assign]
          refine h3.env_step ?_
          have := EnvLater.env_sp_reset fl.m_sink (sp_copy (some a)
            { w with
              os := (up_reset fl.m_source (FileSource.ctor_fdesc (w.heap a).obj.fd
                (sys_lseek w.os (w.heap a).obj.fd 0).2).2) })
          simpa only [sp_copy_os] using this

theorem EnvLater.env_rideOn (ndebug : Bool) (a : Nat) (fl : FileLock) (w : World)
    (st : QStatus) (fl1 : FileLock) (w1 : World)
    (hrun : rideOn ndebug a fl w = .ok (st, fl1, w1)) : EnvLater w.os w1.os := by
  unfold rideOn at hrun
  cases hres : fl.InitReadWrite ndebug a (sp_copy (some a) (sp_copy (some a) w)) with
  | error e => rw [hres] at hrun; cases hrun
  | ok r =>
    obtain ⟨st', fl', w'⟩ := r
    rw [hres] at hrun
    simp only [Except.ok.injEq, Prod.mk.injEq] at hrun
    obtain ⟨_, _, rfl⟩ := hrun
    have h1 := EnvLater.env_initReadWrite ndebug fl a _ _ _ _ hres
    simp only [sp_copy_os] at h1
    exact (h1.env_step (EnvLater.env_sp_reset _ _)).env_step (EnvLater.env_sp_reset _ _)

/-! ## Runs -/

theorem EnvLater.env_acquire (ndebug : Bool) (self : FileLocker) (w : World)
    (st : QStatus) (l : FileLocker) (w1 : World)
    (hrun : self.AcquireWriteLock ndebug w = .ok (st, l, w1)) : EnvLater w.os w1.os := by
  have hidle : ndebug = true ∨ self.m_sink = none := by
    by_contra hn
    have h1 : ndebug = false := by
      cases ndebug
      · rfl
      · exact absurd (Or.inl rfl) hn
    have h2 : self.m_sink ≠ none := fun e => hn (Or.inr e)
    rw [h1, acquire_assert self w h2] at hrun
    cases hrun
  rw [acquire_eq_idle ndebug self w hidle] at hrun
  have h0 := EnvLater.env_sp_reset self.m_sink w
  obtain ⟨obj, os1, hctor, hpost⟩ :=
    sinkCtor_returns self.m_fileName false Mode.PRIVATE (sp_reset self.m_sink w).os
  rw [acquire_idle ndebug { self with m_sink := none } (sp_reset self.m_sink w) rfl obj os1
    hctor hpost] at hrun
  have h1 : EnvLater w.os os1 := h0.env_step (EnvLater.env_eq hpost.flockOk)
  split at hrun
  · simp only [Except.ok.injEq, Prod.mk.injEq] at hrun
    obtain ⟨_, _, rfl⟩ := hrun
    exact h1
  · split at hrun
    · simp only [Except.ok.injEq, Prod.mk.injEq] at hrun
      obtain ⟨_, _, rfl⟩ := hrun
      exact h1.env_step (EnvLater.env_flock _ _ _ _)
    · simp only [Except.ok.injEq, Prod.mk.injEq] at hrun
      obtain ⟨_, _, rfl⟩ := hrun
      exact (h1.env_step (EnvLater.env_flock _ _ _ _)).env_step
        (EnvLater.env_eq (by rw [sys_close_env]))

/-- When lock requests are granted, AcquireWriteLock publishes a write channel
exactly when it returns ER_OK. -/
theorem acquire_published (ndebug : Bool) (self : FileLocker) (w : World)
    (st : QStatus) (l : FileLocker) (w1 : World) (hg : Granted w.os)
    (hrun : self.AcquireWriteLock ndebug w = .ok (st, l, w1)) :
    l.HasWriteLock = decide (st = .ER_OK) := by
  have hidle : ndebug = true ∨ self.m_sink = none := by
    by_contra hn
    have h1 : ndebug = false := by
      cases ndebug
      · rfl
      · exact absurd (Or.inl rfl) hn
    have h2 : self.m_sink ≠ none := fun e => hn (Or.inr e)
    rw [h1, acquire_assert self w h2] at hrun
    cases hrun
  rw [acquire_eq_idle ndebug self w hidle] at hrun
  have h0 := hg.later (EnvLater.env_sp_reset self.m_sink w)
  obtain ⟨obj, os1, hctor, hpost⟩ :=
    sinkCtor_returns self.m_fileName false Mode.PRIVATE (sp_reset self.m_sink w).os
  rw [acquire_idle ndebug { self with m_sink := none } (sp_reset self.m_sink w) rfl obj os1
    hctor hpost] at hrun
  have h1 : nextOk os1.env.flockOk = true := (h0.later (EnvLater.env_eq hpost.flockOk)).nextOk_true
  split at hrun
  · simp only [Except.ok.injEq, Prod.mk.injEq] at hrun
    obtain ⟨rfl, rfl, _⟩ := hrun
    rfl
  · simp only [h1, if_true, Except.ok.injEq, Prod.mk.injEq] at hrun
    obtain ⟨rfl, rfl, _⟩ := hrun
    rfl

section Runs

variable {n : Nat}

theorem EnvLater.env_of_step {s : System n} (ndebug : Bool) (c : Call n) (r : Option QStatus)
    (s1 : System n) (hstep : s.step ndebug c = .ok (r, s1)) : EnvLater s.w.os s1.w.os := by
  cases c with
  | AcquireWriteLock =>
    simp only [System.step] at hstep
    cases hres : s.locker.AcquireWriteLock ndebug s.w with
    | error e => rw [hres] at hstep; cases hstep
    | ok res =>
      obtain ⟨st, l, w1⟩ := res
      rw [hres] at hstep
      simp only [Except.ok.injEq, Prod.mk.injEq] at hstep
      obtain ⟨_, rfl⟩ := hstep
      exact EnvLater.env_acquire ndebug _ _ _ _ _ hres
  | ReleaseWriteLock =>
    simp only [System.step, FileLocker.ReleaseWriteLock, Except.ok.injEq, Prod.mk.injEq] at hstep
    obtain ⟨_, rfl⟩ := hstep
    exact EnvLater.env_sp_reset _ _
  | GetFileLockForRead h =>
    simp only [System.step] at hstep
    cases hres : s.locker.GetFileLockForRead ndebug (s.locks h) s.w with
    | error e => rw [hres] at hstep; cases hstep
    | ok res =>
      obtain ⟨st, fl1, w1⟩ := res
      rw [hres] at hstep
      simp only [Except.ok.injEq, Prod.mk.injEq] at hstep
      obtain ⟨_, rfl⟩ := hstep
      cases hm : s.locker.m_sink with
      | none =>
        rw [getRead_none ndebug _ _ _ hm] at hres
        simp only [Except.ok.injEq] at hres
        have := EnvLater.env_initReadOnly (s.locks h) s.locker.m_fileName s.w
        rw [hres] at this
        exact this
      | some a =>
        rw [getRead_some ndebug _ _ _ a hm] at hres
        exact EnvLater.env_rideOn ndebug a _ _ _ _ _ hres
  | GetFileLockForWrite h =>
    simp only [System.step] at hstep
    cases hres : s.locker.GetFileLockForWrite ndebug (s.locks h) s.w with
    | error e => rw [hres] at hstep; cases hstep
    | ok res =>
      obtain ⟨st, fl1, w1⟩ := res
      rw [hres] at hstep
      simp only [Except.ok.injEq, Prod.mk.injEq] at hstep
      obtain ⟨_, rfl⟩ := hstep
      cases hm : s.locker.m_sink with
      | none =>
        rw [getWrite_none ndebug _ _ _ hm] at hres
        simp only [Except.ok.injEq, Prod.mk.injEq] at hres
        obtain ⟨_, _, rfl⟩ := hres
        exact EnvLater.env_same _
      | some a =>
        rw [getWrite_some ndebug _ _ _ a hm] at hres
        exact EnvLater.env_rideOn ndebug a _ _ _ _ _ hres
  | Release h =>
    simp only [System.step, Except.ok.injEq, Prod.mk.injEq] at hstep
    obtain ⟨_, rfl⟩ := hstep
    exact EnvLater.env_release _ _

/-- The effect of one call on whether the FileLocker publishes a write channel. -/
theorem step_hasWriteLock {s : System n} (ndebug : Bool) (c : Call n) (r : Option QStatus)
    (s1 : System n) (hg : Granted s.w.os) (hstep : s.step ndebug c = .ok (r, s1)) :
    s1.locker.HasWriteLock =
      match c with
      | .AcquireWriteLock => decide (r = some .ER_OK)
      | .ReleaseWriteLock => false
      | _ => s.locker.HasWriteLock := by
  cases c with
  | AcquireWriteLock =>
    simp only [System.step] at hstep
    cases hres : s.locker.AcquireWriteLock ndebug s.w with
    | error e => rw [hres] at hstep; cases hstep
    | ok res =>
      obtain ⟨st, l, w1⟩ := res
      rw [hres] at hstep
      simp only [Except.ok.injEq, Prod.mk.injEq] at hstep
      obtain ⟨rfl, rfl⟩ := hstep
      simp only [acquire_published ndebug _ _ _ _ _ hg hres]
      simp
  | ReleaseWriteLock =>
    simp only [System.step, FileLocker.ReleaseWriteLock, Except.ok.injEq, Prod.mk.injEq] at hstep
    obtain ⟨_, rfl⟩ := hstep
    rfl
  | GetFileLockForRead h =>
    simp only [System.step] at hstep
    cases hres : s.locker.GetFileLockForRead ndebug (s.locks h) s.w with
    | error e => rw [hres] at hstep; cases hstep
    | ok res =>
      rw [hres] at hstep
      simp only [Except.ok.injEq, Prod.mk.injEq] at hstep
      obtain ⟨_, rfl⟩ := hstep
      rfl
  | GetFileLockForWrite h =>
    simp only [System.step] at hstep
    cases hres : s.locker.GetFileLockForWrite ndebug (s.locks h) s.w with
    | error e => rw [hres] at hstep; cases hstep
    | ok res =>
      rw [hres] at hstep
      simp only [Except.ok.injEq, Prod.mk.injEq] at hstep
      obtain ⟨_, rfl⟩ := hstep
      rfl
  | Release h =>
    simp only [System.step, Except.ok.injEq, Prod.mk.injEq] at hstep
    obtain ⟨_, rfl⟩ := hstep
    rfl

/-- A run from a well-formed state ends in a well-formed state. -/
theorem System.Inv.of_run {s0 : System n} (hinv : s0.Inv) (ndebug : Bool) (cs : List (Call n))
    (rs : List (Option QStatus)) (s : System n) (hrun : s0.run ndebug cs = .ok (rs, s)) :
    s.Inv := by
  induction cs generalizing s0 rs with
  | nil =>
    simp only [System.run, Except.ok.injEq, Prod.mk.injEq] at hrun
    obtain ⟨_, rfl⟩ := hrun
    exact hinv
  | cons c cs ih =>
    simp only [System.run] at hrun
    cases hstep : s0.step ndebug c with
    | error e => rw [hstep] at hrun; cases hrun
    | ok res =>
      obtain ⟨r, s1⟩ := res
      rw [hstep] at hrun
      simp only at hrun
      cases hrest : System.run ndebug s1 cs with
      | error e => rw [hrest] at hrun; cases hrun
      | ok res2 =>
        obtain ⟨rs2, s2⟩ := res2
        rw [hrest] at hrun
        simp only [Except.ok.injEq, Prod.mk.injEq] at hrun
        obtain ⟨_, rfl⟩ := hrun
        exact ih (hinv.of_step ndebug c r s1 hstep) rs2 hrest

/-- In a run where lock requests are granted, the FileLocker publishes a write
channel at the end exactly when its latest AcquireWriteLock or ReleaseWriteLock
call is an AcquireWriteLock that returned ER_OK. -/
theorem run_hasWriteLock {s0 : System n} (hg : Granted s0.w.os) (ndebug : Bool)
    (cs : List (Call n)) (rs : List (Option QStatus)) (s : System n)
    (hrun : s0.run ndebug cs = .ok (rs, s)) :
    s.locker.HasWriteLock = activeAfter s0.locker.HasWriteLock cs rs := by
  induction cs generalizing s0 rs with
  | nil =>
    simp only [System.run, Except.ok.injEq, Prod.mk.injEq] at hrun
    obtain ⟨rfl, rfl⟩ := hrun
    rfl
  | cons c cs ih =>
    simp only [System.run] at hrun
    cases hstep : s0.step ndebug c with
    | error e => rw [hstep] at hrun; cases hrun
    | ok res =>
      obtain ⟨r, s1⟩ := res
      rw [hstep] at hrun
      simp only at hrun
      cases hrest : System.run ndebug s1 cs with
      | error e => rw [hrest] at hrun; cases hrun
      | ok res2 =>
        obtain ⟨rs2, s2⟩ := res2
        rw [hrest] at hrun
        simp only [Except.ok.injEq, Prod.mk.injEq] at hrun
        obtain ⟨rfl, rfl⟩ := hrun
        have h1 := ih (hg.later (EnvLater.env_of_step ndebug c r s1 hstep)) rs2 hrest
        have h2 := step_hasWriteLock ndebug c r s1 hg hstep
        rw [h1, h2]
        cases c <;> rfl

/-- A new FileLocker in a process at start is well formed. -/
theorem System.Inv.fresh (fullFileName : String) (env : Env) :
    (System.fresh n fullFileName env).Inv := by
  constructor
  · constructor
    · intro a _; rfl
    · intro g id hg
      have h0 := ofd_nonneg _ _ _ hg
      obtain ⟨m, rfl⟩ : ∃ m : Nat, g = m := ⟨g.toNat, by omega⟩
      rw [ofd_natCast] at hg
      simp only [System.fresh, World.fresh] at hg ⊢
      match m, hg with
      | 0, hg => simp [slot] at hg; omega
      | 1, hg => simp [slot] at hg; omega
      | 2, hg => simp [slot] at hg; omega
      | k + 3, hg => simp [slot] at hg
    · intro a ha
      simp [World.live, System.fresh, World.fresh] at ha
    · intro a ha
      simp [World.live, System.fresh, World.fresh] at ha
    · intro a b ha
      simp [World.live, System.fresh, World.fresh] at ha
    · intro i s hi
      simp [System.fresh, FileLock.empty] at hi
    · intro i s a hi
      simp [System.fresh, FileLock.empty] at hi
    · intro i j s t _ hi
      simp [System.fresh, FileLock.empty] at hi
    · intro i s a hi
      simp [System.fresh, FileLock.empty] at hi
  · intro a
    simp [System.refCount, System.fresh, World.fresh, FileLocker.ctor, FileLock.empty]

end Runs

/-! ### InitReadOnly by the outcome of the open -/

theorem sys_open_ok (os : OS) (path : String) (flags : OpenFlags) (mode : Nat)
    (h : nextOk os.env.openOk = true) :
    (sys_open os path flags mode).1 = (firstFree os.fdtab : Int) ∧
      (sys_open os path flags mode).2.log
        = os.log ++ [.openFile path flags mode (firstFree os.fdtab : Int)] := by
  simp [sys_open, h]

theorem sys_open_fail (os : OS) (path : String) (flags : OpenFlags) (mode : Nat)
    (h : nextOk os.env.openOk = false) :
    (sys_open os path flags mode).1 = -1 ∧
      (sys_open os path flags mode).2.log = os.log ++ [.openFile path flags mode (-1)] := by
  simp [sys_open, h]

/-- Up to the point where InitReadOnly examines the channel no lock is requested. -/
theorem readOnlyMid_quiet (fl : FileLock) (name : String) (w : World) :
    NoLockReq w.os (readOnlyMid fl name w).os := by
  have q1 : NoLockReq w.os (FileSource.ctor_fileName name w.os).2 := by
    by_cases ho : nextOk w.os.env.openOk = true
    · exact NoLockReq.quiet_one _ (sys_open_ok _ _ _ _ ho).2 rfl
    · exact NoLockReq.quiet_one _ (sys_open_fail _ _ _ _ (by simpa using ho)).2 rfl
  exact (q1.next (NoLockReq.quiet_up_reset _ _)).next (NoLockReq.quiet_sp_reset _ _)

/-- InitReadOnly when the open fails. -/
theorem initReadOnly_unopened (fl : FileLock) (name : String) (w : World)
    (ho : nextOk w.os.env.openOk = false) :
    fl.InitReadOnly name w = (.ER_EOF, ⟨none, none⟩, readOnlyMid fl name w) := by
  have hsrc : (FileSource.ctor_fileName name w.os).1 = ⟨-1, true, false⟩ := by
    simp only [FileSource.ctor_fileName, (sys_open_fail w.os name .rdonly 0 ho).1]
  have hinvalid : (!(FileSource.ctor_fileName name w.os).1.IsValid) = true := by
    rw [hsrc]
    simp [FileSource.IsValid]
  rw [FileLock.InitReadOnly_eq, if_pos hinvalid, sourceDtor_invalid _ _ (by rw [hsrc]; simp)]

/-- InitReadOnly when the open succeeds and the new descriptor is still open at
the point of the lock request. -/
theorem initReadOnly_opened (fl : FileLock) (name : String) (w : World) (id : Nat)
    (ho : nextOk w.os.env.openOk = true)
    (hid : (readOnlyMid fl name w).os.ofd (firstFree w.os.fdtab : Int) = some id) :
    fl.InitReadOnly name w =
      (if nextOk w.os.env.flockOk then .ER_OK else .ER_READ_ERROR,
        ⟨some ⟨(firstFree w.os.fdtab : Int), true, nextOk w.os.env.flockOk⟩, none⟩,
        { readOnlyMid fl name w with
          os := (sys_flock (readOnlyMid fl name w).os (firstFree w.os.fdtab : Int)
            .LOCK_SH false).2 }) ∧
    (sys_flock (readOnlyMid fl name w).os (firstFree w.os.fdtab : Int) .LOCK_SH false).1
      = (if nextOk w.os.env.flockOk then 0 else -1) := by
  have hsrc : (FileSource.ctor_fileName name w.os).1
      = ⟨(firstFree w.os.fdtab : Int), true, false⟩ := by
    simp only [FileSource.ctor_fileName, (sys_open_ok w.os name .rdonly 0 ho).1]
  have hvalid : ¬ (!(FileSource.ctor_fileName name w.os).1.IsValid) = true := by
    rw [hsrc]
    simp [FileSource.IsValid]
  have hret : (sys_flock (readOnlyMid fl name w).os (firstFree w.os.fdtab : Int)
      .LOCK_SH false).1 = (if nextOk w.os.env.flockOk then 0 else -1) := by
    rw [sys_flock_request _ _ id .LOCK_SH false hid (by decide), readOnlyMid_flockOk]
    split <;> rfl
  refine ⟨?_, hret⟩
  rw [FileLock.InitReadOnly_eq, if_neg hvalid, hsrc]
  generalize readOnlyMid fl name w = m at hret ⊢
  have hlock : (⟨(firstFree w.os.fdtab : Int), true, false⟩ : FileSource).Lock true m.os
      = (nextOk w.os.env.flockOk,
          ⟨(firstFree w.os.fdtab : Int), true, nextOk w.os.env.flockOk⟩,
          (sys_flock m.os (firstFree w.os.fdtab : Int) .LOCK_SH false).2) := by
    have hnn : ¬ ((firstFree w.os.fdtab : Int) < 0) := by omega
    simp only [FileSource.Lock, if_neg hnn, Bool.not_false, if_true, Bool.not_true, hret]
    cases nextOk w.os.env.flockOk <;> simp
  rw [hlock]
  cases nextOk w.os.env.flockOk <;> simp

/-! ## Dropping pointers -/

theorem Disposed.never (fd : Int) (os : OS) : Disposed fd 0 os os :=
  ⟨[], by simp, rfl, rfl⟩

theorem Disposed.followedBy {fd : Int} {j k : Nat} {os os1 os2 : OS} (h1 : Disposed fd j os os1)
    (h2 : Disposed fd k os1 os2) : Disposed fd (j + k) os os2 := by
  obtain ⟨d1, e1, u1, c1⟩ := h1
  obtain ⟨d2, e2, u2, c2⟩ := h2
  exact ⟨d1 ++ d2, by rw [e2, e1, List.append_assoc], by simp [u1, u2], by simp [c1, c2]⟩

/-- The destructor of a channel on another descriptor leaves `fd` alone. -/
theorem closeChannel_disposed_other (g fd : Int) (o l : Bool) (os : OS) (h : g < 0 ∨ g ≠ fd) :
    Disposed fd 0 os (closeChannel g o l os) := by
  by_cases hg : g < 0
  · simp only [closeChannel, if_pos hg]
    exact Disposed.never fd os
  · have hne : g ≠ fd := h.resolve_left hg
    refine ⟨_, closeChannel_log g o l os (by omega) |>.trans (List.append_assoc _ _ _), ?_, ?_⟩
    · cases o <;> cases l <;> simp [Syscall.unlocks, hne]
    · cases o <;> cases l <;> simp [Syscall.closes, hne]

/-- The destructor of a locked channel that owns `fd` unlocks and closes it. -/
theorem closeChannel_disposed_self (fd : Int) (os : OS) (h : 0 ≤ fd) :
    Disposed fd 1 os (closeChannel fd true true os) := by
  refine ⟨_, closeChannel_log fd true true os h |>.trans (List.append_assoc _ _ _), ?_, ?_⟩
  · simp [Syscall.unlocks, Syscall.closes]
  · simp [Syscall.unlocks, Syscall.closes]

theorem up_reset_disposed (src : Option FileSource) (fd : Int) (os : OS)
    (h : ∀ x, src = some x → 0 ≤ x.fd → x.fd ≠ fd) : Disposed fd 0 os (up_reset src os) := by
  cases src with
  | none => exact Disposed.never fd os
  | some x =>
    simp only [up_reset, sourceDtor_eq]
    refine closeChannel_disposed_other _ _ _ _ _ ?_
    by_cases hx : x.fd < 0
    · exact Or.inl hx
    · exact Or.inr (h x rfl (by omega))

theorem up_reset_ofd_sub (src : Option FileSource) (os : OS) (g : Int) (id : Nat)
    (h : (up_reset src os).ofd g = some id) : os.ofd g = some id := by
  cases src with
  | none => exact h
  | some x =>
    simp only [up_reset, sourceDtor_eq] at h
    exact closeChannel_ofd_sub _ _ _ _ _ _ h

theorem sp_reset_ofd_sub (p : Option Nat) (w : World) (g : Int) (id : Nat)
    (h : (sp_reset p w).os.ofd g = some id) : w.os.ofd g = some id := by
  cases p with
  | none => exact h
  | some b =>
    rw [sp_reset_os] at h
    split at h
    · rw [sinkDtor_eq] at h
      exact closeChannel_ofd_sub _ _ _ _ _ _ h
    · exact h

theorem sp_reset_obj (p : Option Nat) (w : World) (b : Nat) :
    ((sp_reset p w).heap b).obj = (w.heap b).obj := by
  cases p with
  | none => rfl
  | some a =>
    rw [sp_reset_eq]
    simp

/-- Dropping a pointer unlocks and closes the descriptor `fd` once if the pointer
was the last one to the channel `a` on `fd`, and leaves `fd` alone otherwise. -/
theorem sp_reset_disposed (p : Option Nat) (w : World) (a : Nat) (fd : Int)
    (hflags : ∀ b, w.live b →
      (w.heap b).obj.ownsFd = true ∧ (w.heap b).obj.locked = true ∧ 0 ≤ w.fdOf b)
    (hsnk : ∀ b, w.live b → w.fdOf b = fd → b = a) :
    Disposed fd
      (if 0 < (w.heap a).useCount ∧ ((sp_reset p w).heap a).useCount = 0 ∧ w.fdOf a = fd
        then 1 else 0) w.os (sp_reset p w).os ∧
    (0 < (w.heap a).useCount → ((sp_reset p w).heap a).useCount = 0 → w.fdOf a = fd →
      (sp_reset p w).os.ofd fd = none) := by
  cases p with
  | none =>
    have hc : ¬ (0 < (w.heap a).useCount ∧ (w.heap a).useCount = 0 ∧ w.fdOf a = fd) := by omega
    simp only [sp_reset_none, if_neg hc]
    exact ⟨Disposed.never fd w.os, fun h1 h2 => by omega⟩
  | some b =>
    have hcount := sp_reset_useCount (some b) w a
    rw [sp_reset_os]
    by_cases hlast : (w.heap b).useCount = 1
    · have hlive : w.live b := by unfold World.live; omega
      obtain ⟨ho, hl, hfd⟩ := hflags b hlive
      rw [if_pos hlast, sinkDtor_eq, ho, hl]
      by_cases hb : w.fdOf b = fd
      · have hba := hsnk b hlive hb
        subst hba
        have hc : 0 < (w.heap b).useCount ∧ ((sp_reset (some b) w).heap b).useCount = 0 ∧
            w.fdOf b = fd := by
          simp only [if_true] at hcount
          omega
        rw [if_pos hc]
        have hb' : (w.heap b).obj.fd = fd := hb
        rw [hb']
        exact ⟨closeChannel_disposed_self fd w.os (by omega),
          fun _ _ _ => closeChannel_ofd_self fd true w.os (by omega)⟩
      · have hc : ¬ (0 < (w.heap a).useCount ∧ ((sp_reset (some b) w).heap a).useCount = 0 ∧
            w.fdOf a = fd) := by
          rintro ⟨h1, h2, h3⟩
          have hab : a ≠ b := fun e => hb (e ▸ h3)
          have : ¬ (some b = some a) := by simpa using fun e => hab e.symm
          rw [if_neg this] at hcount
          omega
        rw [if_neg hc]
        exact ⟨closeChannel_disposed_other _ _ _ _ _ (Or.inr hb), fun h1 h2 h3 => absurd ⟨h1, h2, h3⟩ hc⟩
    · have hc : ¬ (0 < (w.heap a).useCount ∧ ((sp_reset (some b) w).heap a).useCount = 0 ∧
          w.fdOf a = fd) := by
        rintro ⟨h1, h2, h3⟩
        by_cases hab : b = a
        · subst hab
          simp only [if_true] at hcount
          omega
        · have : ¬ (some b = some a) := by simpa using hab
          rw [if_neg this] at hcount
          omega
      rw [if_neg hlast, if_neg hc]
      exact ⟨Disposed.never fd w.os, fun h1 h2 h3 => absurd ⟨h1, h2, h3⟩ hc⟩

section Drops

variable {n : Nat} {s : System n}

theorem System.Inv.flags (hinv : s.Inv) (b : Nat) (hb : s.w.live b) :
    (s.w.heap b).obj.ownsFd = true ∧ (s.w.heap b).obj.locked = true ∧ 0 ≤ s.w.fdOf b := by
  obtain ⟨ho, id, hid⟩ := hinv.world.sink b hb
  exact ⟨ho, (hinv.world.locked b hb (by simp)).1, ofd_nonneg _ _ _ hid⟩

/-- One call that drops pointers, seen from a descriptor `fd` that no read channel
of a handle uses and no write channel other than `a`. -/
theorem drop_step (hinv : s.Inv) (ndebug : Bool) (c : Call n) (hc : c.isDrop = true) (a : Nat)
    (fd : Int) (hsrc : ∀ h x, (s.locks h).m_source = some x → 0 ≤ x.fd → x.fd ≠ fd)
    (hsnk : ∀ b, s.w.live b → s.w.fdOf b = fd → b = a) :
    ∃ s1, s.step ndebug c = .ok (none, s1) ∧
      (∀ g id, s1.w.os.ofd g = some id → s.w.os.ofd g = some id) ∧
      Disposed fd
        (if 0 < (s.w.heap a).useCount ∧ (s1.w.heap a).useCount = 0 ∧ s.w.fdOf a = fd
          then 1 else 0) s.w.os s1.w.os ∧
      (0 < (s.w.heap a).useCount → (s1.w.heap a).useCount = 0 → s.w.fdOf a = fd →
        s1.w.os.ofd fd = none) := by
  cases c with
  | AcquireWriteLock => simp [Call.isDrop] at hc
  | GetFileLockForRead h => simp [Call.isDrop] at hc
  | GetFileLockForWrite h => simp [Call.isDrop] at hc
  | ReleaseWriteLock =>
    have hd := sp_reset_disposed s.locker.m_sink s.w a fd hinv.flags hsnk
    exact ⟨_, rfl, fun g id => sp_reset_ofd_sub _ _ g id, hd.1, hd.2⟩
  | Release h =>
    have hu := up_reset_disposed (s.locks h).m_source fd s.w.os (hsrc h)
    have hd := sp_reset_disposed (s.locks h).m_sink
      { s.w with os := up_reset (s.locks h).m_source s.w.os } a fd hinv.flags hsnk
    have hboth := hu.followedBy hd.1
    rw [Nat.zero_add] at hboth
    exact ⟨_, rfl,
      fun g id hg => up_reset_ofd_sub _ _ g id (sp_reset_ofd_sub _ _ g id hg), hboth, hd.2⟩

theorem run_cons_ok (ndebug : Bool) (c : Call n) (cs : List (Call n))
    (rs : List (Option QStatus)) (s2 : System n)
    (hrun : s.run ndebug (c :: cs) = .ok (rs, s2)) :
    ∃ r s1 rs1, s.step ndebug c = .ok (r, s1) ∧ s1.run ndebug cs = .ok (rs1, s2) := by
  simp only [System.run] at hrun
  cases hstep : s.step ndebug c with
  | error e => rw [hstep] at hrun; cases hrun
  | ok res =>
    obtain ⟨r, s1⟩ := res
    rw [hstep] at hrun
    simp only at hrun
    cases hrest : System.run ndebug s1 cs with
    | error e => rw [hrest] at hrun; cases hrun
    | ok res2 =>
      obtain ⟨rs2, s3⟩ := res2
      rw [hrest] at hrun
      simp only [Except.ok.injEq, Prod.mk.injEq] at hrun
      obtain ⟨_, rfl⟩ := hrun
      exact ⟨r, s1, rs2, rfl, hrest⟩

/-- A run of calls that drop pointers returns; the FileLocker and the handles that
were released are empty afterwards, the others are as they were, and no use count
goes up. -/
theorem drop_run_state (ndebug : Bool) (s : System n) (cs : List (Call n))
    (hdrop : ∀ c ∈ cs, c.isDrop = true) :
    ∃ rs s1, s.run ndebug cs = .ok (rs, s1) ∧
      s1.locker.m_sink = (if Call.ReleaseWriteLock ∈ cs then none else s.locker.m_sink) ∧
      (∀ h, s1.locks h = if Call.Release h ∈ cs then ⟨none, none⟩ else s.locks h) ∧
      (∀ b, (s1.w.heap b).useCount ≤ (s.w.heap b).useCount) ∧
      (∀ b, (s1.w.heap b).obj = (s.w.heap b).obj) := by
  induction cs generalizing s with
  | nil => exact ⟨[], s, rfl, by simp, by simp, fun _ => le_refl _, fun _ => rfl⟩
  | cons c cs ih =>
    have hrest : ∀ c ∈ cs, c.isDrop = true := fun c hc => hdrop c (List.mem_cons_of_mem _ hc)
    have hc := hdrop c (List.mem_cons_self _ _)
    cases c with
    | AcquireWriteLock => simp [Call.isDrop] at hc
    | GetFileLockForRead h => simp [Call.isDrop] at hc
    | GetFileLockForWrite h => simp [Call.isDrop] at hc
    | ReleaseWriteLock =>
      obtain ⟨rs, s1, hrun, hl, hk, hu, ho⟩ := ih
        { s with locker := { s.locker with m_sink := none }, w := sp_reset s.locker.m_sink s.w }
        hrest
      refine ⟨none :: rs, s1, ?_, ?_, ?_, ?_, ?_⟩
      · simp only [System.run, System.step, FileLocker.ReleaseWriteLock, hrun]
      · rw [hl]; simp
      · intro h; rw [hk h]; simp
      · intro b
        have := sp_reset_useCount s.locker.m_sink s.w b
        have := hu b
        simp only at this
        omega
      · intro b; rw [ho b]; exact sp_reset_obj _ _ b
    | Release h =>
      obtain ⟨rs, s1, hrun, hl, hk, hu, ho⟩ := ih
        { s with locks := Function.update s.locks h ⟨none, none⟩,
                 w := ((s.locks h).Release s.w).2 }
        hrest
      refine ⟨none :: rs, s1, ?_, ?_, ?_, ?_, ?_⟩
      · simp only [System.run, System.step, FileLock.Release] at hrun ⊢
        simp only [hrun]
      · rw [hl]; simp
      · intro k
        rw [hk k]
        by_cases hkh : k = h
        · subst hkh; simp
        · have : ¬ (Call.Release k = Call.Release h) := by simpa using hkh
          simp [List.mem_cons, this, Function.update_noteq hkh]
      · intro b
        have := release_useCount (s.locks h) s.w b
        have := hu b
        simp only at this
        omega
      · intro b
        rw [ho b]
        simp only [FileLock.Release]
        exact sp_reset_obj _ _ b

/-- A descriptor that is closed stays closed, and is neither unlocked nor closed,
while pointers are dropped. -/
theorem drop_run_closed (hinv : s.Inv) (ndebug : Bool) (cs : List (Call n))
    (hdrop : ∀ c ∈ cs, c.isDrop = true) (fd : Int) (hfd : s.w.os.ofd fd = none)
    (rs : List (Option QStatus)) (s1 : System n) (hrun : s.run ndebug cs = .ok (rs, s1)) :
    Disposed fd 0 s.w.os s1.w.os ∧ s1.w.os.ofd fd = none := by
  induction cs generalizing s rs with
  | nil =>
    simp only [System.run, Except.ok.injEq, Prod.mk.injEq] at hrun
    obtain ⟨_, rfl⟩ := hrun
    exact ⟨Disposed.never fd _, hfd⟩
  | cons c cs ih =>
    have hrest : ∀ c ∈ cs, c.isDrop = true := fun c hc => hdrop c (List.mem_cons_of_mem _ hc)
    obtain ⟨r, s2, rs1, hstep, hrun2⟩ := run_cons_ok ndebug c cs rs s1 hrun
    have hopen : ∀ b, s.w.live b → s.w.fdOf b ≠ fd := by
      intro b hb e
      obtain ⟨_, id, hid⟩ := hinv.world.sink b hb
      rw [e, hfd] at hid
      cases hid
    obtain ⟨s3, hstep3, hsub, hd, _⟩ := drop_step hinv ndebug c (hdrop c (List.mem_cons_self _ _))
      0 fd
      (fun h x hx h0 e => by
        obtain ⟨id, hid⟩ := hinv.world.src h x hx h0
        rw [e, hfd] at hid
        cases hid)
      (fun b hb e => absurd e (hopen b hb))
    rw [hstep] at hstep3
    simp only [Except.ok.injEq, Prod.mk.injEq] at hstep3
    obtain ⟨_, rfl⟩ := hstep3
    have hc : ¬ (0 < (s.w.heap 0).useCount ∧ (s2.w.heap 0).useCount = 0 ∧ s.w.fdOf 0 = fd) :=
      fun hx => hopen 0 hx.1 hx.2.2
    rw [if_neg hc] at hd
    have hfd2 : s2.w.os.ofd fd = none := by
      cases hx : s2.w.os.ofd fd with
      | none => rfl
      | some id =>
        rw [hsub fd id hx] at hfd
        cases hfd
    obtain ⟨hd2, hclosed⟩ := ih (hinv.of_step ndebug c r s2 hstep) hrest hfd2 rs1 hrun2
    exact ⟨hd.followedBy hd2, hclosed⟩

/-- While pointers are dropped, the descriptor of a write channel is neither
unlocked nor closed as long as a pointer to the channel is left; once none is
left it has been unlocked and closed exactly once and is closed. -/
theorem drop_run_live (hinv : s.Inv) (ndebug : Bool) (cs : List (Call n))
    (hdrop : ∀ c ∈ cs, c.isDrop = true) (a : Nat) (hlive : 0 < (s.w.heap a).useCount)
    (rs : List (Option QStatus)) (s1 : System n) (hrun : s.run ndebug cs = .ok (rs, s1)) :
    (0 < (s1.w.heap a).useCount → Disposed (s.w.fdOf a) 0 s.w.os s1.w.os) ∧
    ((s1.w.heap a).useCount = 0 →
      Disposed (s.w.fdOf a) 1 s.w.os s1.w.os ∧ s1.w.os.ofd (s.w.fdOf a) = none) := by
  induction cs generalizing s rs with
  | nil =>
    simp only [System.run, Except.ok.injEq, Prod.mk.injEq] at hrun
    obtain ⟨_, rfl⟩ := hrun
    exact ⟨fun _ => Disposed.never _ _, fun h0 => by omega⟩
  | cons c cs ih =>
    have hrest : ∀ c ∈ cs, c.isDrop = true := fun c hc => hdrop c (List.mem_cons_of_mem _ hc)
    obtain ⟨r, s2, rs1, hstep, hrun2⟩ := run_cons_ok ndebug c cs rs s1 hrun
    obtain ⟨s3, hstep3, hsub, hd, hcl⟩ := drop_step hinv ndebug c
      (hdrop c (List.mem_cons_self _ _)) a (s.w.fdOf a)
      (fun h x hx _ => hinv.world.srcSink h x a hx hlive)
      (fun b hb e => hinv.world.sinkInj b a hb hlive (by rw [e]))
    rw [hstep] at hstep3
    simp only [Except.ok.injEq, Prod.mk.injEq] at hstep3
    obtain ⟨_, rfl⟩ := hstep3
    have hinv2 := hinv.of_step ndebug c r s2 hstep
    obtain ⟨_, _, hrun2b, _, _, hmono, _⟩ := drop_run_state ndebug s2 cs hrest
    rw [hrun2] at hrun2b
    simp only [Except.ok.injEq, Prod.mk.injEq] at hrun2b
    obtain ⟨_, rfl⟩ := hrun2b
    by_cases hz : (s2.w.heap a).useCount = 0
    · rw [if_pos ⟨hlive, hz, rfl⟩] at hd
      obtain ⟨hd2, hclosed⟩ := drop_run_closed hinv2 ndebug cs hrest (s.w.fdOf a)
        (hcl hlive hz rfl) rs1 _ hrun2
      have h1 := hmono a
      exact ⟨fun hp => by omega, fun _ => ⟨hd.followedBy hd2, hclosed⟩⟩
    · have hc : ¬ (0 < (s.w.heap a).useCount ∧ (s2.w.heap a).useCount = 0 ∧
          s.w.fdOf a = s.w.fdOf a) := fun hx => hz hx.2.1
      rw [if_neg hc] at hd
      obtain ⟨_, _, hstate, _, _, _, hobj⟩ := drop_run_state ndebug s [c]
        (fun x hx => hdrop x (by simp at hx; simp [hx]))
      simp only [System.run, hstep, Except.ok.injEq, Prod.mk.injEq] at hstate
      obtain ⟨_, rfl⟩ := hstate
      have hfdeq : s2.w.fdOf a = s.w.fdOf a := by
        simp only [World.fdOf, hobj a]
      have := ih hinv2 hrest (by omega) rs1 hrun2
      rw [hfdeq] at this
      refine ⟨fun hp => ?_, fun h0 => ?_⟩
      · have := hd.followedBy (this.1 hp)
        simpa using this
      · have h2 := this.2 h0
        have := hd.followedBy h2.1
        exact ⟨by simpa using this, h2.2⟩

end Drops

/-! ## References and the write lock -/

section Refs

variable {n : Nat} {s : System n}

/-- A write channel that exists is referred to by the FileLocker or by a handle. -/
theorem System.Inv.referrer (hinv : s.Inv) (a : Nat) (hlive : s.w.live a) :
    s.locker.m_sink = some a ∨ ∃ h, (s.locks h).m_sink = some a := by
  have hc := hinv.count a
  unfold World.live at hlive
  unfold System.refCount at hc
  by_cases hl : s.locker.m_sink = some a
  · exact Or.inl hl
  · right
    rw [if_neg hl, Nat.zero_add] at hc
    have hpos : 0 < (Finset.univ.filter (fun h => (s.locks h).m_sink = some a)).card := by omega
    obtain ⟨h, hh⟩ := Finset.card_pos.mp hpos
    exact ⟨h, (Finset.mem_filter.mp hh).2⟩

/-- A write channel that exists holds the write lock. -/
theorem System.Inv.holds (hinv : s.Inv) (a : Nat) (hlive : s.w.live a) :
    s.w.holdsWriteLock a := by
  obtain ⟨_, id, hid⟩ := hinv.world.sink a hlive
  obtain ⟨hl, hheld⟩ := hinv.world.locked a hlive (by simp)
  exact ⟨hlive, hl, id, hid, hheld id hid⟩

theorem System.Inv.live_of_locker (hinv : s.Inv) (a : Nat) (h : s.locker.m_sink = some a) :
    s.w.live a := by
  unfold World.live
  rw [hinv.count a]
  exact s.refCount_pos_of_locker a h

theorem System.Inv.live_of_handle (hinv : s.Inv) (k : Fin n) (a : Nat)
    (h : (s.locks k).m_sink = some a) : s.w.live a := by
  unfold World.live
  rw [hinv.count a]
  exact s.refCount_pos_of_handle k a h

end Refs

/-! ## Handles that ride on the write channel -/

theorem NoFlock.idle (os : OS) : NoFlock os os := ⟨[], by simp, by simp⟩

theorem NoFlock.idle_eq {os os1 : OS} (h : os1 = os) : NoFlock os os1 := h ▸ NoFlock.idle os

theorem NoFlock.chain {a b c : OS} (h1 : NoFlock a b) (h2 : NoFlock b c) : NoFlock a c := by
  obtain ⟨d1, hd1, hc1⟩ := h1
  obtain ⟨d2, hd2, hc2⟩ := h2
  refine ⟨d1 ++ d2, by rw [hd2, hd1, List.append_assoc], ?_⟩
  intro x hx
  rcases List.mem_append.1 hx with h | h
  · exact hc1 x h
  · exact hc2 x h

theorem NoFlock.calm_lseek (os : OS) (fd : Int) (off : Nat) : NoFlock os (sys_lseek os fd off).2 :=
  ⟨_, sys_lseek_log os fd off, by simp [Syscall.isFlock]⟩

theorem NoFlock.calm_dup (os : OS) (fd : Int) : NoFlock os (sys_dup os fd).2 :=
  ⟨_, sys_dup_log os fd, by simp [Syscall.isFlock]⟩

/-- The destructor of a channel that is not locked calls no `flock`. -/
theorem NoFlock.calm_closeChannel (fd : Int) (o : Bool) (os : OS) :
    NoFlock os (closeChannel fd o false os) := by
  by_cases h : fd < 0
  · simp only [closeChannel, if_pos h]
    exact NoFlock.idle os
  · refine ⟨_, closeChannel_log fd o false os (by omega) |>.trans (List.append_assoc _ _ _), ?_⟩
    cases o <;> simp [Syscall.isFlock]

theorem NoFlock.calm_up_reset (src : Option FileSource) (os : OS)
    (h : ∀ x, src = some x → x.locked = false) : NoFlock os (up_reset src os) := by
  cases src with
  | none => exact NoFlock.idle os
  | some x =>
    simp only [up_reset, sourceDtor_eq, h x rfl]
    exact NoFlock.calm_closeChannel _ _ _

/-- Dropping a pointer that is not the last one leaves the kernel alone. -/
theorem sp_reset_os_keep (p : Option Nat) (w : World)
    (h : ∀ b, p = some b → (w.heap b).useCount ≠ 1) : (sp_reset p w).os = w.os := by
  cases p with
  | none => rfl
  | some b => rw [sp_reset_os, if_neg (h b rfl)]

theorem sp_copy_obj (p : Option Nat) (w : World) (b : Nat) :
    ((sp_copy p w).heap b).obj = (w.heap b).obj := by
  cases p with
  | none => rfl
  | some a =>
    rw [sp_copy_eq]
    simp

/-- The write channels themselves are not changed by InitReadWrite. -/
theorem initReadWrite_obj (ndebug : Bool) (fl : FileLock) (a : Nat) (w : World)
    (st : QStatus) (fl1 : FileLock) (w1 : World)
    (hrun : fl.InitReadWrite ndebug a w = .ok (st, fl1, w1)) (b : Nat) :
    (w1.heap b).obj = (w.heap b).obj := by
  rw [FileLock.InitReadWrite_eq] at hrun
  split at hrun
  · cases hrun
  · split at hrun
    · cases hrun
    · split at hrun
      · simp only [Except.ok.injEq, Prod.mk.injEq] at hrun
        obtain ⟨_, _, rfl⟩ := hrun
        rw [sp_reset_obj]
      · split at hrun
        · simp only [Except.ok.injEq, Prod.mk.injEq] at hrun
          obtain ⟨_, _, rfl⟩ := hrun
          rfl
        · simp only [Except.ok.injEq, Prod.mk.injEq] at hrun
          obtain ⟨_, _, rfl⟩ := hrun
          simp only [sp_assign]
          rw [sp_reset_obj, sp_copy_obj]

theorem rideOn_obj (ndebug : Bool) (a : Nat) (fl : FileLock) (w : World)
    (st : QStatus) (fl1 : FileLock) (w1 : World)
    (hrun : rideOn ndebug a fl w = .ok (st, fl1, w1)) (b : Nat) :
    (w1.heap b).obj = (w.heap b).obj := by
  unfold rideOn at hrun
  cases hres : fl.InitReadWrite ndebug a (sp_copy (some a) (sp_copy (some a) w)) with
  | error e => rw [hres] at hrun; cases hrun
  | ok r =>
    obtain ⟨st1, fl2, w2⟩ := r
    rw [hres] at hrun
    simp only [Except.ok.injEq, Prod.mk.injEq] at hrun
    obtain ⟨_, _, rfl⟩ := hrun
    rw [sp_reset_obj, sp_reset_obj, initReadWrite_obj ndebug fl a _ _ _ _ hres b, sp_copy_obj,
      sp_copy_obj]

/-- InitReadWrite on a handle that is empty or rides on `a` calls no `flock` and
leaves the handle empty or riding on `a`. -/
theorem initReadWrite_riders (ndebug : Bool) (fl : FileLock) (a : Nat) (w : World)
    (st : QStatus) (fl1 : FileLock) (w1 : World)
    (hrun : fl.InitReadWrite ndebug a w = .ok (st, fl1, w1))
    (hcount : fl.m_sink = some a → 2 ≤ (w.heap a).useCount)
    (hsink : fl.m_sink = none ∨ fl.m_sink = some a)
    (hsrc : ∀ src, fl.m_source = some src → src.locked = false) :
    NoFlock w.os w1.os ∧ (fl1.m_sink = none ∨ fl1.m_sink = some a) ∧
      ∀ src, fl1.m_source = some src → src.locked = false := by
  have hkeep : ∀ w2 : World, w2.heap = w.heap → (sp_reset fl.m_sink w2).os = w2.os := by
    intro w2 hw2
    refine sp_reset_os_keep _ _ fun b hb => ?_
    rcases hsink with h | h
    · rw [h] at hb; cases hb
    · rw [h] at hb
      cases hb
      have := hcount h
      rw [hw2]
      omega
  rw [FileLock.InitReadWrite_eq] at hrun
  split at hrun
  · cases hrun
  · split at hrun
    · cases hrun
    · split at hrun
      · simp only [Except.ok.injEq, Prod.mk.injEq] at hrun
        obtain ⟨_, rfl, rfl⟩ := hrun
        refine ⟨?_, Or.inl rfl, by simp⟩
        rw [hkeep { w with os := up_reset fl.m_source w.os } rfl]
        exact NoFlock.calm_up_reset _ _ hsrc
      · split at hrun
        · simp only [Except.ok.injEq, Prod.mk.injEq] at hrun
          obtain ⟨_, rfl, rfl⟩ := hrun
          exact ⟨NoFlock.calm_lseek _ _ _, hsink, hsrc⟩
        · simp only [Except.ok.injEq, Prod.mk.injEq] at hrun
          obtain ⟨_, rfl, rfl⟩ := hrun
          refine ⟨?_, Or.inr rfl, ?_⟩
          · have hassign : (sp_assign fl.m_sink (some a)
                { w with
                  os := (up_reset fl.m_source (FileSource.ctor_fdesc (w.heap a).obj.fd
                    (sys_lseek w.os (w.heap a).obj.fd 0).2).2) }).os
                = up_reset fl.m_source (FileSource.ctor_fdesc (w.heap a).obj.fd
                    (sys_lseek w.os (w.heap a).obj.fd 0).2).2 := by
              simp only [sp_assign]
              rw [sp_reset_os_keep _ _ fun b hb => ?_, sp_copy_os]
              rcases hsink with h | h
              · rw [h] at hb; cases hb
              · rw [h] at hb
                cases hb
                have := hcount h
                have := sp_copy_useCount (some a)
                  { w with
                    os := (up_reset fl.m_source (FileSource.ctor_fdesc (w.heap a).obj.fd
                      (sys_lseek w.os (w.heap a).obj.fd 0).2).2) } a
                simp only [if_true] at this
                omega
            rw [hassign]
            refine (NoFlock.calm_lseek w.os (w.heap a).obj.fd 0).chain ?_
            refine NoFlock.chain ?_ (NoFlock.calm_up_reset _ _ hsrc)
            simp only [FileSource.ctor_fdesc]
            exact NoFlock.calm_dup _ _
          · intro src hs
            simp only [Option.some.injEq] at hs
            rw [← hs]
            rfl

/-- A grant on the published channel `a` to a handle that is empty or rides on
`a`, while another pointer to `a` exists: no `flock` is called, and the handle is
empty or rides on `a` afterwards. -/
theorem rideOn_riders (ndebug : Bool) (a : Nat) (fl : FileLock) (w : World)
    (st : QStatus) (fl1 : FileLock) (w1 : World)
    (hrun : rideOn ndebug a fl w = .ok (st, fl1, w1))
    (hcount : (if fl.m_sink = some a then 2 else 1) ≤ (w.heap a).useCount)
    (hsink : fl.m_sink = none ∨ fl.m_sink = some a)
    (hsrc : ∀ src, fl.m_source = some src → src.locked = false) :
    NoFlock w.os w1.os ∧ (fl1.m_sink = none ∨ fl1.m_sink = some a) ∧
      ∀ src, fl1.m_source = some src → src.locked = false := by
  unfold rideOn at hrun
  cases hres : fl.InitReadWrite ndebug a (sp_copy (some a) (sp_copy (some a) w)) with
  | error e => rw [hres] at hrun; cases hrun
  | ok r =>
    obtain ⟨st1, fl2, w2⟩ := r
    rw [hres] at hrun
    simp only [Except.ok.injEq, Prod.mk.injEq] at hrun
    obtain ⟨_, rfl, rfl⟩ := hrun
    have hc2 : ((sp_copy (some a) (sp_copy (some a) w)).heap a).useCount
        = (w.heap a).useCount + 2 := by
      simp only [sp_copy_useCount, if_true]
    obtain ⟨hq, hs1, hs2⟩ := initReadWrite_riders ndebug fl a _ _ _ _ hres
      (fun _ => by omega) hsink hsrc
    have hcnt := initReadWrite_useCount ndebug fl a _ _ _ _ hres a (fun _ => by omega)
    rw [hc2] at hcnt
    have h3 : 3 ≤ (w2.heap a).useCount := by
      by_cases hf : fl.m_sink = some a
      · simp only [hf, if_true] at hcnt hcount
        omega
      · simp only [hf, if_false] at hcnt hcount
        omega
    refine ⟨?_, hs1, hs2⟩
    have e1 : (sp_reset (some a) w2).os = w2.os :=
      sp_reset_os_keep _ _ fun b hb => by cases hb; omega
    have e2 : (sp_reset (some a) (sp_reset (some a) w2)).os = (sp_reset (some a) w2).os :=
      sp_reset_os_keep _ _ fun b hb => by
        cases hb
        have := sp_reset_useCount (some a) w2 a
        simp only [if_true] at this
        omega
    rw [e2, e1]
    simpa only [sp_copy_os] using hq

/-- A grant on a published channel that exists returns when assertions are
compiled out. -/
theorem rideOn_returns (a : Nat) (fl : FileLock) (w : World) :
    ∃ r, rideOn true a fl w = .ok r := by
  have hc2 : ((sp_copy (some a) (sp_copy (some a) w)).heap a).useCount ≠ 0 := by
    simp only [sp_copy_useCount, if_true]
    omega
  have hinit : ∃ r, fl.InitReadWrite true a (sp_copy (some a) (sp_copy (some a) w)) = .ok r := by
    rw [FileLock.InitReadWrite_eq, if_neg (by simp), if_neg hc2]
    split
    · exact ⟨_, rfl⟩
    · split <;> exact ⟨_, rfl⟩
  obtain ⟨r, hr⟩ := hinit
  unfold rideOn
  rw [hr]
  exact ⟨_, rfl⟩

section Riders

variable {n : Nat} {s : System n}

/-- The pointers of the FileLocker and of one handle are among the pointers
counted. -/
theorem System.refCount_ge (s : System n) (h : Fin n) (a : Nat) :
    (if s.locker.m_sink = some a then 1 else 0) +
      (if (s.locks h).m_sink = some a then 1 else 0) ≤ s.refCount a := by
  have := card_update s.locks h ⟨none, none⟩ a
  unfold System.refCount
  simp only at this
  have h0 : ¬ ((none : Option Nat) = some a) := by simp
  rw [if_neg h0] at this
  omega

/-- One grant or release while the FileLocker publishes `a`. -/
theorem handle_step (hinv : s.Inv) (ndebug : Bool) (c : Call n) (hc : c.isHandleCall = true)
    (a : Nat) (hown : s.locker.m_sink = some a) (r : Option QStatus) (s1 : System n)
    (hstep : s.step ndebug c = .ok (r, s1)) :
    s1.locker = s.locker ∧ (∀ b, (s1.w.heap b).obj = (s.w.heap b).obj) ∧
    (s.ridersOf a → s1.ridersOf a ∧ NoFlock s.w.os s1.w.os) := by
  have hcount : ∀ h, (if (s.locks h).m_sink = some a then 2 else 1) ≤ (s.w.heap a).useCount := by
    intro h
    have := s.refCount_ge h a
    rw [if_pos hown, ← hinv.count a] at this
    by_cases hh : (s.locks h).m_sink = some a
    · simp only [hh, if_true] at this ⊢
      omega
    · simp only [hh, if_false] at this ⊢
      omega
  have hride : ∀ h st fl1 w1, rideOn ndebug a (s.locks h) s.w = .ok (st, fl1, w1) →
      (∀ b, (w1.heap b).obj = (s.w.heap b).obj) ∧
      (s.ridersOf a →
        ({ s with locks := Function.update s.locks h fl1, w := w1 } : System n).ridersOf a ∧
        NoFlock s.w.os w1.os) := by
    intro h st fl1 w1 hres
    refine ⟨rideOn_obj ndebug a _ _ _ _ _ hres, fun hr => ?_⟩
    obtain ⟨hq, h1, h2⟩ := rideOn_riders ndebug a _ _ _ _ _ hres (hcount h) (hr h).1 (hr h).2
    refine ⟨fun k => ?_, hq⟩
    by_cases hk : k = h
    · subst hk
      simpa using ⟨h1, h2⟩
    · simpa [Function.update_noteq hk] using hr k
  cases c with
  | AcquireWriteLock => simp [Call.isHandleCall] at hc
  | ReleaseWriteLock => simp [Call.isHandleCall] at hc
  | GetFileLockForRead h =>
    simp only [System.step, getRead_some ndebug _ _ _ a hown] at hstep
    cases hres : rideOn ndebug a (s.locks h) s.w with
    | error e => rw [hres] at hstep; cases hstep
    | ok res =>
      obtain ⟨st, fl1, w1⟩ := res
      rw [hres] at hstep
      simp only [Except.ok.injEq, Prod.mk.injEq] at hstep
      obtain ⟨_, rfl⟩ := hstep
      exact ⟨rfl, hride h st fl1 w1 hres⟩
  | GetFileLockForWrite h =>
    simp only [System.step, getWrite_some ndebug _ _ _ a hown] at hstep
    cases hres : rideOn ndebug a (s.locks h) s.w with
    | error e => rw [hres] at hstep; cases hstep
    | ok res =>
      obtain ⟨st, fl1, w1⟩ := res
      rw [hres] at hstep
      simp only [Except.ok.injEq, Prod.mk.injEq] at hstep
      obtain ⟨_, rfl⟩ := hstep
      exact ⟨rfl, hride h st fl1 w1 hres⟩
  | Release h =>
    simp only [System.step, Except.ok.injEq, Prod.mk.injEq] at hstep
    obtain ⟨_, rfl⟩ := hstep
    refine ⟨rfl, fun b => ?_, fun hr => ⟨fun k => ?_, ?_⟩⟩
    · simp only [FileLock.Release]
      exact sp_reset_obj _ _ b
    · by_cases hk : k = h
      · subst hk
        simp [FileLock.Release]
      · simpa [Function.update_noteq hk] using hr k
    · simp only [FileLock.Release]
      rw [sp_reset_os_keep _ _ fun b hb => ?_]
      · exact NoFlock.calm_up_reset _ _ (hr h).2
      · rcases (hr h).1 with h0 | h0
        · rw [h0] at hb; cases hb
        · have := hcount h
          rw [h0] at hb
          cases hb
          simp only [h0, if_true] at this
          show (s.w.heap a).useCount ≠ 1
          omega

end Riders

/-- The read channel of a handle granted on the published channel `a`: built on a
duplicate of the descriptor of `a`, owning it, not locked. -/
theorem rideOn_dup (ndebug : Bool) (a : Nat) (fl : FileLock) (w : World)
    (fl1 : FileLock) (w1 : World) (hrun : rideOn ndebug a fl w = .ok (.ER_OK, fl1, w1)) :
    fl1.m_sink = some a ∧
    ∃ src, fl1.m_source = some src ∧ src.locked = false ∧ src.ownsFd = true ∧
      Syscall.dup (w.heap a).obj.fd src.fd ∈ w1.os.log := by
  unfold rideOn at hrun
  cases hres : fl.InitReadWrite ndebug a (sp_copy (some a) (sp_copy (some a) w)) with
  | error e => rw [hres] at hrun; cases hrun
  | ok r =>
    obtain ⟨st1, fl2, w2⟩ := r
    rw [hres] at hrun
    simp only [Except.ok.injEq, Prod.mk.injEq] at hrun
    obtain ⟨rfl, rfl, rfl⟩ := hrun
    have hgrow : ∀ l, l ∈ w2.os.log →
        l ∈ (sp_reset (some a) (sp_reset (some a) w2)).os.log := by
      intro l hl
      obtain ⟨d, hd, _⟩ := (NoLockReq.quiet_sp_reset (some a) w2).next
        (NoLockReq.quiet_sp_reset (some a) (sp_reset (some a) w2))
      rw [hd]
      exact List.mem_append_left _ hl
    rw [FileLock.InitReadWrite_eq] at hres
    split at hres
    · cases hres
    · split at hres
      · cases hres
      · split at hres
        · simp at hres
        · split at hres
          · simp at hres
          · simp only [Except.ok.injEq, Prod.mk.injEq, true_and] at hres
            obtain ⟨rfl, rfl⟩ := hres
            refine ⟨rfl, _, rfl, rfl, rfl, hgrow _ ?_⟩
            obtain ⟨d, hd, _⟩ := (NoLockReq.quiet_up_reset fl.m_source
              (FileSource.ctor_fdesc (w.heap a).obj.fd
                (sys_lseek w.os (w.heap a).obj.fd 0).2).2).next
              (NoLockReq.quiet_sp_assign fl.m_sink (some a)
                { sp_copy (some a) (sp_copy (some a) w) with
                  os := (up_reset fl.m_source (FileSource.ctor_fdesc (w.heap a).obj.fd
                    (sys_lseek w.os (w.heap a).obj.fd 0).2).2) })
            simp only [sp_copy_copy_heap, sp_copy_os]
            rw [hd]
            refine List.mem_append_left _ ?_
            simp only [FileSource.ctor_fdesc, sys_dup_log]
            simp

section RiderRuns

variable {n : Nat} {s : System n}

/-- Grants and releases while the FileLocker publishes `a`: the FileLocker and the
write channels stay as they are, and handles that ride on `a` call no `flock`. -/
theorem handle_run (hinv : s.Inv) (ndebug : Bool) (cs : List (Call n))
    (hcs : ∀ c ∈ cs, c.isHandleCall = true) (a : Nat) (hown : s.locker.m_sink = some a)
    (rs : List (Option QStatus)) (s1 : System n) (hrun : s.run ndebug cs = .ok (rs, s1)) :
    s1.Inv ∧ s1.locker = s.locker ∧ (∀ b, (s1.w.heap b).obj = (s.w.heap b).obj) ∧
    (s.ridersOf a → s1.ridersOf a ∧ NoFlock s.w.os s1.w.os) := by
  induction cs generalizing s rs with
  | nil =>
    simp only [System.run, Except.ok.injEq, Prod.mk.injEq] at hrun
    obtain ⟨_, rfl⟩ := hrun
    exact ⟨hinv, rfl, fun _ => rfl, fun hr => ⟨hr, NoFlock.idle _⟩⟩
  | cons c cs ih =>
    have hrest : ∀ c ∈ cs, c.isHandleCall = true := fun c hc => hcs c (List.mem_cons_of_mem _ hc)
    obtain ⟨r, s2, rs1, hstep, hrun2⟩ := run_cons_ok ndebug c cs rs s1 hrun
    obtain ⟨hl, hobj, hride⟩ := handle_step hinv ndebug c (hcs c (List.mem_cons_self _ _)) a hown
      r s2 hstep
    obtain ⟨hinv1, hl1, hobj1, hride1⟩ := ih (hinv.of_step ndebug c r s2 hstep) hrest
      (by rw [hl]; exact hown) rs1 hrun2
    refine ⟨hinv1, hl1.trans hl, fun b => (hobj1 b).trans (hobj b), fun hr => ?_⟩
    obtain ⟨hr2, hq2⟩ := hride hr
    obtain ⟨hr1, hq1⟩ := hride1 hr2
    exact ⟨hr1, hq2.chain hq1⟩

/-- Grants and releases while the FileLocker publishes a channel return when
assertions are compiled out. -/
theorem handle_run_returns (hinv : s.Inv) (cs : List (Call n))
    (hcs : ∀ c ∈ cs, c.isHandleCall = true) (a : Nat) (hown : s.locker.m_sink = some a) :
    ∃ rs s1, s.run true cs = .ok (rs, s1) := by
  induction cs generalizing s with
  | nil => exact ⟨[], s, rfl⟩
  | cons c cs ih =>
    have hrest : ∀ c ∈ cs, c.isHandleCall = true := fun c hc => hcs c (List.mem_cons_of_mem _ hc)
    have hc := hcs c (List.mem_cons_self _ _)
    have hstep : ∃ r s2, s.step true c = .ok (r, s2) := by
      cases c with
      | AcquireWriteLock => simp [Call.isHandleCall] at hc
      | ReleaseWriteLock => simp [Call.isHandleCall] at hc
      | GetFileLockForRead h =>
        obtain ⟨⟨st, fl1, w1⟩, hr⟩ := rideOn_returns a (s.locks h) s.w
        simp only [System.step, getRead_some true _ _ _ a hown, hr]
        exact ⟨_, _, rfl⟩
      | GetFileLockForWrite h =>
        obtain ⟨⟨st, fl1, w1⟩, hr⟩ := rideOn_returns a (s.locks h) s.w
        simp only [System.step, getWrite_some true _ _ _ a hown, hr]
        exact ⟨_, _, rfl⟩
      | Release h => exact ⟨_, _, rfl⟩
    obtain ⟨r, s2, hs⟩ := hstep
    obtain ⟨hl, _, _⟩ := handle_step hinv true c hc a hown r s2 hs
    obtain ⟨rs, s1, hrun⟩ := ih (hinv.of_step true c r s2 hs) hrest (by rw [hl]; exact hown)
    exact ⟨r :: rs, s1, by simp only [System.run, hs, hrun]⟩

end RiderRuns

/-! ## The directories the loop visits -/

theorem findIdx_some (c : Char) (l : List Char) (k : Nat) (h : findIdx c l = some k) :
    l[k]? = some c ∧ ∀ i, i < k → l[i]? ≠ some c := by
  induction l generalizing k with
  | nil => simp [findIdx] at h
  | cons x t ih =>
    simp only [findIdx] at h
    split at h
    · rename_i hx
      simp only [Option.some.injEq] at h
      subst h
      exact ⟨by simp [hx], fun i hi => by omega⟩
    · rename_i hx
      cases hk : findIdx c t with
      | none => simp [hk] at h
      | some j =>
        simp only [hk, Option.map_some', Option.some.injEq] at h
        subst h
        obtain ⟨h1, h2⟩ := ih j hk
        refine ⟨by simpa using h1, fun i hi => ?_⟩
        cases i with
        | zero => simpa using hx
        | succ i => simpa using h2 i (by omega)

theorem findIdx_none (c : Char) (l : List Char) (h : findIdx c l = none) (i : Nat) :
    l[i]? ≠ some c := by
  induction l generalizing i with
  | nil => simp
  | cons x t ih =>
    simp only [findIdx] at h
    split at h
    · cases h
    · rename_i hx
      have ht : findIdx c t = none := by
        cases hk : findIdx c t with
        | none => rfl
        | some j => simp [hk] at h
      cases i with
      | zero => simpa using hx
      | succ i => simpa using ih ht i

theorem findFrom_some (s : List Char) (c : Char) (b e : Nat) (h : findFrom s c b = some e) :
    b ≤ e ∧ s[e]? = some c ∧ ∀ i, b ≤ i → i < e → s[i]? ≠ some c := by
  unfold findFrom at h
  cases hk : findIdx c (s.drop b) with
  | none => simp [hk] at h
  | some j =>
    simp only [hk, Option.map_some', Option.some.injEq] at h
    subst h
    obtain ⟨h1, h2⟩ := findIdx_some c _ j hk
    rw [List.getElem?_drop] at h1
    refine ⟨by omega, by rw [Nat.add_comm]; exact h1, fun i hbi hi => ?_⟩
    have := h2 (i - b) (by omega)
    rw [List.getElem?_drop] at this
    rwa [show b + (i - b) = i by omega] at this

theorem findFrom_none (s : List Char) (c : Char) (b : Nat) (h : findFrom s c b = none)
    (i : Nat) (hi : b ≤ i) : s[i]? ≠ some c := by
  unfold findFrom at h
  cases hk : findIdx c (s.drop b) with
  | some j => simp [hk] at h
  | none =>
    have := findIdx_none c _ hk (i - b)
    rw [List.getElem?_drop] at this
    rwa [show b + (i - b) = i by omega] at this

theorem dirEndsFrom_end (s : List Char) (b : Nat) (h : s.length ≤ b) : dirEndsFrom s b = [] := by
  unfold dirEndsFrom
  rw [show s.length - b = 0 by omega]
  rfl

theorem dirEndsFrom_step (s : List Char) (b : Nat) (h : b < s.length) :
    dirEndsFrom s b = (if isDirEnd s b then [b] else []) ++ dirEndsFrom s (b + 1) := by
  unfold dirEndsFrom
  rw [show s.length - b = (s.length - (b + 1)) + 1 by omega, List.range'_succ, List.filter_cons]
  split <;> simp

/-- Positions that hold no slash mark no directory. -/
theorem dirEndsFrom_skip (s : List Char) (b e : Nat) (hbe : b ≤ e) (he : e ≤ s.length)
    (h : ∀ i, b ≤ i → i < e → s[i]? ≠ some '/') : dirEndsFrom s b = dirEndsFrom s e := by
  obtain ⟨k, rfl⟩ : ∃ k, e = b + k := ⟨e - b, by omega⟩
  clear hbe
  induction k generalizing b with
  | zero => rfl
  | succ k ih =>
    have hnot : isDirEnd s b = false := by
      have := h b (le_refl _) (by omega)
      simp [isDirEnd, this]
    rw [dirEndsFrom_step s b (by omega), hnot]
    simp only [Bool.false_eq_true, if_false, List.nil_append]
    rw [show b + (k + 1) = (b + 1) + k by omega]
    exact ih (b + 1) (by omega) (fun i h1 h2 => h i (by omega) (by omega))

/-- The directory loop, started at a position that follows a slash (or at the
start of the name), visits the directories marked from that position on. -/
theorem createDirs_visits (s : List Char) (m : Nat) (fuel b : Nat) (os : OS)
    (hb : b ≤ s.length) (hf : s.length + 1 ≤ fuel + b)
    (hstate : b = 0 ∨ s[b - 1]? = some '/') :
    FileSink.createDirs s m fuel b os
      = .ok (visitDirs m ((dirEndsFrom s b).map (fun e => String.mk (s.take e))) os) := by
  induction fuel generalizing b os with
  | zero => omega
  | succ fuel ih =>
    unfold FileSink.createDirs
    cases hfind : findFrom s '/' b with
    | none =>
      have hnil : dirEndsFrom s b = [] := by
        rw [dirEndsFrom_skip s b s.length hb le_rfl
          (fun i h1 _ => findFrom_none s '/' b hfind i h1), dirEndsFrom_end s _ le_rfl]
      simp [hnil, visitDirs]
    | some e =>
      obtain ⟨hbe, hse, hno⟩ := findFrom_some s '/' b e hfind
      have hlt : e < s.length := (findFrom_bounds s '/' b e hfind).2
      simp only
      by_cases heq : b = e
      · rw [if_pos heq]
        subst heq
        have hnot : isDirEnd s b = false := by
          rcases hstate with h0 | h1
          · simp [isDirEnd, h0]
          · simp [isDirEnd, h1]
        rw [ih (b + 1) os (by omega) (by omega) (Or.inr (by simpa using hse)),
          dirEndsFrom_step s b hlt, hnot]
        simp
      · rw [if_neg heq]
        have hyes : isDirEnd s e = true := by
          have := hno (e - 1) (by omega) (by omega)
          simp only [isDirEnd, decide_eq_true_eq]
          exact ⟨hse, by omega, this⟩
        have hd : dirEndsFrom s b = e :: dirEndsFrom s (e + 1) := by
          rw [dirEndsFrom_skip s b e hbe (by omega) hno, dirEndsFrom_step s e hlt, hyes]
          simp
        have hnext := fun os1 => ih (e + 1) os1 (by omega) (by omega) (Or.inr (by simpa using hse))
        rw [hd]
        simp only [List.map_cons, visitDirs]
        split
        · split
          · rfl
          · exact hnext _
        · exact hnext _

theorem dirPrefixes_eq (s : List Char) :
    dirPrefixes s = (dirEndsFrom s 0).map (fun e => String.mk (s.take e)) := by
  unfold dirPrefixes dirEndsFrom
  rw [List.range_eq_range', Nat.sub_zero]

/-- A visit issues `stat` and `mkdir` calls only. -/
theorem visitDirs_dirsOnly (m : Nat) (ps : List String) (os : OS) :
    DirsOnly os (visitDirs m ps os).2 := by
  induction ps generalizing os with
  | nil => exact DirsOnly.same os
  | cons p ps ih =>
    simp only [visitDirs]
    split
    · split
      · exact (DirsOnly.of_stat os p).andThen (DirsOnly.of_mkdir _ p m)
      · exact ((DirsOnly.of_stat os p).andThen (DirsOnly.of_mkdir _ p m)).andThen (ih _)
    · exact (DirsOnly.of_stat os p).andThen (ih _)

/-! ## File offsets -/

/-- A rewind that fails changes neither descriptors nor open file descriptions. -/
theorem sys_lseek_failed (os : OS) (fd : Int) (h : (sys_lseek os fd 0).1 < 0) :
    (sys_lseek os fd 0).2.fdtab = os.fdtab ∧ (sys_lseek os fd 0).2.files = os.files := by
  cases hfd : os.ofd fd with
  | none => simp [sys_lseek, hfd]
  | some id =>
    rw [sys_lseek_open os fd id 0 hfd] at h ⊢
    split
    · rename_i hn
      simp [hn] at h
    · exact ⟨rfl, rfl⟩

/-- InitReadWrite returns ER_OS_ERROR only when the rewind failed, and then it
has done nothing else. -/
theorem initReadWrite_failed (ndebug : Bool) (fl : FileLock) (a : Nat) (w : World)
    (fl1 : FileLock) (w1 : World)
    (hrun : fl.InitReadWrite ndebug a w = .ok (.ER_OS_ERROR, fl1, w1)) :
    fl1 = fl ∧ (sys_lseek w.os (w.heap a).obj.fd 0).1 < 0 ∧
      w1 = { w with os := (sys_lseek w.os (w.heap a).obj.fd 0).2 } := by
  rw [FileLock.InitReadWrite_eq] at hrun
  split at hrun
  · cases hrun
  · split at hrun
    · cases hrun
    · split at hrun
      · simp at hrun
      · split at hrun
        · rename_i hl
          simp only [Except.ok.injEq, Prod.mk.injEq, true_and] at hrun
          exact ⟨hrun.1.symm, hl, hrun.2.symm⟩
        · simp at hrun

/-- A grant on the published channel that returns ER_OS_ERROR leaves the handle,
the write channels, the descriptors and the open file descriptions as they
were. -/
theorem rideOn_failed (ndebug : Bool) (a : Nat) (fl : FileLock) (w : World)
    (fl1 : FileLock) (w1 : World) (hlive : 0 < (w.heap a).useCount)
    (hrun : rideOn ndebug a fl w = .ok (.ER_OS_ERROR, fl1, w1)) :
    fl1 = fl ∧ (sys_lseek w.os (w.heap a).obj.fd 0).1 < 0 ∧ (∀ b, w1.heap b = w.heap b) ∧
      w1.os.fdtab = w.os.fdtab ∧ w1.os.files = w.os.files := by
  unfold rideOn at hrun
  cases hres : fl.InitReadWrite ndebug a (sp_copy (some a) (sp_copy (some a) w)) with
  | error e => rw [hres] at hrun; cases hrun
  | ok r =>
    obtain ⟨st1, fl2, w2⟩ := r
    rw [hres] at hrun
    simp only [Except.ok.injEq, Prod.mk.injEq] at hrun
    obtain ⟨rfl, rfl, rfl⟩ := hrun
    obtain ⟨hfl, hl, hw⟩ := initReadWrite_failed ndebug fl a _ _ _ hres
    rw [sp_copy_obj, sp_copy_obj, sp_copy_os, sp_copy_os] at hl hw
    have hc2 : (w2.heap a).useCount = (w.heap a).useCount + 2 := by
      rw [hw]
      simp only [sp_copy_useCount, if_true]
    have e1 : (sp_reset (some a) w2).os = w2.os :=
      sp_reset_os_keep _ _ fun b hb => by cases hb; omega
    have e2 : (sp_reset (some a) (sp_reset (some a) w2)).os = (sp_reset (some a) w2).os :=
      sp_reset_os_keep _ _ fun b hb => by
        cases hb
        have := sp_reset_useCount (some a) w2 a
        simp only [if_true] at this
        omega
    have hos : (sp_reset (some a) (sp_reset (some a) w2)).os
        = (sys_lseek w.os (w.heap a).obj.fd 0).2 := by
      rw [e2, e1, hw]
    obtain ⟨h1, h2⟩ := sys_lseek_failed w.os _ hl
    refine ⟨hfl, hl, fun b => ?_, by rw [hos]; exact h1, by rw [hos]; exact h2⟩
    have hobj : ((sp_reset (some a) (sp_reset (some a) w2)).heap b).obj = (w.heap b).obj := by
      rw [sp_reset_obj, sp_reset_obj, hw]
      exact (sp_copy_obj (some a) (sp_copy (some a) w) b).trans (sp_copy_obj (some a) w b)
    have hcnt : ((sp_reset (some a) (sp_reset (some a) w2)).heap b).useCount
        = (w.heap b).useCount := by
      rw [sp_reset_useCount, sp_reset_useCount, hw]
      simp only [sp_copy_useCount]
      split <;> omega
    cases hx : (sp_reset (some a) (sp_reset (some a) w2)).heap b with
    | mk o c =>
      cases hy : w.heap b with
      | mk o2 c2 =>
        rw [hx] at hobj hcnt
        rw [hy] at hobj hcnt
        simp only at hobj hcnt
        rw [hobj, hcnt]

/-! ## The directory loop: one iteration per slash -/

theorem findIdx_count (c : Char) (l : List Char) (j : Nat) (h : findIdx c l = some j) :
    l.count c = (l.drop (j + 1)).count c + 1 := by
  induction l generalizing j with
  | nil => simp [findIdx] at h
  | cons x t ih =>
    simp only [findIdx] at h
    split at h
    · rename_i hx
      simp only [Option.some.injEq] at h
      subst h
      simp [hx]
    · rename_i hx
      cases hk : findIdx c t with
      | none => simp [hk] at h
      | some i =>
        simp only [hk, Option.map_some', Option.some.injEq] at h
        subst h
        have := ih i hk
        rw [List.count_cons_of_ne (fun e => hx e.symm)]
        simpa using this

theorem findIdx_count_none (c : Char) (l : List Char) (h : findIdx c l = none) :
    l.count c = 0 := by
  induction l with
  | nil => rfl
  | cons x t ih =>
    simp only [findIdx] at h
    split at h
    · cases h
    · rename_i hx
      have ht : findIdx c t = none := by
        cases hk : findIdx c t with
        | none => rfl
        | some j => simp [hk] at h
      rw [List.count_cons_of_ne (fun e => hx e.symm)]
      exact ih ht

/-- The slash found is one of the slashes left, and none lies before it. -/
theorem slashesFrom_found (s : List Char) (b e : Nat) (h : findFrom s '/' b = some e) :
    slashesFrom s b = slashesFrom s (e + 1) + 1 := by
  unfold findFrom at h
  cases hk : findIdx '/' (s.drop b) with
  | none => simp [hk] at h
  | some j =>
    simp only [hk, Option.map_some', Option.some.injEq] at h
    subst h
    have := findIdx_count '/' _ j hk
    rw [List.drop_drop] at this
    unfold slashesFrom
    rw [this, show b + (j + 1) = j + b + 1 by omega]

theorem slashesFrom_none (s : List Char) (b : Nat) (h : findFrom s '/' b = none) :
    slashesFrom s b = 0 := by
  unfold findFrom at h
  cases hk : findIdx '/' (s.drop b) with
  | some j => simp [hk] at h
  | none => exact findIdx_count_none '/' _ hk

/-- The loop with fuel left, unfolded once. -/
theorem createDirs_succ (s : List Char) (m : Nat) (fuel b : Nat) (os : OS) :
    FileSink.createDirs s m (fuel + 1) b os =
      match findFrom s '/' b with
      | none => .ok (true, os)
      | some e =>
        if b = e then FileSink.createDirs s m fuel (b + 1) os
        else if (sys_stat os (String.mk (s.take e))).1 < 0 then
          if (sys_mkdir (sys_stat os (String.mk (s.take e))).2 (String.mk (s.take e)) m).1 < 0 then
            .ok (false,
              (sys_mkdir (sys_stat os (String.mk (s.take e))).2 (String.mk (s.take e)) m).2)
          else FileSink.createDirs s m fuel (e + 1)
            (sys_mkdir (sys_stat os (String.mk (s.take e))).2 (String.mk (s.take e)) m).2
        else FileSink.createDirs s m fuel (e + 1) (sys_stat os (String.mk (s.take e))).2 := by
  rw [FileSink.createDirs]

/-- One iteration of the loop: it ends the loop, or goes on right after the slash
it found. -/
theorem createDirs_iteration (s : List Char) (m : Nat) (fuel b : Nat) (os : OS) :
    (findFrom s '/' b = none → FileSink.createDirs s m (fuel + 1) b os = .ok (true, os)) ∧
    (∀ e, findFrom s '/' b = some e →
      ∃ os1, FileSink.createDirs s m (fuel + 1) b os = .ok (false, os1) ∨
        FileSink.createDirs s m (fuel + 1) b os = FileSink.createDirs s m fuel (e + 1) os1) := by
  constructor
  · intro h
    rw [createDirs_succ, h]
  · intro e h
    rw [createDirs_succ, h]
    simp only
    by_cases hbe : b = e
    · rw [if_pos hbe, hbe]
      exact ⟨os, Or.inr rfl⟩
    · rw [if_neg hbe]
      by_cases h1 : (sys_stat os (String.mk (s.take e))).1 < 0
      · rw [if_pos h1]
        by_cases h2 : (sys_mkdir (sys_stat os (String.mk (s.take e))).2
            (String.mk (s.take e)) m).1 < 0
        · rw [if_pos h2]
          exact ⟨_, Or.inl rfl⟩
        · rw [if_neg h2]
          exact ⟨_, Or.inr rfl⟩
      · rw [if_neg h1]
        exact ⟨_, Or.inr rfl⟩

/-- With one unit of fuel for every slash left (and one for the exit) the loop
returns, and more fuel does not change what it returns. -/
theorem createDirs_fuel (s : List Char) (m : Nat) (k : Nat) :
    ∀ (b : Nat) (os : OS) (fuel : Nat), slashesFrom s b = k → k + 1 ≤ fuel →
      ∃ r os1, FileSink.createDirs s m fuel b os = .ok (r, os1) ∧
        FileSink.createDirs s m (k + 1) b os = .ok (r, os1) := by
  induction k with
  | zero =>
    intro b os fuel hk hf
    obtain ⟨f, rfl⟩ : ∃ f, fuel = f + 1 := ⟨fuel - 1, by omega⟩
    cases hfind : findFrom s '/' b with
    | some e =>
      have := slashesFrom_found s b e hfind
      omega
    | none =>
      exact ⟨true, os, (createDirs_iteration s m f b os).1 hfind,
        (createDirs_iteration s m 0 b os).1 hfind⟩
  | succ k ih =>
    intro b os fuel hk hf
    obtain ⟨f, rfl⟩ : ∃ f, fuel = f + 1 := ⟨fuel - 1, by omega⟩
    cases hfind : findFrom s '/' b with
    | none =>
      exact ⟨true, os, (createDirs_iteration s m f b os).1 hfind,
        (createDirs_iteration s m (k + 1) b os).1 hfind⟩
    | some e =>
      have hs := slashesFrom_found s b e hfind
      have hnext := fun os1 => ih (e + 1) os1 f (by omega) (by omega)
      unfold FileSink.createDirs
      rw [hfind]
      simp only
      split
      · rename_i hbe
        rw [hbe]
        exact hnext os
      · split
        · split
          · exact ⟨_, _, rfl, rfl⟩
          · exact hnext _
        · exact hnext _

/-! ## Timestamps -/

theorem toUInt64_of_fits (x : Int) (h0 : 0 ≤ x) (h1 : x < 2 ^ 64) : toUInt64 x = x.toNat := by
  unfold toUInt64
  rw [Int.emod_eq_of_lt h0 h1]

/-- Two successive calls of GetTimestamp64 once `s_clockOffset` is set (it is not
0 and not later than the readings): the value does not go down, as long as the
milliseconds since the offset fit into 64 bits. -/
theorem getTimestamp64_monotone (off : Int) (t1 t2 : Timespec) (hoff : off ≠ 0)
    (h1 : off ≤ t1.tv_sec) (hle : t1.notAfter t2)
    (hn1 : 0 ≤ t1.tv_nsec ∧ t1.tv_nsec < 1000000000)
    (hn2 : 0 ≤ t2.tv_nsec ∧ t2.tv_nsec < 1000000000)
    (hfit : (t2.tv_sec - off) * 1000 + 999 < 2 ^ 64) :
    (GetTimestamp64 off t1).2 = off ∧
    (GetTimestamp64 off t1).1 ≤ (GetTimestamp64 (GetTimestamp64 off t1).2 t2).1 := by
  have hne : ¬ (0 = off) := fun e => hoff e.symm
  unfold Timespec.notAfter at hle
  simp only [GetTimestamp64, if_neg hne, true_and]
  rw [toUInt64_of_fits (t1.tv_sec - off) (by omega) (by omega),
    toUInt64_of_fits (t2.tv_sec - off) (by omega) (by omega),
    toUInt64_of_fits t1.tv_nsec hn1.1 (by omega), toUInt64_of_fits t2.tv_nsec hn2.1 (by omega)]
  obtain ⟨a1, ha1⟩ := Int.eq_ofNat_of_zero_le (show 0 ≤ t1.tv_sec - off by omega)
  obtain ⟨a2, ha2⟩ := Int.eq_ofNat_of_zero_le (show 0 ≤ t2.tv_sec - off by omega)
  obtain ⟨n1, hm1⟩ := Int.eq_ofNat_of_zero_le hn1.1
  obtain ⟨n2, hm2⟩ := Int.eq_ofNat_of_zero_le hn2.1
  rw [ha1, ha2, hm1, hm2]
  simp only [Int.toNat_ofNat]
  have hfit2 : a2 * 1000 + 999 < 2 ^ 64 := by
    rw [ha2] at hfit
    exact_mod_cast hfit
  have hord : a1 < a2 ∨ (a1 = a2 ∧ n1 ≤ n2) := by omega
  have hq1 : n1 / 1000000 ≤ 999 := by omega
  have hq2 : n2 / 1000000 ≤ 999 := by omega
  have hle12 : a1 ≤ a2 := by omega
  rw [Nat.mod_eq_of_lt (show a1 * 1000 < 2 ^ 64 by omega),
    Nat.mod_eq_of_lt (show a2 * 1000 < 2 ^ 64 by omega),
    Nat.mod_eq_of_lt (show a1 * 1000 + n1 / 1000000 < 2 ^ 64 by omega),
    Nat.mod_eq_of_lt (show a2 * 1000 + n2 / 1000000 < 2 ^ 64 by omega)]
  rcases hord with h | ⟨h, hn⟩
  · omega
  · have := Nat.div_le_div_right (c := 1000000) hn
    omega

/-- The first call sets `s_clockOffset` to the seconds of its reading. -/
theorem getTimestamp64_first (t : Timespec) :
    GetTimestamp64 0 t = GetTimestamp64 t.tv_sec t ∧ (GetTimestamp64 0 t).2 = t.tv_sec := by
  by_cases h : t.tv_sec = 0
  · simp [GetTimestamp64, h]
  · have hne : ¬ (0 = t.tv_sec) := fun e => h e.symm
    simp [GetTimestamp64, hne]

/-- The first two calls, when the first reading is past second 0: the value does
not go down. -/
theorem getTimestamp64_monotone_start (t1 t2 : Timespec) (hpos : 0 < t1.tv_sec)
    (hle : t1.notAfter t2)
    (hn1 : 0 ≤ t1.tv_nsec ∧ t1.tv_nsec < 1000000000)
    (hn2 : 0 ≤ t2.tv_nsec ∧ t2.tv_nsec < 1000000000)
    (hfit : (t2.tv_sec - t1.tv_sec) * 1000 + 999 < 2 ^ 64) :
    (GetTimestamp64 0 t1).1 ≤ (GetTimestamp64 (GetTimestamp64 0 t1).2 t2).1 := by
  rw [(getTimestamp64_first t1).1]
  exact (getTimestamp64_monotone t1.tv_sec t1 t2 (by omega) (le_refl _) hle hn1 hn2 hfit).2

/-! ## The read channel attached by InitReadWrite -/

/-- The destructor of a channel leaves the other descriptors alone. -/
theorem up_reset_ofd_other (src : Option FileSource) (os : OS) (g : Int)
    (h : ∀ x, src = some x → 0 ≤ x.fd → x.fd ≠ g) : (up_reset src os).ofd g = os.ofd g := by
  cases src with
  | none => rfl
  | some x =>
    simp only [up_reset, sourceDtor_eq]
    by_cases hx : x.fd < 0
    · simp only [closeChannel, if_pos hx]
    · exact closeChannel_ofd_other _ _ _ _ _ (fun e => h x rfl (by omega) e.symm)

theorem sp_reset_ofd_other (p : Option Nat) (w : World) (g : Int)
    (h : ∀ b, p = some b → 0 ≤ w.fdOf b → w.fdOf b ≠ g) : (sp_reset p w).os.ofd g = w.os.ofd g := by
  cases p with
  | none => rfl
  | some b =>
    rw [sp_reset_os]
    split
    · rw [sinkDtor_eq]
      by_cases hx : (w.heap b).obj.fd < 0
      · simp only [closeChannel, if_pos hx]
      · exact closeChannel_ofd_other _ _ _ _ _
          (fun e => h b rfl (by unfold World.fdOf; omega) e.symm)
    · rfl

/-- The read channel that a successful InitReadWrite attaches holds the value
returned by `dup` on the descriptor of the write channel; the call is in the log.
When that `dup` succeeds the descriptor was not open before and is open, right
after the `dup`, on the open file description of the write channel; and it still
is when InitReadWrite returns, provided the descriptors of the channels the handle
held before were open. -/
theorem initReadWrite_dup (ndebug : Bool) (fl : FileLock) (a : Nat) (w : World)
    (fl1 : FileLock) (w1 : World) (hrun : fl.InitReadWrite ndebug a w = .ok (.ER_OK, fl1, w1)) :
    ∃ src, fl1.m_source = some src ∧
      src.fd = (sys_dup (sys_lseek w.os (w.fdOf a) 0).2 (w.fdOf a)).1 ∧
      Syscall.dup (w.fdOf a) src.fd ∈ w1.os.log ∧
      (0 ≤ src.fd → ∃ id, w.os.ofd (w.fdOf a) = some id ∧ w.os.ofd src.fd = none ∧
        (sys_dup (sys_lseek w.os (w.fdOf a) 0).2 (w.fdOf a)).2.ofd src.fd = some id ∧
        ((∀ x, fl.m_source = some x → 0 ≤ x.fd → ∃ i, w.os.ofd x.fd = some i) →
          (∀ b, fl.m_sink = some b → 0 ≤ w.fdOf b → ∃ i, w.os.ofd (w.fdOf b) = some i) →
          w1.os.ofd src.fd = some id)) := by
  rw [FileLock.InitReadWrite_eq] at hrun
  split at hrun
  · cases hrun
  · split at hrun
    · cases hrun
    · split at hrun
      · simp at hrun
      · split at hrun
        · simp at hrun
        · simp only [Except.ok.injEq, Prod.mk.injEq, true_and] at hrun
          obtain ⟨rfl, rfl⟩ := hrun
          have hfd : (w.heap a).obj.fd = w.fdOf a := rfl
          rw [hfd]
          refine ⟨_, rfl, rfl, ?_, fun hpos => ?_⟩
          · obtain ⟨d, hd, _⟩ := (NoLockReq.quiet_up_reset fl.m_source
              (FileSource.ctor_fdesc (w.fdOf a) (sys_lseek w.os (w.fdOf a) 0).2).2).next
              (NoLockReq.quiet_sp_assign fl.m_sink (some a)
                { w with
                  os := (up_reset fl.m_source (FileSource.ctor_fdesc (w.fdOf a)
                    (sys_lseek w.os (w.fdOf a) 0).2).2) })
            rw [hd]
            refine List.mem_append_left _ ?_
            simp only [FileSource.ctor_fdesc, sys_dup_log]
            simp
          · simp only [FileSource.ctor_fdesc] at hpos ⊢
            have htab := sys_lseek_fdtab w.os (w.fdOf a) 0
            obtain ⟨_, _, hc⟩ := sys_dup_cases (sys_lseek w.os (w.fdOf a) 0).2 (w.fdOf a)
            rcases hc with ⟨hneg, _⟩ | ⟨id, hid, hnew, hinst⟩
            · omega
            · have hfree : w.os.ofd (sys_dup (sys_lseek w.os (w.fdOf a) 0).2 (w.fdOf a)).1 = none := by
                rw [hnew, htab]
                exact ofd_firstFree w.os
              have hopen : (sys_dup (sys_lseek w.os (w.fdOf a) 0).2 (w.fdOf a)).2.ofd
                  (sys_dup (sys_lseek w.os (w.fdOf a) 0).2 (w.fdOf a)).1 = some id := by
                rw [ofd_install _ _ id hinst, if_pos hnew]
              refine ⟨id, ?_, hfree, hopen, fun h1 h2 => ?_⟩
              · rw [← ofd_congr w.os _ htab]
                exact hid
              · simp only [sp_assign]
                rw [sp_reset_ofd_other, sp_copy_os, up_reset_ofd_other, hopen]
                · intro x hx h0 e
                  obtain ⟨i, hi⟩ := h1 x hx h0
                  rw [e, hfree] at hi
                  cases hi
                · intro b hb h0 e
                  have hfb : (sp_copy (some a)
                      { w with
                        os := (up_reset fl.m_source
                          (sys_dup (sys_lseek w.os (w.fdOf a) 0).2 (w.fdOf a)).2) }).fdOf b
                      = w.fdOf b := by
                    simp only [World.fdOf]
                    rw [sp_copy_obj]
                  rw [hfb] at h0 e
                  obtain ⟨i, hi⟩ := h2 b hb h0
                  rw [e, hfree] at hi
                  cases hi

/-! ## Exclusive locks belong to write channels -/

/-- The call `close` gives no open file description the exclusive lock. -/
theorem sys_close_excl (os : OS) (fd : Int) (id : Nat)
    (h : (sys_close os fd).held id = .exclusive) : os.held id = .exclusive := by
  cases hfd : os.ofd fd with
  | none =>
    rw [sys_close_closed os fd hfd] at h
    exact h
  | some id0 =>
    rw [sys_close_open os fd id0 hfd] at h
    split at h
    · exact h
    · by_cases hid : id = id0
      · subst hid
        simp [OS.held, OS.setFile, OS.record] at h
      · simpa [OS.held, OS.setFile, OS.record, Function.update_noteq hid] using h

/-- The call `flock` with LOCK_SH or LOCK_UN gives no open file description the
exclusive lock. -/
theorem sys_flock_excl (os : OS) (fd : Int) (op : FlockOp) (nb : Bool) (id : Nat)
    (hop : op ≠ .LOCK_EX) (h : (sys_flock os fd op nb).2.held id = .exclusive) :
    os.held id = .exclusive := by
  by_cases hfd : os.ofd fd = some id
  · cases op with
    | LOCK_UN =>
      rw [sys_flock_held_unlock os fd nb id hfd] at h
      cases h
    | LOCK_SH =>
      rw [sys_flock_request os fd id _ nb hfd (by decide)] at h
      split at h
      · simp [OS.held, OS.setFile, OS.record] at h
      · exact h
    | LOCK_EX => exact absurd rfl hop
  · rw [sys_flock_held_other os fd op nb id hfd] at h
    exact h

/-- The destructor of a channel gives no open file description the exclusive
lock. -/
theorem closeChannel_excl (fd : Int) (o l : Bool) (os : OS) (id : Nat)
    (h : (closeChannel fd o l os).held id = .exclusive) : os.held id = .exclusive := by
  unfold closeChannel at h
  split at h
  · exact h
  · cases o <;> cases l <;> simp only [if_true, if_false, Bool.false_eq_true] at h
    · exact h
    · exact sys_flock_excl os fd .LOCK_UN false id (by decide) h
    · exact sys_close_excl os fd id h
    · exact sys_flock_excl os fd .LOCK_UN false id (by decide) (sys_close_excl _ fd id h)

/-- The destructor of a locked channel leaves the open file description of its
descriptor without the exclusive lock. -/
theorem closeChannel_unlocked (fd : Int) (o : Bool) (os : OS) (id : Nat)
    (hfd : os.ofd fd = some id) : (closeChannel fd o true os).held id ≠ .exclusive := by
  intro h
  have h0 := ofd_nonneg os fd id hfd
  unfold closeChannel at h
  rw [if_neg (by omega)] at h
  cases o <;> simp only [if_true, if_false, Bool.false_eq_true] at h
  · rw [sys_flock_held_unlock os fd false id hfd] at h
    cases h
  · have h1 := sys_close_excl _ fd id h
    rw [sys_flock_held_unlock os fd false id hfd] at h1
    cases h1

/-- The call `open` gives no open file description the exclusive lock, and the
open file descriptions that hold it keep their file. -/
theorem sys_open_excl (os : OS) (path : String) (flags : OpenFlags) (mode : Nat) (id : Nat)
    (h : (sys_open os path flags mode).2.held id = .exclusive) :
    os.held id = .exclusive ∧
      ((sys_open os path flags mode).2.files id).path = (os.files id).path := by
  rcases sys_open_cases os path flags mode with ⟨_, _, h3, _⟩ | ⟨_, _, h3, _⟩
  · exact ⟨by simpa [OS.held, h3] using h, by rw [h3]⟩
  · by_cases hid : id = os.nfiles
    · subst hid
      simp [OS.held, h3] at h
    · exact ⟨by simpa [OS.held, h3, Function.update_noteq hid] using h,
        by rw [h3, Function.update_noteq hid]⟩

theorem sys_dup_held (os : OS) (fd : Int) (id : Nat) :
    (sys_dup os fd).2.held id = os.held id := by
  simp [OS.held, (sys_dup_cases os fd).1]

/-- The FileSink constructor gives no open file description the exclusive lock,
and the open file descriptions that hold it keep their file. -/
theorem SinkCtorPost.excl {name : String} {os os1 : OS} {obj : FileSink}
    (hpost : SinkCtorPost name os obj os1) (id : Nat) (h : os1.held id = .exclusive) :
    os.held id = .exclusive ∧ (os1.files id).path = (os.files id).path := by
  rcases hpost.result with ⟨_, _, h3, _⟩ | ⟨_, _, h3, _⟩
  · exact ⟨by simpa [OS.held, h3] using h, by rw [h3]⟩
  · by_cases hid : id = os.nfiles
    · subst hid
      simp [OS.held, h3] at h
    · exact ⟨by simpa [OS.held, h3, Function.update_noteq hid] using h,
        by rw [h3, Function.update_noteq hid]⟩

/-- The open file description of a valid channel built by the FileSink
constructor was opened on the file name given. -/
theorem SinkCtorPost.named {name : String} {os os1 : OS} {obj : FileSink}
    (hpost : SinkCtorPost name os obj os1) (hfd : 0 ≤ obj.fd) :
    (os1.files os.nfiles).path = name := by
  rcases hpost.result with ⟨h1, _⟩ | ⟨_, _, h3, _⟩
  · omega
  · rw [h3]
    simp

/-! The calls other than `open` leave every open file description on its file. -/

theorem sys_close_files_path (os : OS) (fd : Int) (id : Nat) :
    ((sys_close os fd).files id).path = (os.files id).path := by
  cases hfd : os.ofd fd with
  | none => rw [sys_close_closed os fd hfd]; rfl
  | some id0 =>
    rw [sys_close_open os fd id0 hfd]
    split
    · rfl
    · by_cases hid : id = id0
      · subst hid
        simp
      · simp [Function.update_noteq hid]

theorem sys_flock_files_path (os : OS) (fd : Int) (op : FlockOp) (nb : Bool) (id : Nat) :
    ((sys_flock os fd op nb).2.files id).path = (os.files id).path := by
  cases hfd : os.ofd fd with
  | none => rw [sys_flock_closed os fd op nb hfd]; rfl
  | some id0 =>
    have hupd : ∀ (o : OS) (hd : Held) (c : Syscall), o.files = os.files →
        (((o.setFile id0 { os.files id0 with held := hd }).record c).files id).path
          = (os.files id).path := by
      intro o hd c ho
      by_cases hid : id = id0
      · subst hid
        simp
      · simp [Function.update_noteq hid, ho]
    cases op with
    | LOCK_UN =>
      rw [sys_flock_unlock os fd id0 nb hfd]
      exact hupd os _ _ rfl
    | LOCK_SH =>
      rw [sys_flock_request os fd id0 _ nb hfd (by decide)]
      split
      · exact hupd _ _ _ rfl
      · rfl
    | LOCK_EX =>
      rw [sys_flock_request os fd id0 _ nb hfd (by decide)]
      split
      · exact hupd _ _ _ rfl
      · rfl

theorem closeChannel_files_path (fd : Int) (o l : Bool) (os : OS) (id : Nat) :
    ((closeChannel fd o l os).files id).path = (os.files id).path := by
  unfold closeChannel
  split
  · rfl
  · cases o <;> cases l <;>
      simp only [if_true, if_false, Bool.false_eq_true, sys_close_files_path,
        sys_flock_files_path]

theorem sys_lseek_files_path (os : OS) (fd : Int) (off : Nat) (id : Nat) :
    ((sys_lseek os fd off).2.files id).path = (os.files id).path := by
  unfold sys_lseek
  cases h : os.ofd fd with
  | none => rfl
  | some id0 =>
    simp only
    split
    · by_cases hid : id = id0
      · subst hid; simp
      · simp [Function.update_noteq hid]
    · rfl

theorem sys_dup_files_path (os : OS) (fd : Int) (id : Nat) :
    ((sys_dup os fd).2.files id).path = (os.files id).path := by
  rw [(sys_dup_cases os fd).1]

section OwnedPrims

variable {ι : Type} {w : World} {srcs : ι → Option FileSource} {own : ι → Prop} {ex : Option Nat}
  {file : String}

/-- A step that gives no open file description the exclusive lock, and that keeps
every locked write channel whose open file description still holds it. -/
theorem World.Owned.transfer {w1 : World} (e : w.Owned file)
    (hheld : ∀ id, w1.os.held id = .exclusive →
      w.os.held id = .exclusive ∧ (w1.os.files id).path = (w.os.files id).path)
    (hkeep : ∀ a id, w.live a → (w.heap a).obj.locked = true → w.os.ofd (w.fdOf a) = some id →
      w1.os.held id = .exclusive →
      w1.live a ∧ (w1.heap a).obj.locked = true ∧ w1.os.ofd (w1.fdOf a) = some id) :
    w1.Owned file := by
  intro id hid
  obtain ⟨hh, hp⟩ := hheld id hid
  obtain ⟨hf, a, ha, hl, hofd⟩ := e id hh
  exact ⟨hp.trans hf, a, hkeep a id ha hl hofd hid⟩

theorem World.Owned.after_os (e : w.Owned file) (os1 : OS)
    (hheld : ∀ id, os1.held id = .exclusive →
      w.os.held id = .exclusive ∧ (os1.files id).path = (w.os.files id).path)
    (hofd : ∀ a id, w.live a → w.os.ofd (w.fdOf a) = some id → os1.ofd (w.fdOf a) = some id) :
    World.Owned { w with os := os1 } file :=
  e.transfer hheld (fun a id ha hl ho _ => ⟨ha, hl, hofd a id ha ho⟩)

theorem World.Owned.after_extend (e : w.Owned file) (os1 : OS) (he : Extends w.os os1)
    (hheld : ∀ id, os1.held id = .exclusive →
      w.os.held id = .exclusive ∧ (os1.files id).path = (w.os.files id).path) :
    World.Owned { w with os := os1 } file :=
  e.after_os os1 hheld (fun _ _ _ ho => he.ofd _ _ ho)

theorem World.Owned.after_sp_copy (e : w.Owned file) (p : Option Nat) : (sp_copy p w).Owned file := by
  cases p with
  | none => exact e
  | some a =>
    rw [sp_copy_eq]
    refine e.transfer (fun id h => ⟨h, rfl⟩) (fun b id hb hl ho _ => ?_)
    refine ⟨?_, by simpa using hl, by simpa using ho⟩
    simp only [World.live, setCount_useCount] at hb ⊢
    split
    · omega
    · exact hb

theorem World.Owned.after_closeChannel (e : w.Owned file) (fd : Int) (o l : Bool)
    (hsink : ∀ a, w.live a → w.fdOf a ≠ fd) :
    World.Owned { w with os := closeChannel fd o l w.os } file :=
  e.after_os _ (fun id h => ⟨closeChannel_excl fd o l w.os id h, closeChannel_files_path fd o l w.os id⟩) (fun a id ha ho => by
    rw [closeChannel_ofd_other fd o l w.os _ (hsink a ha)]
    exact ho)

/-- A shared pointer is dropped: if it was the last one, the destructor unlocks
the open file description of the channel. -/
theorem World.Owned.after_sp_reset (e : w.Owned file) (h : WInv w srcs own ex) (p : Option Nat) :
    (sp_reset p w).Owned file := by
  cases p with
  | none => exact e
  | some a =>
    rw [sp_reset_eq]
    by_cases h1 : (w.heap a).useCount = 1
    · rw [if_pos h1, sinkDtor_eq]
      have ha : w.live a := by simp only [World.live]; omega
      refine e.transfer
        (fun id hid => ⟨closeChannel_excl _ _ _ w.os id hid, closeChannel_files_path _ _ _ w.os id⟩)
        (fun b id hb hl ho hx => ?_)
      by_cases hba : b = a
      · exfalso
        subst hba
        simp only at hx
        rw [hl] at hx
        exact closeChannel_unlocked _ _ w.os id ho hx
      · refine ⟨?_, by simpa using hl, ?_⟩
        · simp only [World.live, setCount_useCount, if_neg hba]
          exact hb
        · simp only [World.fdOf, setCount_obj]
          have hne : (w.heap b).obj.fd ≠ (w.heap a).obj.fd :=
            fun eq => hba (h.fd_inj b a hb ha eq)
          rw [closeChannel_ofd_other _ _ _ w.os _ hne]
          exact ho
    · rw [if_neg h1]
      refine e.transfer (fun id hid => ⟨hid, rfl⟩) (fun b id hb hl ho _ => ?_)
      refine ⟨?_, by simpa using hl, by simp only [World.fdOf, setCount_obj]; exact ho⟩
      simp only [World.live, setCount_useCount] at hb ⊢
      split
      · rename_i hba
        subst hba
        omega
      · exact hb

theorem World.Owned.after_up_reset (e : w.Owned file) (h : WInv w srcs own ex) (i : ι) :
    World.Owned { w with os := up_reset (srcs i) w.os } file := by
  cases hs : srcs i with
  | none => exact e
  | some s =>
    simp only [up_reset]
    rw [sourceDtor_eq]
    exact e.after_closeChannel s.fd _ _ (fun a ha eq => h.srcSink i s a hs ha eq.symm)

theorem World.Owned.after_open_source (e : w.Owned file) (name : String) :
    World.Owned { w with os := (FileSource.ctor_fileName name w.os).2 } file :=
  e.after_extend _ (Extends.of_open w.os name .rdonly 0)
    (fun id h => sys_open_excl w.os name .rdonly 0 id h)

theorem World.Owned.after_dup_source (e : w.Owned file) (fdesc : Int) :
    World.Owned { w with os := (FileSource.ctor_fdesc fdesc w.os).2 } file :=
  e.after_extend _ (Extends.of_dup w.os fdesc) (fun id h =>
    ⟨by rw [← sys_dup_held w.os fdesc id]; exact h, sys_dup_files_path w.os fdesc id⟩)

theorem World.Owned.after_lseek (e : w.Owned file) (fd : Int) (off : Nat) :
    World.Owned { w with os := (sys_lseek w.os fd off).2 } file :=
  e.after_extend _ (Extends.of_lseek w.os fd off) (fun id h =>
    ⟨by rw [← sys_lseek_held w.os fd off id]; exact h, sys_lseek_files_path w.os fd off id⟩)

theorem World.Owned.after_lock_source (e : w.Owned file) (s : FileSource) (block : Bool) :
    World.Owned { w with os := (s.Lock block w.os).2.2 } file := by
  rcases sourceLock_os s block w.os with eq | eq
  · rw [eq]
    exact e
  · rw [eq]
    exact e.after_os _ (fun id h => ⟨sys_flock_excl w.os s.fd .LOCK_SH _ id (by decide) h,
        sys_flock_files_path w.os s.fd .LOCK_SH _ id⟩)
      (fun a id _ ho => by rw [sys_flock_ofd]; exact ho)

theorem World.Owned.after_make_shared (e : w.Owned file) (h : WInv w srcs own ex) (obj : FileSink) :
    (make_shared obj w).2.Owned file := by
  refine e.transfer (fun id hid => ⟨hid, rfl⟩) (fun a id ha hl ho _ => ?_)
  have hne : a ≠ w.brk := by
    intro hab
    have := h.brk a (by omega)
    simp only [World.live] at ha
    omega
  simp only [World.live, World.fdOf, make_shared, Function.update_noteq hne]
  exact ⟨ha, hl, ho⟩

theorem World.Owned.after_deadCell (e : w.Owned file) (h : WInv w srcs own ex) (obj : FileSink) :
    World.Owned { os := w.os, heap := Function.update w.heap w.brk ⟨obj, 0⟩, brk := w.brk + 1 } file := by
  refine e.transfer (fun id hid => ⟨hid, rfl⟩) (fun a id ha hl ho _ => ?_)
  have hne : a ≠ w.brk := by
    intro hab
    have := h.brk a (by omega)
    simp only [World.live] at ha
    omega
  simp only [World.live, World.fdOf, Function.update_noteq hne]
  exact ⟨ha, hl, ho⟩

/-- A write channel that exists gets locked: its open file description is the
one that newly holds the exclusive lock. -/
theorem World.Owned.after_lockCell {b : Nat} (e : w.Owned file) (id : Nat)
    (hid : w.os.ofd (w.fdOf b) = some id) (os1 : OS) (obj : FileSink) (c : Nat)
    (hfd : obj.fd = w.fdOf b) (hl : obj.locked = true) (hc : 0 < c)
    (hofd : ∀ g, os1.ofd g = w.os.ofd g)
    (hother : ∀ j, j ≠ id → os1.held j = w.os.held j)
    (hpath : ∀ j, (os1.files j).path = (w.os.files j).path)
    (hfile : (w.os.files id).path = file) :
    World.Owned { os := os1, heap := Function.update w.heap b ⟨obj, c⟩, brk := w.brk } file := by
  intro j hj
  by_cases hji : j = id
  · subst hji
    refine ⟨(hpath j).trans hfile, b, ?_, ?_, ?_⟩
    · simpa [World.live] using hc
    · simpa using hl
    · simp only [World.fdOf, Function.update_same, hofd]
      rw [hfd]
      exact hid
  · rw [hother j hji] at hj
    obtain ⟨hf, a, ha, hla, hoa⟩ := e j hj
    have hab : a ≠ b := by
      rintro rfl
      rw [hid] at hoa
      cases hoa
      exact hji rfl
    refine ⟨(hpath j).trans hf, a, ?_, ?_, ?_⟩
    · simpa [World.live, Function.update_noteq hab] using ha
    · simpa [Function.update_noteq hab] using hla
    · simp only [World.fdOf, Function.update_noteq hab, hofd]
      exact hoa

end OwnedPrims

section OwnedHandle

variable {ι : Type} {w : World} {srcs : ι → Option FileSource} {ex : Option Nat}
  {file : String}

theorem World.Owned.after_release [DecidableEq ι] (e : w.Owned file)
    (h : WInv w srcs (fun _ => False) ex) (i : ι) (fl : FileLock) (hfl : srcs i = fl.m_source) :
    (fl.Release w).2.Owned file := by
  have h1 := h.of_up_reset i
  have e1 := e.after_up_reset h i
  rw [hfl] at h1 e1
  exact e1.after_sp_reset h1 fl.m_sink

theorem World.Owned.after_readOnlyMid [DecidableEq ι] (e : w.Owned file)
    (h : WInv w srcs (fun _ => False) ex) (i : ι) (fl : FileLock) (hfl : srcs i = fl.m_source)
    (name : String) : (readOnlyMid fl name w).Owned file := by
  have h1 := (h.toSpare i).of_open_source none name
  have e1 := e.after_open_source name
  have h2 := h1.of_up_reset (some i)
  have e2 := e1.after_up_reset h1 (some i)
  have eq2 : Function.update (withSpare srcs) none
      (some (FileSource.ctor_fileName name w.os).1) (some i) = fl.m_source := by
    simp [withSpare, hfl]
  rw [eq2] at h2 e2
  exact e2.after_sp_reset h2 fl.m_sink

theorem World.Owned.after_initReadOnly [DecidableEq ι] (e : w.Owned file)
    (h : WInv w srcs (fun _ => False) ex) (i : ι) (fl : FileLock) (hfl : srcs i = fl.m_source)
    (name : String) : (fl.InitReadOnly name w).2.2.Owned file := by
  have e3 := e.after_readOnlyMid h i fl hfl name
  rw [FileLock.InitReadOnly_eq]
  split
  · rename_i hv
    have hneg : (FileSource.ctor_fileName name w.os).1.fd < 0 := by
      simpa [FileSource.IsValid] using hv
    simp only [sourceDtor_invalid _ _ hneg]
    exact e3
  · have e4 := e3.after_lock_source (FileSource.ctor_fileName name w.os).1 true
    split
    · exact e4
    · exact e4

theorem World.Owned.after_initReadWrite [DecidableEq ι] (e : w.Owned file)
    (h : WInv w srcs (fun _ => False) ex) (i : ι)
    (fl : FileLock) (hfl : srcs i = fl.m_source) (ndebug : Bool) (a : Nat)
    (st : QStatus) (fl1 : FileLock) (w1 : World)
    (hrun : fl.InitReadWrite ndebug a w = .ok (st, fl1, w1)) : w1.Owned file := by
  rw [FileLock.InitReadWrite_eq] at hrun
  split at hrun
  · cases hrun
  · split at hrun
    · cases hrun
    · rename_i hlive
      have hla : w.live a := by simp only [World.live]; omega
      split at hrun
      · simp only [Except.ok.injEq, Prod.mk.injEq] at hrun
        obtain ⟨_, rfl, rfl⟩ := hrun
        have h1 := h.of_up_reset i
        have e1 := e.after_up_reset h i
        rw [hfl] at h1 e1
        exact e1.after_sp_reset h1 fl.m_sink
      · split at hrun
        · simp only [Except.ok.injEq, Prod.mk.injEq] at hrun
          obtain ⟨_, rfl, rfl⟩ := hrun
          exact e.after_lseek _ 0
        · simp only [Except.ok.injEq, Prod.mk.injEq] at hrun
          obtain ⟨_, rfl, rfl⟩ := hrun
          have h0 : WInv w (withSpare srcs) (fun _ => False) ex :=
            (h.toSpare i).reindex id _ _ (fun _ _ _ _ _ _ e => e) (fun _ _ e => e)
              (fun _ _ _ e => absurd e id)
          have h1 := h0.extend _ (Extends.of_lseek w.os (w.heap a).obj.fd 0)
          have e1 := e.after_lseek (w.heap a).obj.fd 0
          have h2 := h1.of_dup_source none id (w.heap a).obj.fd
          have e2 := e1.after_dup_source (w.heap a).obj.fd
          have h3 := h2.of_up_reset (some i)
          have e3 := e2.after_up_reset h2 (some i)
          have eq3 : Function.update (withSpare srcs) none
              (some (FileSource.ctor_fdesc (w.heap a).obj.fd
                (sys_lseek w.os (w.heap a).obj.fd 0).2).1) (some i) = fl.m_source := by
            simp [withSpare, hfl]
          simp only at h3 e3
          rw [eq3] at h3 e3
          have h4 := h3.of_sp_copy (some a) (fun b hb => by
            cases hb
            exact hla)
          have e4 := e3.after_sp_copy (some a)
          exact e4.after_sp_reset h4 fl.m_sink

theorem World.Owned.after_rideOn [DecidableEq ι] (e : w.Owned file)
    (h : WInv w srcs (fun _ => False) ex) (i : ι) (fl : FileLock)
    (hfl : srcs i = fl.m_source) (ndebug : Bool) (a : Nat) (hla : w.live a)
    (st : QStatus) (fl1 : FileLock) (w1 : World)
    (hrun : rideOn ndebug a fl w = .ok (st, fl1, w1)) : w1.Owned file := by
  unfold rideOn at hrun
  cases hres : fl.InitReadWrite ndebug a (sp_copy (some a) (sp_copy (some a) w)) with
  | error e => rw [hres] at hrun; cases hrun
  | ok r =>
    obtain ⟨st', fl', w'⟩ := r
    rw [hres] at hrun
    simp only [Except.ok.injEq, Prod.mk.injEq] at hrun
    obtain ⟨_, rfl, rfl⟩ := hrun
    have h1 := h.of_sp_copy (some a) (fun b hb => by cases hb; exact hla)
    have h2 := h1.of_sp_copy (some a) (fun b hb => by
      cases hb
      simp only [World.live, sp_copy_useCount] at hla ⊢
      omega)
    have e2 := (e.after_sp_copy (some a)).after_sp_copy (some a)
    have h3 := h2.of_initReadWrite i fl hfl ndebug a _ _ _ hres
    have e3 := e2.after_initReadWrite h2 i fl hfl ndebug a _ _ _ hres
    exact (e3.after_sp_reset h3 (some a)).after_sp_reset (h3.of_sp_reset (some a)) (some a)

end OwnedHandle

section OwnedAcquire

variable {ι : Type} {w : World} {srcs : ι → Option FileSource} {own : ι → Prop}

/-- AcquireWriteLock: the only exclusive lock it takes is the one of the write
channel it publishes. -/
theorem World.Owned.after_acquire (self : FileLocker) (e : w.Owned self.m_fileName)
    (h : WInv w srcs own none) (ndebug : Bool) (st : QStatus) (l : FileLocker) (w1 : World)
    (hrun : self.AcquireWriteLock ndebug w = .ok (st, l, w1)) : w1.Owned self.m_fileName := by
  have hidle : ndebug = true ∨ self.m_sink = none := by
    by_contra hn
    have h1 : ndebug = false := by
      cases ndebug
      · rfl
      · exact absurd (Or.inl rfl) hn
    have h2 : self.m_sink ≠ none := fun e => hn (Or.inr e)
    rw [h1, acquire_assert self w h2] at hrun
    cases hrun
  rw [acquire_eq_idle ndebug self w hidle] at hrun
  have h0 := h.of_sp_reset self.m_sink
  have e0 := e.after_sp_reset h self.m_sink
  generalize sp_reset self.m_sink w = w0 at hrun h0 e0
  obtain ⟨obj, os1, hctor, hpost⟩ :=
    sinkCtor_returns self.m_fileName false Mode.PRIVATE w0.os
  rw [acquire_idle ndebug { self with m_sink := none } w0 rfl obj os1 hctor hpost] at hrun
  have he := Extends.of_sinkCtor hpost
  have h1 := h0.extend os1 he
  have e1 := e0.after_extend os1 he (fun id hid => hpost.excl id hid)
  obtain ⟨hfs, hfr⟩ := h0.sinkCtor_fresh hpost
  by_cases hfd : obj.fd < 0
  · rw [if_pos hfd] at hrun
    simp only [Except.ok.injEq, Prod.mk.injEq] at hrun
    obtain ⟨_, _, rfl⟩ := hrun
    exact e1.after_deadCell h1 obj
  · have hofd := hpost.ofd_fd (by omega)
    have hreq := sys_flock_request os1 obj.fd _ .LOCK_EX false hofd (by decide)
    rw [if_neg hfd] at hrun
    by_cases hg : nextOk os1.env.flockOk = true
    · rw [if_pos hg] at hrun
      rw [if_pos hg] at hreq
      simp only [Except.ok.injEq, Prod.mk.injEq] at hrun
      obtain ⟨_, _, rfl⟩ := hrun
      have h2 := h1.of_make_shared obj hpost.ownsFd w0.os.nfiles hofd
        (fun a ha => (hfs a ha).2) (fun i s hi => (hfr i s hi).2)
      have e2 := e1.after_make_shared h1 obj
      have e3 := @World.Owned.after_lockCell _ _ w0.brk e2 w0.os.nfiles
        (by simpa [World.fdOf, make_shared] using hofd)
        (sys_flock os1 obj.fd .LOCK_EX false).2 { obj with locked := true } 1
        (by simp [World.fdOf, make_shared]) rfl (by decide)
        (fun g => sys_flock_ofd _ _ _ _ g)
        (fun j hj => sys_flock_held_other os1 obj.fd _ _ j (by
          rw [hofd]
          intro e
          cases e
          exact hj rfl))
        (fun j => sys_flock_files_path os1 obj.fd _ _ j)
        (hpost.named (by omega))
      simpa [make_shared] using e3
    · rw [if_neg hg] at hrun
      rw [if_neg hg] at hreq
      simp only [Except.ok.injEq, Prod.mk.injEq] at hrun
      obtain ⟨_, _, rfl⟩ := hrun
      have he2 : Extends os1 (sys_flock os1 obj.fd .LOCK_EX false).2 :=
        Extends.of_same_tables (sys_flock_fdtab _ _ _ _)
          (fun id => by rw [hreq]; rfl) (sys_flock_nfiles _ _ _ _)
      have h2 : WInv { w0 with os := (sys_flock os1 obj.fd .LOCK_EX false).2 } srcs own none :=
        h1.extend (sys_flock os1 obj.fd .LOCK_EX false).2 he2
      have e2 : World.Owned { w0 with os := (sys_flock os1 obj.fd .LOCK_EX false).2 }
          self.m_fileName :=
        e1.after_extend (sys_flock os1 obj.fd .LOCK_EX false).2 he2 (fun id hid =>
          ⟨by rw [hreq] at hid; exact hid, sys_flock_files_path os1 obj.fd _ _ id⟩)
      have h3 := h2.of_closeChannel obj.fd true false
        (fun a ha => (hfs a ha).1) (fun i s hi h0' => (hfr i s hi).1 h0') (by simp)
      have e3 := e2.after_closeChannel obj.fd true false (fun a ha => (hfs a ha).1)
      have hcc : closeChannel obj.fd true false (sys_flock os1 obj.fd .LOCK_EX false).2
          = sys_close (sys_flock os1 obj.fd .LOCK_EX false).2 obj.fd := by
        simp [closeChannel, hfd]
      rw [hcc] at h3 e3
      exact e3.after_deadCell h3 obj

end OwnedAcquire

section OwnedSystem

variable {n : Nat} {s : System n}

/-- Every call keeps the file name of the FileLocker, and keeps the exclusive
locks with the write channels on that file. -/
theorem System.owned_of_step (hinv : s.Inv) (e : s.w.Owned s.locker.m_fileName) (ndebug : Bool)
    (c : Call n) (r : Option QStatus) (s1 : System n) (hstep : s.step ndebug c = .ok (r, s1)) :
    s1.locker.m_fileName = s.locker.m_fileName ∧ s1.w.Owned s.locker.m_fileName := by
  cases c with
  | AcquireWriteLock =>
    simp only [System.step] at hstep
    cases hres : s.locker.AcquireWriteLock ndebug s.w with
    | error e => rw [hres] at hstep; cases hstep
    | ok res =>
      obtain ⟨st, l, w1⟩ := res
      rw [hres] at hstep
      simp only [Except.ok.injEq, Prod.mk.injEq] at hstep
      obtain ⟨_, rfl⟩ := hstep
      exact ⟨(acquire_useCount ndebug _ _ _ _ _ hres).2.1,
        World.Owned.after_acquire s.locker e hinv.world ndebug _ _ _ hres⟩
  | ReleaseWriteLock =>
    simp only [System.step, FileLocker.ReleaseWriteLock, Except.ok.injEq, Prod.mk.injEq] at hstep
    obtain ⟨_, rfl⟩ := hstep
    exact ⟨rfl, e.after_sp_reset hinv.world _⟩
  | GetFileLockForRead h =>
    simp only [System.step] at hstep
    cases hres : s.locker.GetFileLockForRead ndebug (s.locks h) s.w with
    | error e => rw [hres] at hstep; cases hstep
    | ok res =>
      obtain ⟨st, fl1, w1⟩ := res
      rw [hres] at hstep
      simp only [Except.ok.injEq, Prod.mk.injEq] at hstep
      obtain ⟨_, rfl⟩ := hstep
      refine ⟨rfl, ?_⟩
      cases hm : s.locker.m_sink with
      | none =>
        rw [getRead_none ndebug _ _ _ hm] at hres
        simp only [Except.ok.injEq] at hres
        have hw := e.after_initReadOnly hinv.world h (s.locks h) rfl s.locker.m_fileName
        rw [hres] at hw
        exact hw
      | some a =>
        rw [getRead_some ndebug _ _ _ a hm] at hres
        exact e.after_rideOn hinv.world h (s.locks h) rfl ndebug a (hinv.live_of_locker a hm)
          _ _ _ hres
  | GetFileLockForWrite h =>
    simp only [System.step] at hstep
    cases hres : s.locker.GetFileLockForWrite ndebug (s.locks h) s.w with
    | error e => rw [hres] at hstep; cases hstep
    | ok res =>
      obtain ⟨st, fl1, w1⟩ := res
      rw [hres] at hstep
      simp only [Except.ok.injEq, Prod.mk.injEq] at hstep
      obtain ⟨_, rfl⟩ := hstep
      refine ⟨rfl, ?_⟩
      cases hm : s.locker.m_sink with
      | none =>
        rw [getWrite_none ndebug _ _ _ hm] at hres
        simp only [Except.ok.injEq, Prod.mk.injEq] at hres
        obtain ⟨_, rfl, rfl⟩ := hres
        exact e
      | some a =>
        rw [getWrite_some ndebug _ _ _ a hm] at hres
        exact e.after_rideOn hinv.world h (s.locks h) rfl ndebug a (hinv.live_of_locker a hm)
          _ _ _ hres
  | Release h =>
    simp only [System.step, Except.ok.injEq, Prod.mk.injEq] at hstep
    obtain ⟨_, rfl⟩ := hstep
    exact ⟨rfl, e.after_release hinv.world h (s.locks h) rfl⟩

/-- A run keeps the file name of the FileLocker, and keeps the exclusive locks
with the write channels on that file. -/
theorem System.owned_of_run {s0 : System n} (hinv : s0.Inv) (e : s0.w.Owned s0.locker.m_fileName)
    (ndebug : Bool) (cs : List (Call n)) (rs : List (Option QStatus)) (s : System n)
    (hrun : s0.run ndebug cs = .ok (rs, s)) :
    s.locker.m_fileName = s0.locker.m_fileName ∧ s.w.Owned s0.locker.m_fileName := by
  induction cs generalizing s0 rs with
  | nil =>
    simp only [System.run, Except.ok.injEq, Prod.mk.injEq] at hrun
    obtain ⟨_, rfl⟩ := hrun
    exact ⟨rfl, e⟩
  | cons c cs ih =>
    simp only [System.run] at hrun
    cases hstep : s0.step ndebug c with
    | error e => rw [hstep] at hrun; cases hrun
    | ok res =>
      obtain ⟨r, s1⟩ := res
      rw [hstep] at hrun
      simp only at hrun
      cases hrest : System.run ndebug s1 cs with
      | error e => rw [hrest] at hrun; cases hrun
      | ok res2 =>
        obtain ⟨rs2, s2⟩ := res2
        rw [hrest] at hrun
        simp only [Except.ok.injEq, Prod.mk.injEq] at hrun
        obtain ⟨_, rfl⟩ := hrun
        obtain ⟨hn1, e1⟩ := System.owned_of_step hinv e ndebug c r s1 hstep
        rw [← hn1] at e1
        have := ih (hinv.of_step ndebug c r s1 hstep) e1 rs2 hrest
        rw [hn1] at this
        exact this

/-- A process at start holds no exclusive lock. -/
theorem System.owned_fresh (fullFileName : String) (env : Env) :
    (System.fresh n fullFileName env).w.Owned fullFileName := by
  intro id hid
  simp [System.fresh, World.fresh, OS.held] at hid

end OwnedSystem

/-! ## The claims -/

/-- C6: AcquireWriteLock on an idle FileLocker returns, in debug and in release
builds and in every environment.  Its status is ER_OK whenever the FileSink it
constructs is valid (the write-mode open succeeded), whatever the outcome of the
blocking flock that follows, and ER_EOF otherwise; no other status is returned. -/
theorem C6_acquire_idle_status (ndebug : Bool) (self : FileLocker) (w : World)
    (hidle : self.m_sink = none) :
    ∃ obj os1 locker w1,
      FileSink.ctor_fileName_truncate_mode self.m_fileName false Mode.PRIVATE w.os
        = .ok (obj, os1) ∧
      self.AcquireWriteLock ndebug w
        = .ok (if obj.IsValid then .ER_OK else .ER_EOF, locker, w1) := by
  obtain ⟨obj, os1, hctor, hpost⟩ :=
    sinkCtor_returns self.m_fileName false Mode.PRIVATE w.os
  rw [acquire_idle ndebug self w hidle obj os1 hctor hpost]
  by_cases hfd : obj.fd < 0
  · have hv : obj.IsValid = false := by simp [FileSink.IsValid, hfd]
    exact ⟨obj, os1, _, _, hctor, by rw [if_pos hfd, hv]; rfl⟩
  · have hv : obj.IsValid = true := by simp [FileSink.IsValid]; omega
    by_cases hg : nextOk os1.env.flockOk = true
    · exact ⟨obj, os1, _, _, hctor, by rw [if_neg hfd, if_pos hg, hv]; rfl⟩
    · exact ⟨obj, os1, _, _, hctor, by rw [if_neg hfd, if_neg hg, hv]; rfl⟩

/-- Witness of C6: a new FileLocker in an environment whose flock request is refused. -/
theorem C6_acquire_idle_status_witness :
    (FileLocker.ctor "ks").m_sink = none ∧
    ∃ obj os1 locker w1,
      FileSink.ctor_fileName_truncate_mode (FileLocker.ctor "ks").m_fileName false Mode.PRIVATE
        (World.fresh { flockOk := [false] }).os = .ok (obj, os1) ∧
      (FileLocker.ctor "ks").AcquireWriteLock false (World.fresh { flockOk := [false] })
        = .ok (if obj.IsValid then .ER_OK else .ER_EOF, locker, w1) :=
  ⟨rfl, C6_acquire_idle_status false (FileLocker.ctor "ks") (World.fresh { flockOk := [false] }) rfl⟩

/-- C7: if AcquireWriteLock on an idle FileLocker constructs a valid FileSink (the
open succeeded) and the exclusive flock is refused, it returns ER_OK with the
FileLocker as it was before the call (no write channel published, HasWriteLock
false); the channel it had allocated has use count zero, its descriptor was
closed right after the refused flock, every descriptor refers to what it referred
to before the call, and no other write channel was touched. -/
theorem C7_acquire_rollback (ndebug : Bool) (self : FileLocker) (w : World)
    (obj : FileSink) (os1 : OS) (hidle : self.m_sink = none)
    (hctor : FileSink.ctor_fileName_truncate_mode self.m_fileName false Mode.PRIVATE w.os
      = .ok (obj, os1))
    (hopen : obj.IsValid = true) (hflock : nextOk w.os.env.flockOk = false) :
    ∃ w1, self.AcquireWriteLock ndebug w = .ok (.ER_OK, self, w1) ∧
      self.HasWriteLock = false ∧
      (w1.heap w.brk).obj = obj ∧ (w1.heap w.brk).useCount = 0 ∧
      (∀ a, a ≠ w.brk → w1.heap a = w.heap a) ∧
      w1.os.ofd obj.fd = none ∧ (∀ g, w1.os.ofd g = w.os.ofd g) ∧
      w1.os.log = os1.log ++ [.flock obj.fd .LOCK_EX false (-1), .close obj.fd] := by
  obtain ⟨obj', os1', hctor', hpost⟩ :=
    sinkCtor_returns self.m_fileName false Mode.PRIVATE w.os
  rw [hctor] at hctor'
  cases hctor'
  have hfd : ¬ obj.fd < 0 := by simpa [FileSink.IsValid] using hopen
  have hofd := hpost.ofd_fd (by omega)
  have hg : ¬ nextOk os1.env.flockOk = true := by rw [hpost.flockOk, hflock]; simp
  rw [acquire_idle ndebug self w hidle obj os1 hctor hpost, if_neg hfd, if_neg hg]
  refine ⟨_, rfl, by simp [FileLocker.HasWriteLock, hidle], by simp, by simp, ?_, ?_, ?_, ?_⟩
  · intro a ha
    simp [Function.update_noteq ha]
  · simp [sys_close_ofd]
  · intro g
    rw [sys_close_ofd, sys_flock_ofd]
    by_cases hgf : g = obj.fd
    · rw [if_pos hgf, hgf, hpost.ofd_fresh]
    · rw [if_neg hgf, hpost.ofd_other g hgf]
  · have hret : (sys_flock os1 obj.fd .LOCK_EX false).1 = -1 := by
      rw [sys_flock_request os1 obj.fd _ .LOCK_EX false hofd (by decide), if_neg hg]
    simp [sys_flock_log, hret]

/-- Witness of C7: the file opens and the flock request is refused. -/
theorem C7_acquire_rollback_witness :
    ∃ w1, (FileLocker.ctor "ks").AcquireWriteLock false (World.fresh { flockOk := [false] })
        = .ok (.ER_OK, FileLocker.ctor "ks", w1) ∧
      (FileLocker.ctor "ks").HasWriteLock = false ∧
      (w1.heap 0).obj = ⟨3, true, false⟩ ∧ (w1.heap 0).useCount = 0 ∧
      (∀ a, a ≠ 0 → w1.heap a = (World.fresh { flockOk := [false] }).heap a) ∧
      w1.os.ofd 3 = none ∧ (∀ g, w1.os.ofd g = (World.fresh { flockOk := [false] }).os.ofd g) ∧
      w1.os.log = [.openFile "ks" (.creatRdwr false) 0o600 3] ++
        [.flock 3 .LOCK_EX false (-1), .close 3] :=
  C7_acquire_rollback false (FileLocker.ctor "ks") (World.fresh { flockOk := [false] })
    ⟨3, true, false⟩
    { fdtab := [some 0, some 1, some 2, some 3],
      files := Function.update (fun _ => ⟨"/dev/tty", 0, .unlocked⟩) 3 ⟨"ks", 0, .unlocked⟩,
      nfiles := 4, log := [.openFile "ks" (.creatRdwr false) 0o600 3],
      env := { flockOk := [false] } }
    rfl rfl rfl rfl

/-- C5, at the failing input: a new FileLocker for the file "ks" in a process at
start, in an environment where the open succeeds and the blocking exclusive flock
is refused.  AcquireWriteLock returns ER_OK and the FileLocker publishes no write
channel afterwards (HasWriteLock is false): the flock was refused and the
descriptor closed again. -/
theorem C5_acquire_ok_without_lock :
    System.outcome ((System.fresh 0 "ks" { flockOk := [false] }).run false [.AcquireWriteLock])
      = .ok ([some .ER_OK], none) ∧
    (∃ w1, (FileLocker.ctor "ks").AcquireWriteLock false (World.fresh { flockOk := [false] })
        = .ok (.ER_OK, FileLocker.ctor "ks", w1) ∧
      (FileLocker.ctor "ks").HasWriteLock = false ∧
      w1.os.log = [.openFile "ks" (.creatRdwr false) 0o600 3,
        .flock 3 .LOCK_EX false (-1), .close 3]) :=
  ⟨rfl, _, rfl, rfl, rfl⟩

/-- C8, counterexample: in a release build, a FileLocker that publishes the write
channel at address 0 calls AcquireWriteLock again and the open fails: the call
returns ER_EOF and the write-channel reference, non-null before, is null after. -/
theorem C8_counterexample :
    System.outcome ((System.fresh 0 "ks" { openOk := [true, false] }).run true
        [.AcquireWriteLock]) = .ok ([some .ER_OK], some 0) ∧
    System.outcome ((System.fresh 0 "ks" { openOk := [true, false] }).run true
        [.AcquireWriteLock, .AcquireWriteLock]) = .ok ([some .ER_OK, some .ER_EOF], none) :=
  ⟨rfl, rfl⟩

/-- C8, amended: for every FileLocker that publishes no write channel, in debug and
in release builds, if the FileSink constructed by AcquireWriteLock is not valid
(the open failed), AcquireWriteLock returns ER_EOF, the FileLocker is as it was
before the call (its write-channel reference is still null), no descriptor was
opened and no other write channel was touched. -/
theorem C8_open_failure (ndebug : Bool) (self : FileLocker) (w : World)
    (obj : FileSink) (os1 : OS) (hidle : self.m_sink = none)
    (hctor : FileSink.ctor_fileName_truncate_mode self.m_fileName false Mode.PRIVATE w.os
      = .ok (obj, os1))
    (hfail : obj.IsValid = false) :
    ∃ w1, self.AcquireWriteLock ndebug w = .ok (.ER_EOF, self, w1) ∧
      w1.os.fdtab = w.os.fdtab ∧ (w1.heap w.brk).useCount = 0 ∧
      (∀ a, a ≠ w.brk → w1.heap a = w.heap a) := by
  obtain ⟨obj', os1', hctor', hpost⟩ :=
    sinkCtor_returns self.m_fileName false Mode.PRIVATE w.os
  rw [hctor] at hctor'
  cases hctor'
  have hfd : obj.fd < 0 := by simpa [FileSink.IsValid] using hfail
  rw [acquire_idle ndebug self w hidle obj os1 hctor hpost, if_pos hfd]
  refine ⟨_, rfl, ?_, by simp, ?_⟩
  · rcases hpost.result with ⟨_, h2, _, _⟩ | ⟨h1, _, _, _⟩
    · exact h2
    · omega
  · intro a ha
    simp [Function.update_noteq ha]

/-- Witness of C8: a new FileLocker in an environment where the open fails. -/
theorem C8_open_failure_witness :
    ∃ w1, (FileLocker.ctor "ks").AcquireWriteLock false (World.fresh { openOk := [false] })
        = .ok (.ER_EOF, FileLocker.ctor "ks", w1) ∧
      w1.os.fdtab = (World.fresh { openOk := [false] }).os.fdtab ∧
      (w1.heap 0).useCount = 0 ∧
      (∀ a, a ≠ 0 → w1.heap a = (World.fresh { openOk := [false] }).heap a) :=
  C8_open_failure false (FileLocker.ctor "ks") (World.fresh { openOk := [false] })
    ⟨-1, true, false⟩
    { fdtab := [some 0, some 1, some 2],
      files := fun _ => ⟨"/dev/tty", 0, .unlocked⟩,
      nfiles := 3, log := [.openFile "ks" (.creatRdwr false) 0o600 (-1)],
      env := { openOk := [] } }
    rfl rfl rfl

/-- C2, counterexample: in a release build a FileLocker acquires the write lock
(channel 0 is published) and, without releasing it, calls AcquireWriteLock again:
the second call returns ER_OK, the FileLocker now publishes another channel
(address 1), and the channel that was active has been destroyed. -/
theorem C2_counterexample :
    System.outcome ((System.fresh 0 "ks" {}).run true [.AcquireWriteLock])
      = .ok ([some .ER_OK], some 0) ∧
    ∃ s, (System.fresh 0 "ks" {}).run true [.AcquireWriteLock, .AcquireWriteLock]
        = .ok ([some .ER_OK, some .ER_OK], s) ∧
      s.locker.m_sink = some 1 ∧ (s.w.heap 0).useCount = 0 ∧
      s.w.os.log = [.openFile "ks" (.creatRdwr false) 0o600 3, .flock 3 .LOCK_EX false 0,
        .flock 3 .LOCK_UN false 0, .close 3,
        .openFile "ks" (.creatRdwr false) 0o600 3, .flock 3 .LOCK_EX false 0] :=
  ⟨rfl, _, rfl, rfl, rfl, rfl⟩

/-- C2, amended: on a FileLocker that publishes a write channel, a further
AcquireWriteLock call does not return in a build with assertions (QCC_ASSERT
fires; the state is not touched); with assertions compiled out it drops the
FileLocker's pointer to the published channel and then behaves as on an idle
FileLocker: it returns ER_OK or ER_EOF, and afterwards the FileLocker publishes
either nothing or the one channel newly allocated by this call. -/
theorem C2_second_acquire (self : FileLocker) (w : World) (a : Nat)
    (hactive : self.m_sink = some a) :
    self.AcquireWriteLock false w = .error .assertFailed ∧
    self.AcquireWriteLock true w =
      FileLocker.AcquireWriteLock true { self with m_sink := none } (sp_reset (some a) w) ∧
    ∃ st locker w1, self.AcquireWriteLock true w = .ok (st, locker, w1) ∧
      (st = .ER_OK ∨ st = .ER_EOF) ∧ (locker.m_sink = none ∨ locker.m_sink = some w.brk) := by
  have h2 : self.AcquireWriteLock true w =
      FileLocker.AcquireWriteLock true { self with m_sink := none } (sp_reset (some a) w) := by
    simp [FileLocker.AcquireWriteLock, hactive]
  refine ⟨by simp [FileLocker.AcquireWriteLock, hactive], h2, ?_⟩
  rw [h2]
  obtain ⟨obj, os1, hctor, hpost⟩ :=
    sinkCtor_returns self.m_fileName false Mode.PRIVATE (sp_reset (some a) w).os
  rw [acquire_idle true { self with m_sink := none } (sp_reset (some a) w) rfl obj os1 hctor hpost]
  by_cases hfd : obj.fd < 0
  · exact ⟨_, _, _, by rw [if_pos hfd], Or.inr rfl, Or.inl rfl⟩
  · by_cases hg : nextOk os1.env.flockOk = true
    · exact ⟨_, _, _, by rw [if_neg hfd, if_pos hg], Or.inl rfl, Or.inr (by simp)⟩
    · exact ⟨_, _, _, by rw [if_neg hfd, if_neg hg], Or.inl rfl, Or.inl rfl⟩

/-- Witness of C2: the FileLocker of the example state, which publishes channel 0,
acquires again. -/
theorem C2_second_acquire_witness :
    System.activeExample.locker.m_sink = some 0 ∧
    System.activeExample.locker.AcquireWriteLock false System.activeExample.w
      = .error .assertFailed ∧
    System.activeExample.locker.AcquireWriteLock true System.activeExample.w =
      FileLocker.AcquireWriteLock true { System.activeExample.locker with m_sink := none }
        (sp_reset (some 0) System.activeExample.w) ∧
    ∃ st locker w1, System.activeExample.locker.AcquireWriteLock true System.activeExample.w
        = .ok (st, locker, w1) ∧
      (st = .ER_OK ∨ st = .ER_EOF) ∧
      (locker.m_sink = none ∨ locker.m_sink = some System.activeExample.w.brk) :=
  ⟨rfl, C2_second_acquire System.activeExample.locker System.activeExample.w 0 rfl⟩

/-- C3, counterexample: the FileLocker has acquired the write lock (its write
channel, address 0, is active) and the rewind of the channel fails in the
GetFileLockForRead that follows: the call returns ER_OS_ERROR and the handle is
left as it was, with no sink, so its sink is not the channel of the FileLocker. -/
theorem C3_counterexample :
    ∃ s, (System.fresh 1 "ks" { lseekOk := [false] }).run false
        [.AcquireWriteLock, .GetFileLockForRead 0]
        = .ok ([some .ER_OK, some .ER_OS_ERROR], s) ∧
      s.locker.m_sink = some 0 ∧ (s.locks 0).GetSink = none :=
  ⟨_, rfl, rfl, rfl⟩

/-- C3, amended: on a FileLocker that publishes a (live) write channel,
GetFileLockForRead requests no shared or exclusive flock, whatever it returns.  A
handle it hands back with ER_OK has as its sink the very channel the FileLocker
publishes; when it returns ER_OS_ERROR the handle is as it was before the call.
When the descriptor of the channel is open and no assertion stops the call, it
returns ER_OK if the rewind of the channel succeeds and ER_OS_ERROR if it
fails. -/
theorem C3_read_rides_on_writer (ndebug : Bool) (self : FileLocker) (fl : FileLock) (w : World)
    (a : Nat) (hactive : self.m_sink = some a) (hlive : 0 < (w.heap a).useCount) :
    (∀ st fl1 w1, self.GetFileLockForRead ndebug fl w = .ok (st, fl1, w1) →
        NoLockReq w.os w1.os ∧ (st = .ER_OK → fl1.GetSink = self.m_sink) ∧
        (st = .ER_OS_ERROR → fl1 = fl)) ∧
    (∀ id, w.os.ofd (w.heap a).obj.fd = some id → (ndebug = true ∨ fl.m_sink ≠ some a) →
      ∃ fl1 w1, self.GetFileLockForRead ndebug fl w
        = .ok (if nextOk w.os.env.lseekOk then .ER_OK else .ER_OS_ERROR, fl1, w1)) := by
  constructor
  · intro st fl1 w1 h
    have hfail : st = .ER_OS_ERROR → fl1 = fl := by
      intro hst
      subst hst
      rw [getRead_some ndebug _ _ _ a hactive] at h
      exact (rideOn_failed ndebug a fl w fl1 w1 hlive h).1
    unfold FileLocker.GetFileLockForRead at h
    rw [hactive] at h
    simp only at h
    cases hres : fl.InitReadWrite ndebug a (sp_copy (some a) (sp_copy (some a) w)) with
    | error e => rw [hres] at h; cases h
    | ok r =>
      obtain ⟨st', fl', w'⟩ := r
      rw [hres] at h
      simp only [Except.ok.injEq, Prod.mk.injEq] at h
      obtain ⟨rfl, rfl, rfl⟩ := h
      obtain ⟨h1, h2⟩ := initReadWrite_ok ndebug fl a _ _ _ _ hres
      refine ⟨?_, fun hst => ?_, hfail⟩
      · simp only [sp_copy_os] at h1
        exact (h1.next (NoLockReq.quiet_sp_reset _ _)).next (NoLockReq.quiet_sp_reset _ _)
      · rw [hactive]; exact (h2 hst).1
  · intro id hofd hassert
    have hfd := ofd_nonneg _ _ _ hofd
    have hc : ¬ ((!ndebug) = true ∧ fl.m_sink = some a) := by
      rintro ⟨h1, h2⟩
      rcases hassert with h | h
      · simp [h] at h1
      · exact h h2
    unfold FileLocker.GetFileLockForRead
    rw [hactive]
    simp only
    rw [FileLock.InitReadWrite_eq, if_neg hc]
    simp only [sp_copy_copy_heap, sp_copy_os]
    rw [if_neg (by omega)]
    have hv : ¬ (!(w.heap a).obj.IsValid) = true := by simp [FileSink.IsValid, hfd]
    rw [if_neg hv, sys_lseek_open w.os _ id 0 hofd]
    by_cases hl : nextOk w.os.env.lseekOk = true
    · simp [hl]
    · simp [hl]

/-- Witness of C3: the FileLocker has acquired the write lock (channel 0, open on
descriptor 3), and an empty handle asks for a read lock. -/
theorem C3_read_rides_on_writer_witness :
    System.activeExample.locker.m_sink = some 0 ∧
    0 < (System.activeExample.w.heap 0).useCount ∧
    System.activeExample.w.os.ofd (System.activeExample.w.heap 0).obj.fd = some 3 ∧
    (∀ st fl1 w1, System.activeExample.locker.GetFileLockForRead false FileLock.empty
          System.activeExample.w = .ok (st, fl1, w1) →
        NoLockReq System.activeExample.w.os w1.os ∧
        (st = .ER_OK → fl1.GetSink = System.activeExample.locker.m_sink) ∧
        (st = .ER_OS_ERROR → fl1 = FileLock.empty)) ∧
    (∃ fl1 w1, System.activeExample.locker.GetFileLockForRead false FileLock.empty
        System.activeExample.w
        = .ok (if nextOk System.activeExample.w.os.env.lseekOk then .ER_OK else .ER_OS_ERROR,
            fl1, w1)) :=
  ⟨rfl, by decide, rfl,
    (C3_read_rides_on_writer false System.activeExample.locker FileLock.empty
      System.activeExample.w 0 rfl (by decide)).1,
    (C3_read_rides_on_writer false System.activeExample.locker FileLock.empty
      System.activeExample.w 0 rfl (by decide)).2 3 rfl (Or.inr (by decide))⟩

/-- C10, counterexample: after AcquireWriteLock, a read grant to an empty handle
returns ER_OK and leaves the handle with both pointers populated: the shared write
channel (address 0) and a read channel of its own, on descriptor 4. -/
theorem C10_counterexample :
    ∃ s, (System.fresh 1 "ks" {}).run false [.AcquireWriteLock, .GetFileLockForRead 0]
        = .ok ([some .ER_OK, some .ER_OK], s) ∧
      (s.locks 0).GetSink = some 0 ∧ (s.locks 0).GetSource = some ⟨4, true, false⟩ :=
  ⟨_, rfl, rfl, rfl⟩

/-- C10, amended: after a successful pure-read grant (InitReadOnly returns ER_OK)
the handle holds a read channel of its own, valid and locked, and no write channel;
after a successful grant on the write channel (InitReadWrite returns ER_OK) the
handle holds both the shared write channel it was given and a read channel of its
own, which owns its descriptor and is not locked.  The descriptor of that read
channel is the value returned by `dup` on the descriptor of the write channel,
and the `dup` is in the log; when the `dup` succeeds, the descriptor was not open
before, is open on the open file description of the write channel right after the
`dup`, and still is when InitReadWrite returns if the descriptors of the channels
the handle held before were open. -/
theorem C10_grant_shape (ndebug : Bool) (fl : FileLock) (fullFileName : String) (sink : Nat)
    (w : World) :
    (∀ fl1 w1, fl.InitReadOnly fullFileName w = (.ER_OK, fl1, w1) →
      fl1.m_sink = none ∧
      ∃ src, fl1.m_source = some src ∧ src.locked = true ∧ src.ownsFd = true ∧ 0 ≤ src.fd) ∧
    (∀ fl1 w1, fl.InitReadWrite ndebug sink w = .ok (.ER_OK, fl1, w1) →
      fl1.m_sink = some sink ∧
      ∃ src, fl1.m_source = some src ∧ src.locked = false ∧ src.ownsFd = true ∧
        src.fd = (sys_dup (sys_lseek w.os (w.fdOf sink) 0).2 (w.fdOf sink)).1 ∧
        Syscall.dup (w.fdOf sink) src.fd ∈ w1.os.log ∧
        (0 ≤ src.fd → ∃ id, w.os.ofd (w.fdOf sink) = some id ∧ w.os.ofd src.fd = none ∧
          (sys_dup (sys_lseek w.os (w.fdOf sink) 0).2 (w.fdOf sink)).2.ofd src.fd = some id ∧
          ((∀ x, fl.m_source = some x → 0 ≤ x.fd → ∃ i, w.os.ofd x.fd = some i) →
            (∀ b, fl.m_sink = some b → 0 ≤ w.fdOf b → ∃ i, w.os.ofd (w.fdOf b) = some i) →
            w1.os.ofd src.fd = some id))) := by
  constructor
  · intro fl1 w1 h
    rw [FileLock.InitReadOnly_eq] at h
    split at h
    · cases h
    · split at h
      · cases h
      · rename_i hv hl
        simp only [Prod.mk.injEq, true_and] at h
        obtain ⟨rfl, rfl⟩ := h
        have hgot := sourceLock_locked _ true _ (by simpa using hl)
        have hfd := sourceLock_fd (FileSource.ctor_fileName fullFileName w.os).1 true
          (readOnlyMid fl fullFileName w).os
        refine ⟨rfl, _, rfl, hgot.1, ?_, ?_⟩
        · rw [hfd.2]; rfl
        · rw [hfd.1]; exact hgot.2
  · intro fl1 w1 h
    obtain ⟨hsink, src, hsrc, hl, ho⟩ := (initReadWrite_ok ndebug fl sink w _ fl1 w1 h).2 rfl
    obtain ⟨src2, hsrc2, hfd, hlog, hopen⟩ := initReadWrite_dup ndebug fl sink w fl1 w1 h
    have e : src2 = src := by
      rw [hsrc] at hsrc2
      exact (Option.some.inj hsrc2).symm
    subst e
    exact ⟨hsink, src2, hsrc, hl, ho, hfd, hlog, hopen⟩

/-- Witness of C10: a pure-read grant to an empty handle in a process at start,
and a grant on the write channel of the example state (descriptor 3), which gives
the handle a read channel on descriptor 4, open on the same open file
description. -/
theorem C10_grant_shape_witness :
    (∃ fl1 w1, FileLock.empty.InitReadOnly "ks" (World.fresh {}) = (.ER_OK, fl1, w1) ∧
      fl1.m_sink = none ∧
      ∃ src, fl1.m_source = some src ∧ src.locked = true ∧ src.ownsFd = true ∧ 0 ≤ src.fd) ∧
    (∃ fl1 w1, FileLock.empty.InitReadWrite false 0 System.activeExample.w
        = .ok (.ER_OK, fl1, w1) ∧
      fl1.m_source = some ⟨4, true, false⟩ ∧
      System.activeExample.w.os.ofd (System.activeExample.w.fdOf 0) = some 3 ∧
      w1.os.ofd 4 = some 3 ∧
      fl1.m_sink = some 0 ∧
      ∃ src, fl1.m_source = some src ∧ src.locked = false ∧ src.ownsFd = true ∧
        src.fd = (sys_dup (sys_lseek System.activeExample.w.os
          (System.activeExample.w.fdOf 0) 0).2 (System.activeExample.w.fdOf 0)).1 ∧
        Syscall.dup (System.activeExample.w.fdOf 0) src.fd ∈ w1.os.log ∧
        (0 ≤ src.fd → ∃ id, System.activeExample.w.os.ofd (System.activeExample.w.fdOf 0)
            = some id ∧ System.activeExample.w.os.ofd src.fd = none ∧
          (sys_dup (sys_lseek System.activeExample.w.os
            (System.activeExample.w.fdOf 0) 0).2 (System.activeExample.w.fdOf 0)).2.ofd src.fd
              = some id ∧
          ((∀ x, FileLock.empty.m_source = some x → 0 ≤ x.fd →
              ∃ i, System.activeExample.w.os.ofd x.fd = some i) →
            (∀ b, FileLock.empty.m_sink = some b → 0 ≤ System.activeExample.w.fdOf b →
              ∃ i, System.activeExample.w.os.ofd (System.activeExample.w.fdOf b) = some i) →
            w1.os.ofd src.fd = some id))) :=
  ⟨⟨_, _, rfl, (C10_grant_shape false FileLock.empty "ks" 0 (World.fresh {})).1 _ _ rfl⟩,
    ⟨_, _, rfl, rfl, rfl, rfl,
      (C10_grant_shape false FileLock.empty "ks" 0 System.activeExample.w).2 _ _ rfl⟩⟩

/-- C1, counterexample: AcquireWriteLock returns ER_OK, ReleaseWriteLock is not
called, and the rewind of the write channel fails in the GetFileLockForWrite that
follows: it returns ER_OS_ERROR, which is neither ER_OK nor ER_BUS_NOT_ALLOWED. -/
theorem C1_counterexample :
    System.outcome ((System.fresh 1 "ks" { lseekOk := [false] }).run false
        [.AcquireWriteLock, .GetFileLockForWrite 0])
      = .ok ([some .ER_OK, some .ER_OS_ERROR], some 0) :=
  rfl

/-- C1, amended: take any run of calls (AcquireWriteLock, ReleaseWriteLock,
GetFileLockForRead, GetFileLockForWrite, FileLock::Release, on any handles) made
by one thread on a new FileLocker, in a debug or a release build, in which every
lock request is granted.  At its end HasWriteLock holds exactly when the latest
AcquireWriteLock or ReleaseWriteLock call is an AcquireWriteLock that returned
ER_OK.  If it does not hold, GetFileLockForWrite returns ER_BUS_NOT_ALLOWED and
changes nothing.  If it holds, GetFileLockForWrite returns ER_OK when the rewind
of the write channel succeeds and ER_OS_ERROR when it fails, except that in a
debug build the assertion fires when the handle passed in already holds the
published channel. -/
theorem C1_getWrite_status (ndebug : Bool) (n : Nat) (fullFileName : String) (env : Env)
    (cs : List (Call n)) (rs : List (Option QStatus)) (s : System n) (h : Fin n)
    (hgrant : ∀ b ∈ env.flockOk, b = true)
    (hrun : (System.fresh n fullFileName env).run ndebug cs = .ok (rs, s)) :
    s.locker.HasWriteLock = activeAfter false cs rs ∧
    (activeAfter false cs rs = false →
      s.locker.GetFileLockForWrite ndebug (s.locks h) s.w
        = .ok (.ER_BUS_NOT_ALLOWED, s.locks h, s.w)) ∧
    (activeAfter false cs rs = true →
      (ndebug = false ∧ (s.locks h).m_sink = s.locker.m_sink →
        s.locker.GetFileLockForWrite ndebug (s.locks h) s.w = .error .assertFailed) ∧
      (¬ (ndebug = false ∧ (s.locks h).m_sink = s.locker.m_sink) →
        ∃ fl1 w1, s.locker.GetFileLockForWrite ndebug (s.locks h) s.w
          = .ok (if nextOk s.w.os.env.lseekOk then .ER_OK else .ER_OS_ERROR, fl1, w1))) := by
  have hinv := (System.Inv.fresh fullFileName env).of_run ndebug cs rs s hrun
  have hact : s.locker.HasWriteLock = activeAfter false cs rs :=
    @run_hasWriteLock n (System.fresh n fullFileName env) hgrant ndebug cs rs s hrun
  refine ⟨hact, fun hf => ?_, fun ht => ?_⟩
  · rw [← hact] at hf
    have hm : s.locker.m_sink = none := by
      simpa [FileLocker.HasWriteLock] using hf
    exact getWrite_none ndebug _ _ _ hm
  · rw [← hact] at ht
    obtain ⟨a, hm⟩ : ∃ a, s.locker.m_sink = some a := by
      simpa [FileLocker.HasWriteLock, Option.isSome_iff_exists] using ht
    have hla : 0 < (s.w.heap a).useCount := by
      rw [hinv.count a]
      exact s.refCount_pos_of_locker a hm
    obtain ⟨_, id, hid⟩ := hinv.world.sink a hla
    rw [getWrite_some ndebug _ _ _ a hm, hm]
    exact rideOn_status ndebug a (s.locks h) s.w id hla hid

/-- Witness of C1: acquire, release, acquire again, then ask for the write lock
on an empty handle, in a debug build where every call succeeds. -/
theorem C1_getWrite_status_witness :
    (∀ b ∈ ({} : Env).flockOk, b = true) ∧
    (System.fresh 1 "ks" {}).run false [.AcquireWriteLock, .ReleaseWriteLock, .AcquireWriteLock]
      = .ok ([some .ER_OK, none, some .ER_OK],
          System.after false (System.fresh 1 "ks" {})
            [.AcquireWriteLock, .ReleaseWriteLock, .AcquireWriteLock]) ∧
    @activeAfter 1 false [.AcquireWriteLock, .ReleaseWriteLock, .AcquireWriteLock]
      [some .ER_OK, none, some .ER_OK] = true ∧
    ∃ fl1 w1, (System.after false (System.fresh 1 "ks" {})
          [.AcquireWriteLock, .ReleaseWriteLock, .AcquireWriteLock]).locker.GetFileLockForWrite
        false
        ((System.after false (System.fresh 1 "ks" {})
          [.AcquireWriteLock, .ReleaseWriteLock, .AcquireWriteLock]).locks 0)
        (System.after false (System.fresh 1 "ks" {})
          [.AcquireWriteLock, .ReleaseWriteLock, .AcquireWriteLock]).w
      = .ok (if nextOk (System.after false (System.fresh 1 "ks" {})
          [.AcquireWriteLock, .ReleaseWriteLock, .AcquireWriteLock]).w.os.env.lseekOk
          then .ER_OK else .ER_OS_ERROR, fl1, w1) :=
  ⟨by simp, rfl, rfl,
    ((C1_getWrite_status false 1 "ks" {}
      [.AcquireWriteLock, .ReleaseWriteLock, .AcquireWriteLock] [some .ER_OK, none, some .ER_OK]
      (System.after false (System.fresh 1 "ks" {})
        [.AcquireWriteLock, .ReleaseWriteLock, .AcquireWriteLock]) 0 (by simp) rfl).2.2 rfl).2
      (by decide)⟩

/-- C4: on a FileLocker with no active write channel, in any state that keeps the
invariant, GetFileLockForRead returns. When the read-only open fails the status is
ER_EOF and no lock was requested. When the open succeeds the status is
ER_READ_ERROR if the shared lock is refused and ER_OK if it is granted; the handle
owns a read channel on a descriptor that was not open before the call, its locked
flag is the outcome of the request, no write channel is attached, and the calls
made are some that request no lock followed by exactly one blocking LOCK_SH
request on that descriptor, which on success leaves the file shared-locked. -/
theorem C4_read_without_writer {n : Nat} (ndebug : Bool) (s : System n) (h : Fin n)
    (hinv : s.Inv) (hidle : s.locker.m_sink = none) :
    ∃ fl1 w1,
      s.locker.GetFileLockForRead ndebug (s.locks h) s.w =
        .ok (if nextOk s.w.os.env.openOk = false then .ER_EOF
             else if nextOk s.w.os.env.flockOk = false then .ER_READ_ERROR else .ER_OK,
             fl1, w1) ∧
      (nextOk s.w.os.env.openOk = false → fl1 = ⟨none, none⟩ ∧ NoLockReq s.w.os w1.os) ∧
      (nextOk s.w.os.env.openOk = true →
        s.w.os.ofd (firstFree s.w.os.fdtab : Int) = none ∧
        fl1.m_sink = none ∧
        fl1.m_source
          = some ⟨(firstFree s.w.os.fdtab : Int), true, nextOk s.w.os.env.flockOk⟩ ∧
        (∃ d, w1.os.log = s.w.os.log ++ d ++
            [.flock (firstFree s.w.os.fdtab : Int) .LOCK_SH false
              (if nextOk s.w.os.env.flockOk then 0 else -1)] ∧
          ∀ c ∈ d, c.isLockRequest = false) ∧
        ∃ id, w1.os.ofd (firstFree s.w.os.fdtab : Int) = some id ∧
          (nextOk s.w.os.env.flockOk = true → w1.os.held id = .shared)) := by
  rw [getRead_none ndebug _ _ _ hidle]
  by_cases ho : nextOk s.w.os.env.openOk = true
  · have h3 := hinv.world.of_readOnlyMid h (s.locks h) rfl s.locker.m_fileName
    have hsrc : (FileSource.ctor_fileName s.locker.m_fileName s.w.os).1
        = ⟨(firstFree s.w.os.fdtab : Int), true, false⟩ := by
      simp only [FileSource.ctor_fileName, (sys_open_ok s.w.os _ .rdonly 0 ho).1]
    obtain ⟨id, hid⟩ := h3.src none (FileSource.ctor_fileName s.locker.m_fileName s.w.os).1
      (by simp) (by rw [hsrc]; simp)
    rw [hsrc] at hid
    simp only at hid
    obtain ⟨heq, hret⟩ := initReadOnly_opened (s.locks h) s.locker.m_fileName s.w id ho hid
    obtain ⟨d, hd, hdq⟩ := readOnlyMid_quiet (s.locks h) s.locker.m_fileName s.w
    have hfl := readOnlyMid_flockOk (s.locks h) s.locker.m_fileName s.w
    have hreq := sys_flock_request _ _ id .LOCK_SH false hid (by decide)
    rw [hfl] at hreq
    refine ⟨((s.locks h).InitReadOnly s.locker.m_fileName s.w).2.1,
      ((s.locks h).InitReadOnly s.locker.m_fileName s.w).2.2, ?_,
      fun hx => absurd ho (by simp [hx]), fun _ => ?_⟩
    · rw [heq, ho]
      cases nextOk s.w.os.env.flockOk <;> simp
    rw [heq]
    refine ⟨ofd_firstFree _, rfl, rfl, ⟨d, ?_, hdq⟩, id, ?_, ?_⟩
    · simp only [hreq]
      cases nextOk s.w.os.env.flockOk <;> simp [hd]
    · simp only [hreq]
      cases nextOk s.w.os.env.flockOk <;> simpa using hid
    · intro hg
      simp only [hreq, hg, if_true]
      simp [OS.held]
  · have ho' : nextOk s.w.os.env.openOk = false := by simpa using ho
    rw [initReadOnly_unopened _ _ _ ho']
    exact ⟨⟨none, none⟩, readOnlyMid (s.locks h) s.locker.m_fileName s.w, by simp [ho'],
      fun _ => ⟨rfl, readOnlyMid_quiet _ _ _⟩, fun hx => absurd hx ho⟩

/-- Witness of C4: an empty handle asks for a read lock in a process at start where
every call succeeds; it gets ER_OK and a locked read channel on descriptor 3. -/
theorem C4_read_without_writer_witness :
    (System.fresh 1 "ks" {}).Inv ∧ (System.fresh 1 "ks" {}).locker.m_sink = none ∧
    ∃ fl1 w1,
      (System.fresh 1 "ks" {}).locker.GetFileLockForRead false
          ((System.fresh 1 "ks" {}).locks 0) (System.fresh 1 "ks" {}).w
        = .ok (.ER_OK, fl1, w1) ∧
      fl1.m_sink = none ∧ fl1.m_source = some ⟨3, true, true⟩ ∧
      ∃ d, w1.os.log = (System.fresh 1 "ks" {}).w.os.log ++ d ++ [.flock 3 .LOCK_SH false 0] ∧
        ∀ c ∈ d, c.isLockRequest = false :=
  ⟨System.Inv.fresh "ks" {}, rfl,
    (C4_read_without_writer false (System.fresh 1 "ks" {}) 0 (System.Inv.fresh "ks" {}) rfl).elim
      fun fl1 hx => hx.elim fun w1 hy =>
        ⟨fl1, w1, hy.1, (hy.2.2 rfl).2.1, (hy.2.2 rfl).2.2.1, (hy.2.2 rfl).2.2.2.1⟩⟩

/-- C9: in a well-formed state where the FileLocker publishes the write channel
`a`, ReleaseWriteLock returns, after it HasWriteLock is false, the handles are
untouched and the use count of the channel is one less.  Moreover every sequence
of ReleaseWriteLock and Release calls returns, and at its end: no pointer to the
channel is left exactly when the FileLocker and every handle that held the channel
have been released; while a pointer is left, the channel is locked, its descriptor
is open on an exclusively locked file and has been neither unlocked nor closed;
once no pointer is left, the descriptor is closed and has been unlocked exactly
once and closed exactly once. -/
theorem C9_release_refcounted {n : Nat} (ndebug : Bool) (s : System n) (a : Nat)
    (cs : List (Call n)) (hinv : s.Inv) (hown : s.locker.m_sink = some a)
    (hdrop : ∀ c ∈ cs, c.isDrop = true) :
    (∃ s1, s.step ndebug .ReleaseWriteLock = .ok (none, s1) ∧
      s1.locker.HasWriteLock = false ∧ s1.locks = s.locks ∧
      (s1.w.heap a).useCount + 1 = (s.w.heap a).useCount) ∧
    ∃ rs s1, s.run ndebug cs = .ok (rs, s1) ∧
      (s1.refCount a = 0 ↔
        Call.ReleaseWriteLock ∈ cs ∧ ∀ h, (s.locks h).m_sink = some a → Call.Release h ∈ cs) ∧
      (0 < s1.refCount a →
        (s1.w.heap a).obj.locked = true ∧
        (∃ id, s1.w.os.ofd (s.w.fdOf a) = some id ∧ s1.w.os.held id = .exclusive) ∧
        Disposed (s.w.fdOf a) 0 s.w.os s1.w.os) ∧
      (s1.refCount a = 0 →
        s1.w.os.ofd (s.w.fdOf a) = none ∧ Disposed (s.w.fdOf a) 1 s.w.os s1.w.os) := by
  have hlive : 0 < (s.w.heap a).useCount := by
    rw [hinv.count]
    exact System.refCount_pos_of_locker s a hown
  constructor
  · refine ⟨_, rfl, rfl, rfl, ?_⟩
    have := sp_reset_useCount s.locker.m_sink s.w a
    rw [if_pos hown] at this
    simp only [FileLocker.ReleaseWriteLock]
    omega
  · obtain ⟨rs, s1, hrun, hl, hk, _, hobj⟩ := drop_run_state ndebug s cs hdrop
    have hinv1 := hinv.of_run ndebug cs rs s1 hrun
    obtain ⟨hpos, hzero⟩ := drop_run_live hinv ndebug cs hdrop a hlive rs s1 hrun
    have hcnt := hinv1.count a
    have hfd : s1.w.fdOf a = s.w.fdOf a := by simp only [World.fdOf, hobj a]
    refine ⟨rs, s1, hrun, ?_, fun hp => ?_, fun hz => ?_⟩
    · unfold System.refCount
      rw [Nat.add_eq_zero_iff, Finset.card_eq_zero, Finset.filter_eq_empty_iff, hl, hown]
      constructor
      · rintro ⟨h1, h2⟩
        refine ⟨by_contra fun hc => ?_, fun h hh => by_contra fun hc => ?_⟩
        · simp [hc] at h1
        · have := h2 (Finset.mem_univ h)
          rw [hk h, if_neg hc] at this
          exact this hh
      · rintro ⟨h1, h2⟩
        refine ⟨by simp [h1], fun h _ => ?_⟩
        rw [hk h]
        by_cases hh : (s.locks h).m_sink = some a
        · simp [h2 h hh]
        · by_cases hc : Call.Release h ∈ cs
          · simp [hc]
          · simpa [hc] using hh
    · have hl1 : s1.w.live a := by unfold World.live; omega
      obtain ⟨_, id, hid⟩ := hinv1.world.sink a hl1
      obtain ⟨hlk, hheld⟩ := hinv1.world.locked a hl1 (by simp)
      rw [hfd] at hid hheld
      exact ⟨hlk, ⟨id, hid, hheld id hid⟩, hpos (by omega)⟩
    · obtain ⟨h1, h2⟩ := hzero (by omega)
      exact ⟨h2, h1⟩

/-- Witness of C9: three pointers refer to the write channel of the example state;
handle 1, the FileLocker and handle 0 drop theirs, in this order, and descriptor 3
ends up closed, unlocked once and closed once. -/
theorem C9_release_refcounted_witness :
    System.sharedExample.Inv ∧ System.sharedExample.locker.m_sink = some 0 ∧
    (∀ c ∈ ([.Release 1, .ReleaseWriteLock, .Release 0] : List (Call 2)), c.isDrop = true) ∧
    System.sharedExample.refCount 0 = 3 ∧
    ∃ rs s1,
      System.sharedExample.run false [.Release 1, .ReleaseWriteLock, .Release 0] = .ok (rs, s1) ∧
      s1.w.os.ofd 3 = none ∧ Disposed 3 1 System.sharedExample.w.os s1.w.os :=
  ⟨(System.Inv.fresh "ks" {}).of_run false
      [.AcquireWriteLock, .GetFileLockForRead 0, .GetFileLockForWrite 1]
      [some .ER_OK, some .ER_OK, some .ER_OK] _ rfl, rfl,
    by decide, by decide,
    (C9_release_refcounted false System.sharedExample 0
        [.Release 1, .ReleaseWriteLock, .Release 0]
        ((System.Inv.fresh "ks" {}).of_run false
      [.AcquireWriteLock, .GetFileLockForRead 0, .GetFileLockForWrite 1]
      [some .ER_OK, some .ER_OK, some .ER_OK] _ rfl)
        rfl (by decide)).2.elim
      fun rs hx => hx.elim fun s1 hy =>
        ⟨rs, s1, hy.1, hy.2.2.2 (hy.2.1.mpr (by decide))⟩⟩

/-- C14: Lock on a valid channel that is not locked issues exactly one flock call,
LOCK_SH for a FileSource and LOCK_EX for a FileSink, with LOCK_NB exactly when
`block` is false.  The value returned is the new locked flag, which is true
exactly when the call returned 0; nothing else of the channel changes.  On an
open descriptor the call returns 0 or -1 as the environment grants or refuses the
request, so a refused request returns false and leaves the channel unlocked. -/
theorem C14_lock_request (src : FileSource) (snk : FileSink) (block : Bool) (os : OS)
    (hsrc : 0 ≤ src.fd ∧ src.locked = false) (hsnk : 0 ≤ snk.fd ∧ snk.locked = false) :
    (∃ ret : Int, (src.Lock block os).2.2.log = os.log ++ [.flock src.fd .LOCK_SH (!block) ret] ∧
      (src.Lock block os).1 = decide (ret = 0) ∧
      (src.Lock block os).2.1 = { src with locked := decide (ret = 0) } ∧
      (∀ id, os.ofd src.fd = some id → ret = if nextOk os.env.flockOk then 0 else -1)) ∧
    (∃ ret : Int, (snk.Lock block os).2.2.log = os.log ++ [.flock snk.fd .LOCK_EX (!block) ret] ∧
      (snk.Lock block os).1 = decide (ret = 0) ∧
      (snk.Lock block os).2.1 = { snk with locked := decide (ret = 0) } ∧
      (∀ id, os.ofd snk.fd = some id → ret = if nextOk os.env.flockOk then 0 else -1)) := by
  obtain ⟨h1, h2⟩ := hsrc
  obtain ⟨h3, h4⟩ := hsnk
  constructor
  · refine ⟨(sys_flock os src.fd .LOCK_SH (!block)).1, ?_, ?_, ?_, fun id hid => ?_⟩
    · simp only [FileSource.Lock, if_neg (not_lt.mpr h1), h2, Bool.not_false, if_true]
      exact sys_flock_log _ _ _ _
    · simp only [FileSource.Lock, if_neg (not_lt.mpr h1), h2, Bool.not_false, if_true]
    · simp only [FileSource.Lock, if_neg (not_lt.mpr h1), h2, Bool.not_false, if_true]
    · rw [sys_flock_request os _ id .LOCK_SH _ hid (by decide)]
      split <;> rfl
  · refine ⟨(sys_flock os snk.fd .LOCK_EX (!block)).1, ?_, ?_, ?_, fun id hid => ?_⟩
    · simp only [FileSink.Lock, if_neg (not_lt.mpr h3), h4, Bool.not_false, if_true]
      exact sys_flock_log _ _ _ _
    · simp only [FileSink.Lock, if_neg (not_lt.mpr h3), h4, Bool.not_false, if_true]
    · simp only [FileSink.Lock, if_neg (not_lt.mpr h3), h4, Bool.not_false, if_true]
    · rw [sys_flock_request os _ id .LOCK_EX _ hid (by decide)]
      split <;> rfl

/-- Witness of C14: a read channel and a write channel on the descriptors 0 and 1
of a process at start, asked for a lock without blocking. -/
theorem C14_lock_request_witness :
    ((0 : Int) ≤ (⟨0, false, false⟩ : FileSource).fd ∧
      (⟨0, false, false⟩ : FileSource).locked = false) ∧
    ((0 : Int) ≤ (⟨1, false, false⟩ : FileSink).fd ∧
      (⟨1, false, false⟩ : FileSink).locked = false) ∧
    (∃ ret : Int, ((⟨0, false, false⟩ : FileSource).Lock false (World.fresh {}).os).2.2.log
        = (World.fresh {}).os.log ++ [.flock 0 .LOCK_SH true ret]) ∧
    (∃ ret : Int, ((⟨1, false, false⟩ : FileSink).Lock false (World.fresh {}).os).2.2.log
        = (World.fresh {}).os.log ++ [.flock 1 .LOCK_EX true ret]) :=
  ⟨⟨by decide, rfl⟩, ⟨by decide, rfl⟩,
    (C14_lock_request ⟨0, false, false⟩ ⟨1, false, false⟩ false (World.fresh {}).os
      ⟨by decide, rfl⟩ ⟨by decide, rfl⟩).1.elim fun ret h => ⟨ret, h.1⟩,
    (C14_lock_request ⟨0, false, false⟩ ⟨1, false, false⟩ false (World.fresh {}).os
      ⟨by decide, rfl⟩ ⟨by decide, rfl⟩).2.elim fun ret h => ⟨ret, h.1⟩⟩

/-- C13, counterexample: a read channel on a newly opened descriptor asks twice
for the lock; the first request is refused, the second is granted.  The two calls
issue two flock calls and end locked, one call issues one and ends unlocked, so
Lock twice is not Lock once. -/
theorem C13_counterexample :
    ((FileSource.ctor_fileName "ks" (World.fresh { flockOk := [false, true] }).os).1.Lock true
      (FileSource.ctor_fileName "ks" (World.fresh { flockOk := [false, true] }).os).2).1 = false ∧
    (((FileSource.ctor_fileName "ks" (World.fresh { flockOk := [false, true] }).os).1.Lock true
      (FileSource.ctor_fileName "ks" (World.fresh { flockOk := [false, true] }).os).2).2.1.Lock true
      ((FileSource.ctor_fileName "ks" (World.fresh { flockOk := [false, true] }).os).1.Lock true
        (FileSource.ctor_fileName "ks" (World.fresh { flockOk := [false, true] }).os).2).2.2).1
      = true ∧
    (((FileSource.ctor_fileName "ks" (World.fresh { flockOk := [false, true] }).os).1.Lock true
      (FileSource.ctor_fileName "ks" (World.fresh { flockOk := [false, true] }).os).2).2.1.Lock true
      ((FileSource.ctor_fileName "ks" (World.fresh { flockOk := [false, true] }).os).1.Lock true
        (FileSource.ctor_fileName "ks" (World.fresh { flockOk := [false, true] }).os).2).2.2).2.2.log
      = [.openFile "ks" .rdonly 0 3, .flock 3 .LOCK_SH false (-1), .flock 3 .LOCK_SH false 0] :=
  ⟨rfl, rfl, rfl⟩

/-- C13, amended: on a valid channel that is locked, Lock returns true, issues no
call and changes nothing, for either value of `block`; on a channel that is not
locked, Unlock issues no call and changes nothing; Unlock twice is Unlock once;
Lock twice is Lock once when the first Lock returns true or the channel is not
valid. -/
theorem C13_lock_unlock_idempotent (src : FileSource) (snk : FileSink) (block block2 : Bool)
    (os : OS) :
    (0 ≤ src.fd → src.locked = true → src.Lock block os = (true, src, os)) ∧
    (0 ≤ snk.fd → snk.locked = true → snk.Lock block os = (true, snk, os)) ∧
    (src.locked = false → src.Unlock os = (src, os)) ∧
    (snk.locked = false → snk.Unlock os = (snk, os)) ∧
    (src.Unlock os).1.Unlock (src.Unlock os).2 = src.Unlock os ∧
    (snk.Unlock os).1.Unlock (snk.Unlock os).2 = snk.Unlock os ∧
    ((src.Lock block os).1 = true ∨ src.fd < 0 →
      (src.Lock block os).2.1.Lock block2 (src.Lock block os).2.2 = src.Lock block os) ∧
    ((snk.Lock block os).1 = true ∨ snk.fd < 0 →
      (snk.Lock block os).2.1.Lock block2 (snk.Lock block os).2.2 = snk.Lock block os) := by
  refine ⟨?_, ?_, ?_, ?_, ?_, ?_, ?_, ?_⟩
  · intro h1 h2
    simp [FileSource.Lock, not_lt.mpr h1, h2]
  · intro h1 h2
    simp [FileSink.Lock, not_lt.mpr h1, h2]
  · intro h
    simp [FileSource.Unlock, h]
  · intro h
    simp [FileSink.Unlock, h]
  · unfold FileSource.Unlock
    split <;> simp_all
  · unfold FileSink.Unlock
    split <;> simp_all
  · intro h
    by_cases hfd : src.fd < 0
    · simp [FileSource.Lock, hfd]
    · have h1 : (src.Lock block os).1 = true := h.resolve_right hfd
      cases hl : src.locked with
      | true => simp [FileSource.Lock, hfd, hl]
      | false =>
        simp only [FileSource.Lock, if_neg hfd, hl, Bool.not_false, if_true] at h1 ⊢
        simp only [h1, Bool.not_true, if_neg hfd]
        simp
  · intro h
    by_cases hfd : snk.fd < 0
    · simp [FileSink.Lock, hfd]
    · have h1 : (snk.Lock block os).1 = true := h.resolve_right hfd
      cases hl : snk.locked with
      | true => simp [FileSink.Lock, hfd, hl]
      | false =>
        simp only [FileSink.Lock, if_neg hfd, hl, Bool.not_false, if_true] at h1 ⊢
        simp only [h1, Bool.not_true, if_neg hfd]
        simp

/-- Witness of C13: locked channels on the descriptors 0 and 1 of a process at
start are locked again, and unlocked channels on them are unlocked again. -/
theorem C13_lock_unlock_idempotent_witness :
    (⟨0, false, true⟩ : FileSource).Lock true (World.fresh {}).os
      = (true, ⟨0, false, true⟩, (World.fresh {}).os) ∧
    (⟨1, false, true⟩ : FileSink).Lock false (World.fresh {}).os
      = (true, ⟨1, false, true⟩, (World.fresh {}).os) ∧
    (⟨0, false, false⟩ : FileSource).Unlock (World.fresh {}).os
      = (⟨0, false, false⟩, (World.fresh {}).os) ∧
    (⟨1, false, false⟩ : FileSink).Unlock (World.fresh {}).os
      = (⟨1, false, false⟩, (World.fresh {}).os) ∧
    ((⟨0, false, true⟩ : FileSource).Lock true (World.fresh {}).os).2.1.Lock false
        ((⟨0, false, true⟩ : FileSource).Lock true (World.fresh {}).os).2.2
      = (⟨0, false, true⟩ : FileSource).Lock true (World.fresh {}).os :=
  ⟨(C13_lock_unlock_idempotent ⟨0, false, true⟩ ⟨1, false, true⟩ true false
      (World.fresh {}).os).1 (by decide) rfl,
    (C13_lock_unlock_idempotent ⟨0, false, true⟩ ⟨1, false, true⟩ false false
      (World.fresh {}).os).2.1 (by decide) rfl,
    (C13_lock_unlock_idempotent ⟨0, false, false⟩ ⟨1, false, false⟩ true false
      (World.fresh {}).os).2.2.1 rfl,
    (C13_lock_unlock_idempotent ⟨0, false, false⟩ ⟨1, false, false⟩ true false
      (World.fresh {}).os).2.2.2.1 rfl,
    (C13_lock_unlock_idempotent ⟨0, false, true⟩ ⟨1, false, true⟩ true false
      (World.fresh {}).os).2.2.2.2.2.2.1 (Or.inl rfl)⟩

/-- C15, counterexample: on a read channel whose open failed, PullBytes with
`reqBytes = 0` returns ER_INIT_FAILED and does not write `actualBytes`. -/
theorem C15_counterexample :
    ((FileSource.ctor_fileName "ks" (World.fresh { openOk := [false] }).os).1.PullBytes 0 7
      (FileSource.ctor_fileName "ks" (World.fresh { openOk := [false] }).os).2).1
        = .ER_INIT_FAILED ∧
    ((FileSource.ctor_fileName "ks" (World.fresh { openOk := [false] }).os).1.PullBytes 0 7
      (FileSource.ctor_fileName "ks" (World.fresh { openOk := [false] }).os).2).2.1 = 7 :=
  ⟨rfl, rfl⟩

/-- C15, amended: on every valid read channel (`fd >= 0`), PullBytes with
`reqBytes = 0` returns ER_OK with `actualBytes = 0` and issues no call; on a
channel that is not valid it returns ER_INIT_FAILED, leaves `actualBytes` as it
was and issues no call either. -/
theorem C15_pull_zero (src : FileSource) (actualBytes : Nat) (os : OS) :
    (0 ≤ src.fd → src.PullBytes 0 actualBytes os = (.ER_OK, 0, os)) ∧
    (src.fd < 0 → src.PullBytes 0 actualBytes os = (.ER_INIT_FAILED, actualBytes, os)) := by
  constructor
  · intro h
    simp [FileSource.PullBytes, not_lt.mpr h]
  · intro h
    simp [FileSource.PullBytes, h]

/-- Witness of C15: the read channel on the standard input, and a channel whose
open failed. -/
theorem C15_pull_zero_witness :
    FileSource.ctor_default.PullBytes 0 7 (World.fresh {}).os = (.ER_OK, 0, (World.fresh {}).os) ∧
    (⟨-1, true, false⟩ : FileSource).PullBytes 0 7 (World.fresh {}).os
      = (.ER_INIT_FAILED, 7, (World.fresh {}).os) :=
  ⟨(C15_pull_zero FileSource.ctor_default 7 (World.fresh {}).os).1 (by decide),
    (C15_pull_zero ⟨-1, true, false⟩ 7 (World.fresh {}).os).2 (by decide)⟩

/-- C16: on a channel without a valid descriptor (`fd < 0`), GetSize, PullBytes
(for every `reqBytes`) and PushBytes return ER_INIT_FAILED, leave their output
parameter and the kernel state as they were; Lock returns false for both values
of `block` and Unlock does nothing, neither touching the channel nor the kernel.
Conversely GetSize returns ER_INIT_FAILED on a channel only if its `fd < 0`. -/
theorem C16_invalid_channel (src : FileSource) (snk : FileSink) (os : OS)
    (hsrc : src.fd < 0) (hsnk : snk.fd < 0) :
    (∀ fileSize, src.GetSize fileSize os = (.ER_INIT_FAILED, fileSize, os)) ∧
    (∀ reqBytes actualBytes,
      src.PullBytes reqBytes actualBytes os = (.ER_INIT_FAILED, actualBytes, os)) ∧
    (∀ numBytes numSent, snk.PushBytes numBytes numSent os = (.ER_INIT_FAILED, numSent, os)) ∧
    (∀ block, src.Lock block os = (false, src, os)) ∧
    (∀ block, snk.Lock block os = (false, snk, os)) ∧
    src.Unlock os = (src, os) ∧ snk.Unlock os = (snk, os) ∧
    (∀ (other : FileSource) fileSize os1,
      (other.GetSize fileSize os1).1 = .ER_INIT_FAILED → other.fd < 0) := by
  refine ⟨?_, ?_, ?_, ?_, ?_, ?_, ?_, ?_⟩
  · intro v; simp [FileSource.GetSize, hsrc]
  · intro n v; simp [FileSource.PullBytes, hsrc]
  · intro n v; simp [FileSink.PushBytes, hsnk]
  · intro b; simp [FileSource.Lock, hsrc]
  · intro b; simp [FileSink.Lock, hsnk]
  · simp [FileSource.Unlock, not_le.mpr hsrc]
  · simp [FileSink.Unlock, not_le.mpr hsnk]
  · intro other v os1 h
    by_contra hn
    simp only [FileSource.GetSize, if_neg hn] at h
    split at h <;> simp at h

/-- Witness of C16: the channels left by a failed open (`fd = -1`). -/
theorem C16_invalid_channel_witness :
    (⟨-1, true, false⟩ : FileSource).fd < 0 ∧ (⟨-1, true, false⟩ : FileSink).fd < 0 ∧
    (∀ reqBytes actualBytes,
      (⟨-1, true, false⟩ : FileSource).PullBytes reqBytes actualBytes (World.fresh {}).os
        = (.ER_INIT_FAILED, actualBytes, (World.fresh {}).os)) ∧
    (∀ numBytes numSent,
      (⟨-1, true, false⟩ : FileSink).PushBytes numBytes numSent (World.fresh {}).os
        = (.ER_INIT_FAILED, numSent, (World.fresh {}).os)) :=
  ⟨by decide, by decide,
    (C16_invalid_channel ⟨-1, true, false⟩ ⟨-1, true, false⟩ (World.fresh {}).os
      (by decide) (by decide)).2.1,
    (C16_invalid_channel ⟨-1, true, false⟩ ⟨-1, true, false⟩ (World.fresh {}).os
      (by decide) (by decide)).2.2.1⟩

/-- C17: the calls a destructor issues, for a FileSource and for a FileSink: a
flock with LOCK_UN exactly when the channel is valid and locked, followed by a
close of the descriptor exactly when the channel owns it and it is valid; these
and no others, the unlock before the close.  A channel built by the default
constructor (standard input or output, not owned) issues no call when it is
destroyed unlocked, and never a close. -/
theorem C17_destructor_calls (src : FileSource) (snk : FileSink) (os : OS) :
    (∃ ret : Int, (src.dtor os).log = os.log ++
      (if 0 ≤ src.fd ∧ src.locked = true then [Syscall.flock src.fd .LOCK_UN false ret] else []) ++
      (if src.ownsFd = true ∧ 0 ≤ src.fd then [Syscall.close src.fd] else [])) ∧
    (∃ ret : Int, (snk.dtor os).log = os.log ++
      (if 0 ≤ snk.fd ∧ snk.locked = true then [Syscall.flock snk.fd .LOCK_UN false ret] else []) ++
      (if snk.ownsFd = true ∧ 0 ≤ snk.fd then [Syscall.close snk.fd] else [])) ∧
    (FileSource.ctor_default.dtor os).log = os.log ∧
    (FileSink.ctor_default.dtor os).log = os.log := by
  have key : ∀ (fd : Int) (o l : Bool), ∃ ret : Int, (closeChannel fd o l os).log = os.log ++
      (if 0 ≤ fd ∧ l = true then [Syscall.flock fd .LOCK_UN false ret] else []) ++
      (if o = true ∧ 0 ≤ fd then [Syscall.close fd] else []) := by
    intro fd o l
    by_cases h : 0 ≤ fd
    · refine ⟨(sys_flock os fd .LOCK_UN false).1, ?_⟩
      rw [closeChannel_log fd o l os h]
      cases o <;> cases l <;> simp [h]
    · refine ⟨0, ?_⟩
      simp [closeChannel, not_le.mp h, h]
  refine ⟨?_, ?_, ?_, ?_⟩
  · rw [sourceDtor_eq]
    exact key _ _ _
  · rw [sinkDtor_eq]
    exact key _ _ _
  · rw [sourceDtor_eq, closeChannel_log _ _ _ _ (by decide)]
    simp [FileSource.ctor_default]
  · rw [sinkDtor_eq, closeChannel_log _ _ _ _ (by decide)]
    simp [FileSink.ctor_default]

/-- C12: the failing input.  In a process at start where the open succeeds and
the shared lock is refused, GetFileLockForRead on an empty handle returns
ER_READ_ERROR and leaves the handle with a read channel (GetSource is not null):
descriptor 3, opened by the failed request, unlocked and still open.  When the
open itself fails (ER_EOF) the handle is left empty. -/
theorem C12_read_error_keeps_channel :
    (∃ s, (System.fresh 1 "ks" { flockOk := [false] }).run false [.GetFileLockForRead 0]
        = .ok ([some .ER_READ_ERROR], s) ∧
      (s.locks 0).GetSource = some ⟨3, true, false⟩ ∧ (s.locks 0).GetSink = none ∧
      s.w.os.ofd 3 = some 3) ∧
    (∃ s, (System.fresh 1 "ks" { openOk := [false] }).run false [.GetFileLockForRead 0]
        = .ok ([some .ER_EOF], s) ∧
      (s.locks 0).GetSource = none ∧ (s.locks 0).GetSink = none) :=
  ⟨⟨_, rfl, rfl, rfl, rfl⟩, ⟨_, rfl, rfl, rfl⟩⟩

/-- C11, counterexample: after AcquireWriteLock, a read grant to handle 0 and
ReleaseWriteLock, the reference of the FileLocker is null while handle 0 still
holds the write channel (address 0), whose descriptor 3 is open and exclusively
locked. -/
theorem C11_counterexample :
    ∃ s, (System.fresh 1 "ks" {}).run false
        [.AcquireWriteLock, .GetFileLockForRead 0, .ReleaseWriteLock]
        = .ok ([some .ER_OK, some .ER_OK, none], s) ∧
      s.locker.m_sink = none ∧ (s.locks 0).GetSink = some 0 ∧
      (s.w.heap 0).useCount = 1 ∧ (s.w.heap 0).obj = ⟨3, true, true⟩ ∧
      s.w.os.ofd 3 = some 3 ∧ s.w.os.held 3 = .exclusive :=
  ⟨_, rfl, rfl, rfl, rfl, rfl, rfl, rfl⟩

/-- C11, amended: in every state reached from a new FileLocker by a run of calls,
a write channel referred to by the FileLocker or by a handle holds the write lock
(it exists, is locked, and its descriptor is open on an open file description
that holds the exclusive lock); conversely every open file description that
holds an exclusive lock in the kernel was opened on the file of the FileLocker
and is the one of a write channel that holds the write lock and is referred to
by the FileLocker or by a handle; so the FileLocker or some handle holds a
reference exactly when some descriptor of the process is open on an open file
description of that file that holds the exclusive lock, and, when no handle
holds a reference, the reference of the FileLocker is non-null exactly when that
is the case. -/
theorem C11_reference_iff_lock (ndebug : Bool) (n : Nat) (fullFileName : String) (env : Env)
    (cs : List (Call n)) (rs : List (Option QStatus)) (s : System n)
    (hrun : (System.fresh n fullFileName env).run ndebug cs = .ok (rs, s)) :
    (∀ a, s.locker.m_sink = some a → s.w.holdsWriteLock a) ∧
    (∀ h a, (s.locks h).m_sink = some a → s.w.holdsWriteLock a) ∧
    (∀ id, s.w.os.held id = .exclusive →
      (s.w.os.files id).path = fullFileName ∧
      ∃ a, s.w.holdsWriteLock a ∧ s.w.os.ofd (s.w.fdOf a) = some id ∧
        (s.locker.m_sink = some a ∨ ∃ h, (s.locks h).m_sink = some a)) ∧
    ((s.locker.m_sink ≠ none ∨ ∃ h, (s.locks h).m_sink ≠ none) ↔
      ∃ g id, s.w.os.ofd g = some id ∧ (s.w.os.files id).path = fullFileName ∧
        s.w.os.held id = .exclusive) ∧
    ((∀ h, (s.locks h).m_sink = none) →
      (s.locker.m_sink ≠ none ↔
        ∃ g id, s.w.os.ofd g = some id ∧ (s.w.os.files id).path = fullFileName ∧
          s.w.os.held id = .exclusive)) := by
  have hinv := (System.Inv.fresh fullFileName env).of_run ndebug cs rs s hrun
  have hown : s.w.Owned fullFileName :=
    (System.owned_of_run (System.Inv.fresh fullFileName env)
      (System.owned_fresh fullFileName env) ndebug cs rs s hrun).2
  have h1 : ∀ a, s.locker.m_sink = some a → s.w.holdsWriteLock a :=
    fun a ha => hinv.holds a (hinv.live_of_locker a ha)
  have h2 : ∀ h a, (s.locks h).m_sink = some a → s.w.holdsWriteLock a :=
    fun h a ha => hinv.holds a (hinv.live_of_handle h a ha)
  have h3 : ∀ id, s.w.os.held id = .exclusive →
      (s.w.os.files id).path = fullFileName ∧
      ∃ a, s.w.holdsWriteLock a ∧ s.w.os.ofd (s.w.fdOf a) = some id ∧
        (s.locker.m_sink = some a ∨ ∃ h, (s.locks h).m_sink = some a) := by
    intro id hid
    obtain ⟨hf, a, ha, _, hofd⟩ := hown id hid
    exact ⟨hf, a, hinv.holds a ha, hofd, hinv.referrer a ha⟩
  have h4 : (s.locker.m_sink ≠ none ∨ ∃ h, (s.locks h).m_sink ≠ none) ↔
      ∃ g id, s.w.os.ofd g = some id ∧ (s.w.os.files id).path = fullFileName ∧
        s.w.os.held id = .exclusive := by
    constructor
    · rintro (hl | ⟨h, hh⟩)
      · obtain ⟨a, ha⟩ := Option.ne_none_iff_exists'.mp hl
        obtain ⟨_, _, id, hofd, hheld⟩ := h1 a ha
        exact ⟨_, id, hofd, (h3 id hheld).1, hheld⟩
      · obtain ⟨a, ha⟩ := Option.ne_none_iff_exists'.mp hh
        obtain ⟨_, _, id, hofd, hheld⟩ := h2 h a ha
        exact ⟨_, id, hofd, (h3 id hheld).1, hheld⟩
    · rintro ⟨_, id, _, _, hheld⟩
      obtain ⟨_, a, _, _, hl | ⟨h, hh⟩⟩ := h3 id hheld
      · exact Or.inl (by simp [hl])
      · exact Or.inr ⟨h, by simp [hh]⟩
  refine ⟨h1, h2, h3, h4, fun hnone => ?_⟩
  rw [← h4]
  constructor
  · exact Or.inl
  · rintro (hl | ⟨h, hh⟩)
    · exact hl
    · exact absurd (hnone h) hh

/-- Witness of C11: in the state after AcquireWriteLock and a read grant to the
one handle, the open file description 3 holds the exclusive lock; it was opened
on the file of the FileLocker, and it is the one of a write channel that the
FileLocker or the handle refers to. -/
theorem C11_reference_iff_lock_witness :
    (System.fresh 1 "ks" {}).run false [.AcquireWriteLock, .GetFileLockForRead 0]
      = .ok ([some .ER_OK, some .ER_OK],
          System.after false (System.fresh 1 "ks" {}) [.AcquireWriteLock, .GetFileLockForRead 0]) ∧
    (System.after false (System.fresh 1 "ks" {})
      [.AcquireWriteLock, .GetFileLockForRead 0]).w.os.held 3 = .exclusive ∧
    (((System.after false (System.fresh 1 "ks" {})
      [.AcquireWriteLock, .GetFileLockForRead 0]).w.os.files 3).path = "ks" ∧
    ∃ a, (System.after false (System.fresh 1 "ks" {})
        [.AcquireWriteLock, .GetFileLockForRead 0]).w.holdsWriteLock a ∧
      (System.after false (System.fresh 1 "ks" {})
        [.AcquireWriteLock, .GetFileLockForRead 0]).w.os.ofd
        ((System.after false (System.fresh 1 "ks" {})
          [.AcquireWriteLock, .GetFileLockForRead 0]).w.fdOf a) = some 3 ∧
      ((System.after false (System.fresh 1 "ks" {})
          [.AcquireWriteLock, .GetFileLockForRead 0]).locker.m_sink = some a ∨
        ∃ h, ((System.after false (System.fresh 1 "ks" {})
          [.AcquireWriteLock, .GetFileLockForRead 0]).locks h).m_sink = some a)) :=
  ⟨rfl, rfl, (C11_reference_iff_lock false 1 "ks" {} [.AcquireWriteLock, .GetFileLockForRead 0]
    [some .ER_OK, some .ER_OK] _ rfl).2.2.1 3 rfl⟩

/-- C20: in a well-formed state where the FileLocker publishes the write channel
`a`, a grant (GetFileLockForRead or GetFileLockForWrite) that returns ER_OK gives
the handle the channel `a` and a read channel of its own that is not locked and
sits on a duplicate of the descriptor of `a`.  A sequence of grants and handle
releases returns when assertions are compiled out, and whenever it returns: the
FileLocker still publishes `a`, the descriptor of `a` is the same, and `a` holds
the write lock (locked flag set, descriptor open, exclusive lock held).  If at the
start every handle was empty or riding on `a`, the sequence called no `flock` at
all, so no LOCK_UN, and every handle is empty or riding on `a` at the end. -/
theorem C20_riders_keep_lock {n : Nat} (ndebug : Bool) (s : System n) (a : Nat)
    (cs : List (Call n)) (hinv : s.Inv) (hown : s.locker.m_sink = some a)
    (hcs : ∀ c ∈ cs, c.isHandleCall = true) :
    (∀ h fl1 w1, s.locker.GetFileLockForRead ndebug (s.locks h) s.w = .ok (.ER_OK, fl1, w1) ∨
        s.locker.GetFileLockForWrite ndebug (s.locks h) s.w = .ok (.ER_OK, fl1, w1) →
      fl1.m_sink = some a ∧
      ∃ src, fl1.m_source = some src ∧ src.locked = false ∧ src.ownsFd = true ∧
        Syscall.dup (s.w.fdOf a) src.fd ∈ w1.os.log) ∧
    (ndebug = true → ∃ rs s1, s.run ndebug cs = .ok (rs, s1)) ∧
    (∀ rs s1, s.run ndebug cs = .ok (rs, s1) →
      s1.locker.m_sink = some a ∧ s1.w.fdOf a = s.w.fdOf a ∧ s1.w.holdsWriteLock a ∧
      (s.ridersOf a → s1.ridersOf a ∧ NoFlock s.w.os s1.w.os)) := by
  refine ⟨fun h fl1 w1 hg => ?_, fun hn => ?_, fun rs s1 hrun => ?_⟩
  · rw [getRead_some ndebug _ _ _ a hown, getWrite_some ndebug _ _ _ a hown, or_self] at hg
    exact rideOn_dup ndebug a _ _ _ _ hg
  · subst hn
    exact handle_run_returns hinv cs hcs a hown
  · obtain ⟨hinv1, hl, hobj, hride⟩ := handle_run hinv ndebug cs hcs a hown rs s1 hrun
    have hown1 : s1.locker.m_sink = some a := by rw [hl]; exact hown
    exact ⟨hown1, by simp only [World.fdOf, hobj a],
      hinv1.holds a (hinv1.live_of_locker a hown1), hride⟩

/-- Witness of C20: in the example state (handle 0 and handle 1 ride on the write
channel 0), handle 0 is released, granted a write lock and released again. -/
theorem C20_riders_keep_lock_witness :
    System.sharedExample.Inv ∧ System.sharedExample.locker.m_sink = some 0 ∧
    (∀ c ∈ ([.Release 0, .GetFileLockForWrite 0, .Release 0] : List (Call 2)),
      c.isHandleCall = true) ∧
    ∃ s1, System.sharedExample.run false [.Release 0, .GetFileLockForWrite 0, .Release 0]
        = .ok ([none, some .ER_OK, none], s1) ∧
      s1.locker.m_sink = some 0 ∧ s1.w.holdsWriteLock 0 :=
  ⟨(System.Inv.fresh "ks" {}).of_run false
      [.AcquireWriteLock, .GetFileLockForRead 0, .GetFileLockForWrite 1]
      [some .ER_OK, some .ER_OK, some .ER_OK] _ rfl, rfl, by decide,
    _, rfl,
    ((C20_riders_keep_lock false System.sharedExample 0
        [.Release 0, .GetFileLockForWrite 0, .Release 0]
        ((System.Inv.fresh "ks" {}).of_run false
          [.AcquireWriteLock, .GetFileLockForRead 0, .GetFileLockForWrite 1]
          [some .ER_OK, some .ER_OK, some .ER_OK] _ rfl)
        rfl (by decide)).2.2 _ _ rfl).1,
    ((C20_riders_keep_lock false System.sharedExample 0
        [.Release 0, .GetFileLockForWrite 0, .Release 0]
        ((System.Inv.fresh "ks" {}).of_run false
          [.AcquireWriteLock, .GetFileLockForRead 0, .GetFileLockForWrite 1]
          [some .ER_OK, some .ER_OK, some .ER_OK] _ rfl)
        rfl (by decide)).2.2 _ _ rfl).2.2.1⟩

/-- C18: both FileSink constructors return, and what they do is: visit the
directories of the name (the prefixes `s[0..e)` for every index `e` with
`s[e] = '/'`, `e > 0` and `s[e-1] != '/'`, in order of increasing length), each
looked up with `stat` and created with `mkdir` only when absent, stopping at the
first `mkdir` that fails; then, if all were visited, open the file, and otherwise
leave the sink invalid (`fd = -1`) without opening anything.  The visit issues
`stat` and `mkdir` calls only. -/
theorem C18_directories_visited (fileName : String) (truncate : Bool) (mode : Mode) (os : OS) :
    FileSink.ctor_fileName_truncate_mode fileName truncate mode os =
      .ok (if (visitDirs (dirModeOf mode) (dirPrefixes fileName.data) os).1 then
          (⟨(sys_open (visitDirs (dirModeOf mode) (dirPrefixes fileName.data) os).2 fileName
                (.creatRdwr truncate) (fileModeOf mode)).1, true, false⟩,
            (sys_open (visitDirs (dirModeOf mode) (dirPrefixes fileName.data) os).2 fileName
                (.creatRdwr truncate) (fileModeOf mode)).2)
        else (⟨-1, true, false⟩, (visitDirs (dirModeOf mode) (dirPrefixes fileName.data) os).2)) ∧
    FileSink.ctor_fileName_mode fileName mode os =
      .ok (if (visitDirs (dirModeOf mode) (dirPrefixes fileName.data) os).1 then
          (⟨(sys_open (visitDirs (dirModeOf mode) (dirPrefixes fileName.data) os).2 fileName
                .creatWronlyTrunc (fileModeOf mode)).1, true, false⟩,
            (sys_open (visitDirs (dirModeOf mode) (dirPrefixes fileName.data) os).2 fileName
                .creatWronlyTrunc (fileModeOf mode)).2)
        else (⟨-1, true, false⟩, (visitDirs (dirModeOf mode) (dirPrefixes fileName.data) os).2)) ∧
    DirsOnly os (visitDirs (dirModeOf mode) (dirPrefixes fileName.data) os).2 := by
  have hloop := createDirs_visits fileName.data (dirModeOf mode) (fileName.data.length + 1) 0 os
    (Nat.zero_le _) (by omega) (Or.inl rfl)
  rw [← dirPrefixes_eq] at hloop
  refine ⟨?_, ?_, visitDirs_dirsOnly _ _ _⟩
  · unfold FileSink.ctor_fileName_truncate_mode
    rw [hloop]
    cases hv : (visitDirs (dirModeOf mode) (dirPrefixes fileName.data) os) with
    | mk r os1 => cases r <;> rfl
  · unfold FileSink.ctor_fileName_mode
    rw [hloop]
    cases hv : (visitDirs (dirModeOf mode) (dirPrefixes fileName.data) os) with
    | mk r os1 => cases r <;> rfl

/-- C19: for every stack, ordered or not, AcquiringLock signals an order
violation exactly when the level of the lock being acquired is strictly less than
the level of some lock on the stack of the thread, wherever on the stack that lock
sits.  Acquiring locks of levels 1, 3, 5 in this order signals nothing; acquiring
levels 3, 1 signals a violation at the second lock; acquiring levels 3, 1, 2
signals one at the second and at the third lock, the third because of the lock of
level 3 below the top of the stack.  In a run of acquisitions and releases that
starts with an ordered stack and in which no violation is signalled, the stack is
ordered by non-decreasing level at the end (hence after every push, every prefix
of such a run being such a run). -/
theorem C19_lock_order (self : LockChecker) (lock : Mutex) (ops : List LockOp) :
    ((self.AcquiringLock lock).orderViolation = true ↔
      ∃ t ∈ self.m_lockStack, lock.level < t.level) ∧
    (∀ r ∈ (LockChecker.ctor.run [.acquire ⟨10, 1⟩, .acquire ⟨11, 3⟩, .acquire ⟨12, 5⟩]).1,
      r.orderViolation = false) ∧
    (LockChecker.ctor.run [.acquire ⟨11, 3⟩, .acquire ⟨10, 1⟩]).1.map (·.orderViolation)
      = [false, true] ∧
    (LockChecker.ctor.run [.acquire ⟨11, 3⟩, .acquire ⟨10, 1⟩, .acquire ⟨12, 2⟩]).1.map
      (·.orderViolation) = [false, true, true] ∧
    (self.ordered → (∀ r ∈ (self.run ops).1, r.orderViolation = false) →
      (self.run ops).2.ordered) := by
  refine ⟨?_, by decide, by decide, by decide, ?_⟩
  · simp [LockChecker.AcquiringLock]
  · intro hstart hclean
    induction ops generalizing self with
    | nil => exact hstart
    | cons op ops ih =>
      cases op with
      | acquire l =>
        simp only [LockChecker.run] at hclean ⊢
        have h0 := hclean _ (List.mem_cons_self _ _)
        refine ih (self.LockAcquired l) ?_ (fun r hr => hclean r (List.mem_cons_of_mem _ hr))
        simp only [LockChecker.ordered, LockChecker.LockAcquired]
        rw [List.pairwise_append]
        refine ⟨hstart, by simp, fun x hx y hy => ?_⟩
        simp only [List.mem_singleton] at hy
        subst hy
        simp only [LockChecker.AcquiringLock, List.any_eq_false, decide_eq_true_eq] at h0
        have := h0 x hx
        show x.level ≤ l.level
        omega
      | release l =>
        simp only [LockChecker.run] at hclean ⊢
        refine ih (self.ReleasingLock l).2 ?_ hclean
        simp only [LockChecker.ordered, LockChecker.ReleasingLock]
        refine List.Pairwise.sublist ?_ hstart
        have := (List.eraseP_sublist (p := fun t => decide (t.lock = l.id))
          self.m_lockStack.reverse).reverse
        simpa using this

/-- Witness of C19: on the stack of levels 3, 1, which is not ordered, a lock of
level 2 is below the lock of level 3 that is not on top, and a violation is
signalled; and a thread without locks acquires the levels 1, 3 and 5, releases the
lock of level 3 and acquires one of level 5 again, which leaves an ordered stack. -/
theorem C19_lock_order_witness :
    (∃ t ∈ (⟨[⟨11, 3⟩, ⟨10, 1⟩]⟩ : LockChecker).m_lockStack, (⟨12, 2⟩ : Mutex).level < t.level) ∧
    ((⟨[⟨11, 3⟩, ⟨10, 1⟩]⟩ : LockChecker).AcquiringLock ⟨12, 2⟩).orderViolation = true ∧
    LockChecker.ctor.ordered ∧
    (∀ r ∈ (LockChecker.ctor.run [.acquire ⟨10, 1⟩, .acquire ⟨11, 3⟩, .acquire ⟨12, 5⟩,
        .release ⟨11, 3⟩, .acquire ⟨13, 5⟩]).1, r.orderViolation = false) ∧
    (LockChecker.ctor.run [.acquire ⟨10, 1⟩, .acquire ⟨11, 3⟩, .acquire ⟨12, 5⟩,
        .release ⟨11, 3⟩, .acquire ⟨13, 5⟩]).2.m_lockStack = [⟨10, 1⟩, ⟨12, 5⟩, ⟨13, 5⟩] ∧
    (LockChecker.ctor.run [.acquire ⟨10, 1⟩, .acquire ⟨11, 3⟩, .acquire ⟨12, 5⟩,
        .release ⟨11, 3⟩, .acquire ⟨13, 5⟩]).2.ordered :=
  ⟨⟨⟨11, 3⟩, by decide, by decide⟩,
    (C19_lock_order ⟨[⟨11, 3⟩, ⟨10, 1⟩]⟩ ⟨12, 2⟩ []).1.mpr ⟨⟨11, 3⟩, by decide, by decide⟩,
    List.Pairwise.nil, by decide, by decide,
    (C19_lock_order LockChecker.ctor ⟨10, 1⟩ [.acquire ⟨10, 1⟩, .acquire ⟨11, 3⟩,
      .acquire ⟨12, 5⟩, .release ⟨11, 3⟩, .acquire ⟨13, 5⟩]).2.2.2.2 List.Pairwise.nil
      (by decide)⟩

/-- C21: the failing inputs.  A read channel on descriptor 3 is locked (the open
file description 3 holds the shared lock); a copy of it is built (descriptor 4, the
same open file description, locked flag copied) and destroyed.  The destructor of
the copy calls `flock(4, LOCK_UN)`, which drops the lock of the description they
share: the original still has `locked = true` and an open descriptor, and holds no
lock.  The same happens to a locked write channel that is assigned to another
channel, through the temporary the assignment operator returns. -/
theorem C21_copy_drops_lock :
    lockedSourceExample.1 = ⟨3, true, true⟩ ∧
    lockedSourceExample.2.ofd 3 = some 3 ∧ lockedSourceExample.2.held 3 = .shared ∧
    (FileSource.ctor_copy lockedSourceExample.1 lockedSourceExample.2).1 = ⟨4, true, true⟩ ∧
    sourceCopyDestroyed.ofd 3 = some 3 ∧ sourceCopyDestroyed.held 3 = .unlocked ∧
    sourceCopyDestroyed.log = [.openFile "ks" .rdonly 0 3, .flock 3 .LOCK_SH false 0,
      .dup 3 4, .flock 4 .LOCK_UN false 0, .close 4] ∧
    (∃ snk copy os, sinkAssigned = .ok (snk, copy, os) ∧
      snk = ⟨3, true, true⟩ ∧ copy = ⟨4, true, true⟩ ∧
      os.ofd 3 = some 3 ∧ os.ofd 4 = some 3 ∧ os.held 3 = .unlocked) :=
  ⟨rfl, rfl, rfl, rfl, rfl, rfl, rfl, _, _, _, rfl, rfl, rfl, rfl, rfl, rfl⟩

/-- C23: the directory loop of the FileSink constructors, for every file name.
An iteration that finds a slash at `e`, at or after the scan position `begin`,
either returns (a `mkdir` failed) or goes on at `e + 1`, which is greater than
`begin`, does not pass the end of the name and leaves one slash less to find; an
iteration that finds none ends the loop.  So the loop returns within one iteration
per '/' of the name (and the test that ends it), more iterations allowed change
nothing, and both constructors return. -/
theorem C23_loop_terminates (fileName : String) (truncate : Bool) (mode : Mode)
    (m fuel begin : Nat) (os : OS) :
    (∀ e, findFrom fileName.data '/' begin = some e →
      begin < e + 1 ∧ e + 1 ≤ fileName.data.length ∧
      slashesFrom fileName.data (e + 1) + 1 = slashesFrom fileName.data begin ∧
      ∃ os1, FileSink.createDirs fileName.data m (fuel + 1) begin os = .ok (false, os1) ∨
        FileSink.createDirs fileName.data m (fuel + 1) begin os
          = FileSink.createDirs fileName.data m fuel (e + 1) os1) ∧
    (findFrom fileName.data '/' begin = none →
      FileSink.createDirs fileName.data m (fuel + 1) begin os = .ok (true, os)) ∧
    (∃ r os1,
      FileSink.createDirs fileName.data m (fileName.data.count '/' + 1) 0 os = .ok (r, os1) ∧
      ∀ more, fileName.data.count '/' + 1 ≤ more →
        FileSink.createDirs fileName.data m more 0 os = .ok (r, os1)) ∧
    (∃ obj os1,
      FileSink.ctor_fileName_truncate_mode fileName truncate mode os = .ok (obj, os1)) ∧
    (∃ obj os1, FileSink.ctor_fileName_mode fileName mode os = .ok (obj, os1)) := by
  refine ⟨fun e he => ?_, (createDirs_iteration fileName.data m fuel begin os).1, ?_, ?_, ?_⟩
  · have hb := findFrom_bounds fileName.data '/' begin e he
    exact ⟨by omega, by omega, (slashesFrom_found fileName.data begin e he).symm,
      (createDirs_iteration fileName.data m fuel begin os).2 e he⟩
  · have h0 : slashesFrom fileName.data 0 = fileName.data.count '/' := by
      simp [slashesFrom]
    obtain ⟨r, os1, _, h2⟩ := createDirs_fuel fileName.data m (fileName.data.count '/') 0 os
      (fileName.data.count '/' + 1) h0 (le_refl _)
    refine ⟨r, os1, h2, fun more hm => ?_⟩
    obtain ⟨r2, os2, h3, h4⟩ := createDirs_fuel fileName.data m (fileName.data.count '/') 0 os
      more h0 hm
    rw [h3, ← h4, h2]
  · obtain ⟨obj, os1, h, _⟩ := sinkCtor_returns fileName truncate mode os
    exact ⟨obj, os1, h⟩
  · obtain ⟨r, os1, h, _⟩ := createDirs_returns fileName.data (dirModeOf mode)
      (fileName.data.length + 1) 0 os (Nat.zero_le _) (by omega)
    unfold FileSink.ctor_fileName_mode
    rw [h]
    cases r <;> exact ⟨_, _, rfl⟩

/-- Witness of C23: the name "//a/b" scanned from its start: the first slash is at
position 0, the scan goes on at position 1, and two slashes are left of three. -/
theorem C23_loop_terminates_witness :
    findFrom "//a/b".data '/' 0 = some 0 ∧
    (0 < 0 + 1 ∧ 0 + 1 ≤ "//a/b".data.length ∧
      slashesFrom "//a/b".data (0 + 1) + 1 = slashesFrom "//a/b".data 0 ∧
      ∃ os1, FileSink.createDirs "//a/b".data 0o711 (5 + 1) 0 (World.fresh {}).os
            = .ok (false, os1) ∨
        FileSink.createDirs "//a/b".data 0o711 (5 + 1) 0 (World.fresh {}).os
          = FileSink.createDirs "//a/b".data 0o711 5 (0 + 1) os1) :=
  ⟨rfl, (C23_loop_terminates "//a/b" false Mode.PRIVATE 0o711 5 0 (World.fresh {}).os).1 0 rfl⟩

/-- C24: the failing input.  From the initial state `s_clockOffset = 0`, a first
reading of 0 s 999000000 ns leaves `s_clockOffset` at 0 and returns 999; the next
reading, 1 s 0 ns, is later, is taken for the first one, sets `s_clockOffset` to 1
and returns 0: the value went down. -/
theorem C24_timestamp_goes_back :
    GetTimestamp64 0 ⟨0, 999000000⟩ = (999, 0) ∧
    GetTimestamp64 (GetTimestamp64 0 ⟨0, 999000000⟩).2 ⟨1, 0⟩ = (0, 1) ∧
    Timespec.notAfter ⟨0, 999000000⟩ ⟨1, 0⟩ ∧
    (GetTimestamp64 (GetTimestamp64 0 ⟨0, 999000000⟩).2 ⟨1, 0⟩).1
      < (GetTimestamp64 0 ⟨0, 999000000⟩).1 :=
  ⟨by decide, by decide, Or.inl (by decide), by decide⟩

end qcc
